import Mathlib

/-!
Verification development for the antmap concept-map editor (src/main.py).
The Python source is shallowly embedded: Python floats are idealised as
rationals, Python strings are Lean strings (manipulated through their
character lists), dictionaries keyed by node id become insertion-ordered
association lists, and the ElementTree XML layer becomes an explicit tree
of elements.  XML namespaces are erased because every lookup in the source
tries both the namespaced and the plain tag, so only the local tag name is
observable.
-/

namespace Antmap

/-! Batteries marks the rational operations irreducible; making them
semireducible here lets concrete witnesses evaluate by decide. -/
attribute [local semireducible] Rat.add Rat.mul Rat.sub Rat.inv Rat.ofScientific

/-! Utilities modelling the Python string primitives used by src/main.py. -/

/-- Characters removed by Python str.strip() and recognised by str.split(). -/
def isSpaceC (c : Char) : Bool :=
  c == ' ' || c == '\t' || c == '\n' || c == '\r' || c == '\x0b' || c == '\x0c'

/-- Python str.strip() on character lists. -/
def pyStripL (l : List Char) : List Char :=
  ((l.dropWhile isSpaceC).reverse.dropWhile isSpaceC).reverse

/-- Python str.strip() on strings. -/
def pyStrip (s : String) : String := ⟨pyStripL s.data⟩

/-- Numeric value of a list of decimal digit characters. -/
def digitsVal (l : List Char) : ℕ := l.foldl (fun a c => 10 * a + (c.toNat - 48)) 0

/-- Python str.split(sep) for a one-character separator. -/
def splitChar (sep : Char) : List Char → List (List Char)
  | [] => [[]]
  | c :: rest =>
    match splitChar sep rest with
    | [] => [[]]
    | h :: t => if c == sep then [] :: h :: t else (c :: h) :: t

/-- Helper for Python str.split() with no argument: accumulates the current word. -/
def splitWsAux : List Char → List Char → List (List Char)
  | [], cur => if cur.isEmpty then [] else [cur.reverse]
  | c :: rest, cur =>
    if isSpaceC c then
      if cur.isEmpty then splitWsAux rest [] else cur.reverse :: splitWsAux rest []
    else splitWsAux rest (c :: cur)

/-- Python str.split() with no argument: splits on runs of whitespace. -/
def splitWsL (l : List Char) : List (List Char) := splitWsAux l []

/-- Python str.isdigit() restricted to ASCII digits. -/
def pyIsDigitL (l : List Char) : Bool := !l.isEmpty && l.all Char.isDigit

/-- Python str.isdigit() on strings. -/
def pyIsDigit (s : String) : Bool := pyIsDigitL s.data

/-- Digit part shared by the models of Python int(str) and float(str). -/
def pyIntDigits (l : List Char) : Option ℤ :=
  if l.isEmpty then none
  else if l.all Char.isDigit then some (digitsVal l : ℤ) else none

/-- Python int(str): optional surrounding whitespace, optional sign, decimal
digits.  (Underscore digit separators are not modelled.) -/
def pyIntL (l : List Char) : Option ℤ :=
  match pyStripL l with
  | '+' :: r => pyIntDigits r
  | '-' :: r => (pyIntDigits r).map Neg.neg
  | r => pyIntDigits r

/-- Python int(str) on strings. -/
def pyInt (s : String) : Option ℤ := pyIntL s.data

/-- Exponent part of a Python float literal. -/
def pyExpPart (l : List Char) : Option ℤ :=
  match l with
  | '+' :: r => (pyIntDigits r)
  | '-' :: r => (pyIntDigits r).map Neg.neg
  | r => pyIntDigits r

/-- Unsigned part of a Python float literal: digits, optional point, digits,
optional exponent.  The value is exact (floats are idealised as rationals). -/
def pyFloatCore (l : List Char) : Option ℚ :=
  let ip := l.takeWhile Char.isDigit
  let rest := l.dropWhile Char.isDigit
  match rest with
  | [] => if ip.isEmpty then none else some (digitsVal ip : ℚ)
  | '.' :: rest2 =>
    let fp := rest2.takeWhile Char.isDigit
    let rest3 := rest2.dropWhile Char.isDigit
    if ip.isEmpty && fp.isEmpty then none
    else
      let base : ℚ := (digitsVal ip : ℚ) + (digitsVal fp : ℚ) / (10 : ℚ) ^ fp.length
      match rest3 with
      | [] => some base
      | e :: rest4 =>
        if e == 'e' || e == 'E' then (pyExpPart rest4).map (fun ex => base * (10 : ℚ) ^ ex)
        else none
  | e :: rest4 =>
    if (e == 'e' || e == 'E') && !ip.isEmpty then
      (pyExpPart rest4).map (fun ex => (digitsVal ip : ℚ) * (10 : ℚ) ^ ex)
    else none

/-- Python float(str) idealised over the rationals ("inf"/"nan" not modelled). -/
def pyFloatL (l : List Char) : Option ℚ :=
  match pyStripL l with
  | '+' :: r => pyFloatCore r
  | '-' :: r => (pyFloatCore r).map Neg.neg
  | r => pyFloatCore r

/-- Python float(str) on strings. -/
def pyFloat (s : String) : Option ℚ := pyFloatL s.data

/-- Python int() applied to a float idealised as a rational: truncation toward 0. -/
def truncInt (q : ℚ) : ℤ := q.num.tdiv q.den

/-- Python round() to an integer: round half to even. -/
def pyRound (q : ℚ) : ℤ :=
  let f := ⌊q⌋
  let r := q - f
  if r < 1 / 2 then f else if 1 / 2 < r then f + 1 else if 2 ∣ f then f else f + 1

/-- Whether the first list is an initial segment of the second. -/
def startsL : List Char → List Char → Bool
  | [], _ => true
  | _ :: _, [] => false
  | a :: as, b :: bs => a == b && startsL as bs

/-- Whether the first list occurs contiguously inside the second. -/
def infixL (sub : List Char) : List Char → Bool
  | [] => startsL sub []
  | c :: rest => startsL sub (c :: rest) || infixL sub rest

/-- Python substring membership test (a in b). -/
def pyInStr (sub s : String) : Bool := infixL sub.data s.data

/-- Fuel-driven decimal digit expansion (structural, so it reduces in the
kernel); the fuel argument strictly dominates the digit count. -/
def natToDecAux : ℕ → ℕ → List Char
  | 0, _ => []
  | fuel + 1, n =>
    if n < 10 then [Char.ofNat (48 + n)]
    else natToDecAux fuel (n / 10) ++ [Char.ofNat (48 + n % 10)]

/-- Decimal digits of a natural number, most significant first. -/
def natToDec (n : ℕ) : List Char := natToDecAux (n + 1) n

/-- Python str() of a nonnegative integer. -/
def showNat (n : ℕ) : String := ⟨natToDec n⟩

/-- Python str() of an integer. -/
def showInt (i : ℤ) : String :=
  if i < 0 then ⟨'-' :: natToDec i.natAbs⟩ else ⟨natToDec i.toNat⟩

/-- Fuel-driven uppercase hexadecimal digit expansion. -/
def natToHexAux : ℕ → ℕ → List Char
  | 0, _ => []
  | fuel + 1, n =>
    if n < 16 then [if n < 10 then Char.ofNat (48 + n) else Char.ofNat (55 + n)]
    else natToHexAux fuel (n / 16) ++
      [if n % 16 < 10 then Char.ofNat (48 + n % 16) else Char.ofNat (55 + n % 16)]

/-- Uppercase hexadecimal digits of a natural number, most significant first. -/
def natToHex (n : ℕ) : List Char := natToHexAux (n + 1) n

/-- Left-pad with zero characters to the given length. -/
def padZeros (k : ℕ) (l : List Char) : List Char :=
  List.replicate (k - l.length) '0' ++ l

/-- Python format spec 02X applied to an integer (sign, then zero padding). -/
def fmt02X (i : ℤ) : List Char :=
  if i < 0 then '-' :: natToHex i.natAbs else padZeros 2 (natToHex i.toNat)

/-! The XML element layer (xml.etree.ElementTree, namespaces erased). -/

/-- An XML element: tag, attributes in insertion order, children. -/
structure XElem where
  tag : String
  attrs : List (String × String)
  children : List XElem

/-- ElementTree Element.get(key): first attribute with the given name. -/
def getAttr (attrs : List (String × String)) (k : String) : Option String :=
  (attrs.find? (fun p => p.1 == k)).map (fun p => p.2)

/-- ElementTree Element.set(key, value): replace or append an attribute. -/
def setAttr (attrs : List (String × String)) (k v : String) : List (String × String) :=
  if attrs.any (fun p => p.1 == k) then
    attrs.map (fun p => if p.1 == k then (k, v) else p)
  else attrs ++ [(k, v)]

/-- Repeated Element.set calls. -/
def setAttrsL (attrs : List (String × String)) (kvs : List (String × String)) :
    List (String × String) :=
  kvs.foldl (fun a kv => setAttr a kv.1 kv.2) attrs

/-- Children with a given tag, in document order. -/
def XElem.taggedChildren (e : XElem) (t : String) : List XElem :=
  e.children.filter (fun c => c.tag == t)

/-- ElementTree find with a plain tag: first matching child. -/
def XElem.find1 (e : XElem) (t : String) : Option XElem := (e.taggedChildren t).head?

/-- ElementTree findall with a two-step path such as concept-list/concept. -/
def XElem.findall2 (e : XElem) (t1 t2 : String) : List XElem :=
  ((e.taggedChildren t1).map (fun c => c.taggedChildren t2)).flatten

/-- ElementTree find with a two-step path: first match in document order. -/
def XElem.findPath2 (e : XElem) (t1 t2 : String) : Option XElem :=
  (e.findall2 t1 t2).head?

/-! The data model (ConceptData, ConnectionData, CXLDocument). -/

/-- ConceptData from src/main.py; defaults are the constructor defaults. -/
structure ConceptData where
  id : String
  label : String
  x : ℚ := 100
  y : ℚ := 100
  width : ℚ := 120
  height : ℚ := 60
  font_family : String := "Verdana"
  font_size : ℚ := 12
  font_color : String := "0,0,0,255"
  fill_color : String := "237,244,246,255"
  border_color : String := "0,0,0,255"
  border_width : ℚ := 1
  font_bold : Bool := false
  font_italic : Bool := false
  font_underline : Bool := false
  is_linker : Bool := false
deriving DecidableEq

/-- ConnectionData from src/main.py; defaults are the constructor defaults. -/
structure ConnectionData where
  id : String
  from_id : String
  to_id : String
  arrow_start : Bool := false
  arrow_end : Bool := true
  from_anchor : ℕ := 0
  to_anchor : ℕ := 0
deriving DecidableEq

/-- A Python dict keyed by node id, kept in insertion order. -/
def dictInsert (m : List ConceptData) (d : ConceptData) : List ConceptData :=
  if m.any (fun c => c.id == d.id) then m.map (fun c => if c.id == d.id then d else c)
  else m ++ [d]

/-- Python dict.get on the concepts dictionary. -/
def dictGet (m : List ConceptData) (k : String) : Option ConceptData :=
  m.find? (fun c => c.id == k)

/-- Mutation of the node object stored under a key (no-op when absent). -/
def updNode (m : List ConceptData) (k : String) (f : ConceptData → ConceptData) :
    List ConceptData :=
  m.map (fun c => if c.id == k then f c else c)

/-- Python dict.get on a style dictionary, with a default value. -/
def dget (m : List (String × String)) (k d : String) : String :=
  (getAttr m k).getD d

/-- CXLDocument state: parsed model plus the retained element tree. -/
structure CXLDocument where
  concepts : List ConceptData := []
  connections : List ConnectionData := []
  root : Option XElem := none
  appearance_mode : Bool := false
  filepath : Option String := none
  default_concept_style : List (String × String) := []
  default_linker_style : List (String × String) := []

/-! Colour handling (CXLDocument._parse_color, _color_to_rgba). -/

/-- Python str.startswith("#"). -/
def startsHash : List Char → Bool
  | '#' :: _ => true
  | _ => false

/-- The comma branch of _parse_color: int components of the first three
comma-separated parts, formatted through the 02X spec. -/
def commaTry (v : List Char) : Option (List Char) :=
  let parts := splitChar ',' v
  if parts.length ≥ 3 then
    match pyIntL (parts.getD 0 []), pyIntL (parts.getD 1 []), pyIntL (parts.getD 2 []) with
    | some r, some g, some b => some ('#' :: (fmt02X r ++ fmt02X g ++ fmt02X b))
    | _, _, _ => none
  else none

/-- The whitespace branch of _parse_color: int(float(part)) of the first three
whitespace-separated parts. -/
def wsTry (v : List Char) : Option (List Char) :=
  let wparts := splitWsL v
  if wparts.length ≥ 3 then
    match pyFloatL (wparts.getD 0 []), pyFloatL (wparts.getD 1 []), pyFloatL (wparts.getD 2 []) with
    | some r, some g, some b =>
      some ('#' :: (fmt02X (truncInt r) ++ fmt02X (truncInt g) ++ fmt02X (truncInt b)))
    | _, _, _ => none
  else none

/-- The body of _parse_color applied to the stripped value. -/
def parseColorBody (v : List Char) : List Char :=
  if startsHash v && v.length == 7 then v
  else
    match commaTry v with
    | some res => res
    | none =>
      match wsTry v with
      | some res => res
      | none => "#000000".data

/-- CXLDocument._parse_color on character lists. -/
def parse_colorL (l : List Char) : List Char := parseColorBody (pyStripL l)

/-- CXLDocument._parse_color: convert colour representations into hex #RRGGBB. -/
def parse_color (s : String) : String := ⟨parse_colorL s.data⟩

/-- Value of an uppercase or lowercase hexadecimal digit. -/
def hexVal (c : Char) : Option ℕ :=
  if '0' ≤ c ∧ c ≤ '9' then some (c.toNat - 48)
  else if 'A' ≤ c ∧ c ≤ 'F' then some (c.toNat - 55)
  else if 'a' ≤ c ∧ c ≤ 'f' then some (c.toNat - 87)
  else none

/-- Python int(two hex digits, 16). -/
def hexByte (a b : Char) : Option ℕ := do
  let x ← hexVal a
  let y ← hexVal b
  pure (16 * x + y)

/-- CXLDocument._color_to_rgba: convert #RRGGBB to R,G,B,255.  The none result
models the uncaught ValueError raised on invalid hexadecimal digits. -/
def color_to_rgba (s : String) : Option String :=
  match s.data with
  | '#' :: a :: b :: c :: d :: e :: f :: [] =>
    match hexByte a b, hexByte c d, hexByte e f with
    | some r, some g, some b2 =>
      some ⟨natToDec r ++ ',' :: natToDec g ++ ',' :: natToDec b2 ++ ",255".data⟩
    | _, _, _ => none
  | _ => some s

/-- CXLDocument._font_style_to_str. -/
def font_style_to_str (n : ConceptData) : String :=
  let styles :=
    (if n.font_bold then ["bold"] else []) ++
    (if n.font_italic then ["italic"] else []) ++
    (if n.font_underline then ["underline"] else [])
  if styles.isEmpty then "plain" else String.intercalate "-" styles

/-! Anchor geometry (NodeItem.anchor_positions, _pos_to_anchor, closest_anchors). -/

/-- NodeItem.anchor_positions: the 24 anchor points in node-local coordinates.
The two source loops append top/bottom pairs then left/right pairs. -/
def anchor_positions (n : ConceptData) : List (ℚ × ℚ) :=
  let w := n.width
  let h := n.height
  ((List.range 7).foldl (fun acc i => acc ++ [(w * i / 6, 0), (w * i / 6, h)]) []) ++
  ((List.range 5).foldl
    (fun acc j => acc ++ [(0, h * (j + 1) / 6), (w, h * (j + 1) / 6)]) [])

/-- Python str.lower() restricted to ASCII (the characters reaching it here). -/
def lowerC (c : Char) : Char :=
  if 'A' ≤ c && c ≤ 'Z' then Char.ofNat (c.toNat + 32) else c

/-- Python str.lower() on strings. -/
def pyLower (s : String) : String := ⟨s.data.map lowerC⟩

/-- CXLDocument._pos_to_anchor: CXL position strings to anchor indices. -/
def pos_to_anchor (pos : String) (node other : ConceptData) : ℕ :=
  let p := pyLower (if pos == "" then "center" else pos)
  if p == "top" then 6
  else if p == "bottom" then 7
  else if p == "left" then 18
  else if p == "right" then 19
  else
    let dx := other.x + other.width / 2 - (node.x + node.width / 2)
    let dy := other.y + other.height / 2 - (node.y + node.height / 2)
    if |dx| > |dy| then (if dx ≥ 0 then 19 else 18)
    else if dy ≥ 0 then 7 else 6

/-- CXLDocument._anchor_to_pos: anchor index to a CXL position string. -/
def anchor_to_pos (anchor : ℕ) : String :=
  if anchor ≤ 13 then (if anchor % 2 == 0 then "top" else "bottom")
  else if anchor ≤ 23 then (if anchor % 2 == 0 then "left" else "right")
  else "center"

/-- closest_anchors from src/main.py.  Scene positions of nodes coincide with
their data coordinates, so centres are (x + w/2, y + h/2). -/
def closest_anchors (source dest : ConceptData) : ℕ × ℕ :=
  let sx := source.x + source.width / 2
  let sy := source.y + source.height / 2
  let dx0 := dest.x + dest.width / 2 - sx
  let dy0 := dest.y + dest.height / 2 - sy
  if |dx0| ≥ |dy0| then
    let r_src := max 0 (min 1 ((dest.y + dest.height / 2 - source.y) / source.height))
    let r_dst := max 0 (min 1 ((source.y + source.height / 2 - dest.y) / dest.height))
    let i_src := (pyRound (r_src * 6)).toNat
    let i_dst := (pyRound (r_dst * 6)).toNat
    let rightS : List ℕ := [12, 15, 17, 19, 21, 23, 13]
    let leftS : List ℕ := [0, 14, 16, 18, 20, 22, 1]
    if dx0 ≥ 0 then (rightS.getD i_src 0, leftS.getD i_dst 0)
    else (leftS.getD i_src 0, rightS.getD i_dst 0)
  else
    let r_src := max 0 (min 1 ((dest.x + dest.width / 2 - source.x) / source.width))
    let r_dst := max 0 (min 1 ((source.x + source.width / 2 - dest.x) / dest.width))
    let i_src := (pyRound (r_src * 6)).toNat
    let i_dst := (pyRound (r_dst * 6)).toNat
    let bottomS : List ℕ := [1, 3, 5, 7, 9, 11, 13]
    let topS : List ℕ := [0, 2, 4, 6, 8, 10, 12]
    if dy0 ≥ 0 then (bottomS.getD i_src 0, topS.getD i_dst 0)
    else (topS.getD i_src 0, bottomS.getD i_dst 0)

/-! Loading (CXLDocument.load), stage by stage. -/

/-- findall("concept-list/concept"). -/
def conceptElems (m : XElem) : List XElem := m.findall2 "concept-list" "concept"

/-- findall("linking-phrase-list/linking-phrase"). -/
def linkerElems (m : XElem) : List XElem := m.findall2 "linking-phrase-list" "linking-phrase"

/-- findall("concept-appearance-list/concept-appearance"). -/
def conceptAppElems (m : XElem) : List XElem :=
  m.findall2 "concept-appearance-list" "concept-appearance"

/-- findall("linking-phrase-appearance-list/linking-phrase-appearance"). -/
def linkerAppElems (m : XElem) : List XElem :=
  m.findall2 "linking-phrase-appearance-list" "linking-phrase-appearance"

/-- findall("connection-list/connection"). -/
def connElems (m : XElem) : List XElem := m.findall2 "connection-list" "connection"

/-- findall("connection-appearance-list/connection-appearance"). -/
def connAppElems (m : XElem) : List XElem :=
  m.findall2 "connection-appearance-list" "connection-appearance"

/-- findall("style-list/style"). -/
def styleElems (m : XElem) : List XElem := m.findall2 "style-list" "style"

/-- A fresh node parsed from a concept or linking-phrase element; x and y are
the shared defaults 100, 100. -/
def mkNodeFromElem (el : XElem) (linker : Bool) (w h : ℚ) : ConceptData :=
  { id := (getAttr el.attrs "id").getD "", label := (getAttr el.attrs "label").getD "",
    width := w, height := h, is_linker := linker }

/-- The geometry try-block: x, y, width, height are assigned in order and a
parse failure aborts the block keeping the earlier assignments. -/
def tryGeomAttrs (ats : List (String × String)) (n : ConceptData) : ConceptData :=
  match (match getAttr ats "x" with | none => some n.x | some s => pyFloat s) with
  | none => n
  | some x =>
    let n := { n with x := x }
    match (match getAttr ats "y" with | none => some n.y | some s => pyFloat s) with
    | none => n
    | some y =>
      let n := { n with y := y }
      match (match getAttr ats "width" with | none => some n.width | some s => pyFloat s) with
      | none => n
      | some w =>
        let n := { n with width := w }
        match (match getAttr ats "height" with | none => some n.height | some s => pyFloat s) with
        | none => n
        | some h => { n with height := h }

/-- The per-node style attributes of an appearance element.  An attribute is
applied only when present and nonempty (Python truthiness); unparsable numeric
values are ignored by the try-blocks. -/
def styleStepBackground (ats : List (String × String)) (n : ConceptData) : ConceptData :=
  match getAttr ats "background-color" with
  | some s => if s == "" then n else { n with fill_color := parse_color s }
  | none => n

def styleStepFontColor (ats : List (String × String)) (n : ConceptData) : ConceptData :=
  match getAttr ats "font-color" with
  | some s => if s == "" then n else { n with font_color := parse_color s }
  | none => n

def styleStepBorderColor (ats : List (String × String)) (n : ConceptData) : ConceptData :=
  match getAttr ats "border-color" with
  | some s => if s == "" then n else { n with border_color := parse_color s }
  | none => n

def styleStepBorderThickness (ats : List (String × String)) (n : ConceptData) : ConceptData :=
  match getAttr ats "border-thickness" with
  | some s => if s == "" then n else
      match pyFloat s with
      | some v => { n with border_width := v }
      | none => n
  | none => n

def styleStepFontName (ats : List (String × String)) (n : ConceptData) : ConceptData :=
  match getAttr ats "font-name" with
  | some s => if s == "" then n else { n with font_family := s }
  | none => n

def styleStepFontSize (ats : List (String × String)) (n : ConceptData) : ConceptData :=
  match getAttr ats "font-size" with
  | some s => if s == "" then n else
      match pyFloat s with
      | some v => { n with font_size := v }
      | none => n
  | none => n

def styleStepFontStyle (ats : List (String × String)) (n : ConceptData) : ConceptData :=
  match getAttr ats "font-style" with
  | some s =>
    if s == "" then n else
      let sl := pyLower s
      { n with font_bold := pyInStr "bold" sl, font_italic := pyInStr "italic" sl,
               font_underline := pyInStr "underline" sl }
  | none => n

def applyStyleAttrs (ats : List (String × String)) (n : ConceptData) : ConceptData :=
  styleStepFontStyle ats (styleStepFontSize ats (styleStepFontName ats
    (styleStepBorderThickness ats (styleStepBorderColor ats
      (styleStepFontColor ats (styleStepBackground ats n))))))

/-- First appearance pass: geometry then style, skipped when the id attribute
is absent (dict.get(None) finds nothing). -/
def appFirstPass (cs : List ConceptData) (apps : List XElem) : List ConceptData :=
  apps.foldl (fun cs app =>
    match getAttr app.attrs "id" with
    | none => cs
    | some aid => updNode cs aid (fun n => applyStyleAttrs app.attrs (tryGeomAttrs app.attrs n)))
    cs

/-- Second appearance pass re-applying only the style overrides (the source
looks the node up under the key aid or ""). -/
def appOverridePass (cs : List ConceptData) (apps : List XElem) : List ConceptData :=
  apps.foldl (fun cs app =>
    updNode cs ((getAttr app.attrs "id").getD "") (fun n => applyStyleAttrs app.attrs n)) cs

/-- Parse the connection-list: ids default to fresh uuids, a destination that
resolves to a linking phrase clears arrow_end (both dialects share this code). -/
def parseConnStep (cs : List ConceptData) (uuidf : ℕ → String)
    (acc : List ConnectionData × ℕ) (el : XElem) : List ConnectionData × ℕ :=
  let idAttr := (getAttr el.attrs "id").getD ""
  let cid := if idAttr == "" then uuidf acc.2 else idAttr
  let k := if idAttr == "" then acc.2 + 1 else acc.2
  let fromv := (getAttr el.attrs "from-id").getD ""
  let tov := (getAttr el.attrs "to-id").getD ""
  let aend := match dictGet cs tov with
    | some d => !d.is_linker
    | none => true
  (acc.1 ++ [{ id := cid, from_id := fromv, to_id := tov, arrow_end := aend }], k)

def parseConns (cs : List ConceptData) (elems : List XElem) (uuidf : ℕ → String) :
    List ConnectionData :=
  (elems.foldl (parseConnStep cs uuidf) ([], 0)).1

/-- Index of the connection a connection-appearance element refers to: the
conn_lookup dict is built with last-wins semantics over equal ids. -/
def lastIdxWithId (l : List ConnectionData) (k : String) : Option ℕ :=
  ((List.range l.length).filter (fun i =>
    match l.get? i with
    | some c => c.id == k
    | none => false)).getLast?

/-- One connection-appearance element: record the id as processed, then set
the two anchors when both endpoints resolve.  A numeric from-index/to-index
wins over the symbolic from-pos/to-pos. -/
def connAppFrom (app : XElem) (src dst : ConceptData) (c : ConnectionData) :
    ConnectionData :=
  match getAttr app.attrs "from-index" with
  | some fa =>
    if pyIsDigit fa then { c with from_anchor := (digitsVal fa.data : ℕ) }
    else
      { c with from_anchor := pos_to_anchor ((getAttr app.attrs "from-pos").getD "center") src dst }
  | none =>
    { c with from_anchor := pos_to_anchor ((getAttr app.attrs "from-pos").getD "center") src dst }

def connAppTo (app : XElem) (src dst : ConceptData) (c : ConnectionData) :
    ConnectionData :=
  match getAttr app.attrs "to-index" with
  | some ta =>
    if pyIsDigit ta then { c with to_anchor := (digitsVal ta.data : ℕ) }
    else
      { c with to_anchor := pos_to_anchor ((getAttr app.attrs "to-pos").getD "center") dst src }
  | none =>
    { c with to_anchor := pos_to_anchor ((getAttr app.attrs "to-pos").getD "center") dst src }

def applyConnApp (cs : List ConceptData) (st : List ConnectionData × List String)
    (app : XElem) : List ConnectionData × List String :=
  let key := (getAttr app.attrs "id").getD ""
  match lastIdxWithId st.1 key with
  | none => st
  | some j =>
    let processed := st.2 ++ [key]
    match st.1.get? j with
    | none => (st.1, processed)
    | some c =>
      match dictGet cs c.from_id, dictGet cs c.to_id with
      | some src, some dst =>
        (st.1.set j (connAppTo app src dst (connAppFrom app src dst c)), processed)
      | _, _ => (st.1, processed)

/-- Default anchors for connections without appearance information. -/
def assignDefaultAnchors (cs : List ConceptData) (processed : List String)
    (conns : List ConnectionData) : List ConnectionData :=
  conns.map (fun c =>
    if processed.contains c.id then c
    else
      match dictGet cs c.from_id, dictGet cs c.to_id with
      | some src, some dst =>
        { c with from_anchor := pos_to_anchor "center" src dst,
                 to_anchor := pos_to_anchor "center" dst src }
      | _, _ => c)

/-- Style-sheet extraction with the per-key fallbacks of the source. -/
def extractStyle (e : XElem) (bgD borderD : String) : List (String × String) :=
  [("font-name", (getAttr e.attrs "font-name").getD "Verdana"),
   ("font-size", (getAttr e.attrs "font-size").getD "12"),
   ("font-color", (getAttr e.attrs "font-color").getD "0,0,0,255"),
   ("font-style", (getAttr e.attrs "font-style").getD "plain"),
   ("background-color", (getAttr e.attrs "background-color").getD bgD),
   ("border-color", (getAttr e.attrs "border-color").getD borderD),
   ("border-thickness", (getAttr e.attrs "border-thickness").getD "1")]

/-- Apply a default style record to a node (the source's loop body). -/
def applyDefaultStyle (style : List (String × String)) (n : ConceptData) : ConceptData :=
  let n := { n with font_family := dget style "font-name" n.font_family }
  let n := { n with font_size :=
    (match getAttr style "font-size" with
     | none => n.font_size
     | some s => (pyFloat s).getD n.font_size) }
  let n := { n with font_color := dget style "font-color" n.font_color }
  let n := { n with fill_color := dget style "background-color" n.fill_color }
  let n := { n with border_color := dget style "border-color" n.border_color }
  let n := { n with border_width :=
    (match getAttr style "border-thickness" with
     | none => n.border_width
     | some s => (pyFloat s).getD n.border_width) }
  let sstr := dget style "font-style" "plain"
  { n with font_bold := pyInStr "bold" sstr, font_italic := pyInStr "italic" sstr,
           font_underline := pyInStr "underline" sstr }

/-- The node dictionary of the appearance branch after the concept and
linking-phrase lists are read and both geometry/style appearance passes ran. -/
def appearanceNodes1 (init : List ConceptData) (m : XElem) : List ConceptData :=
  let cs := (conceptElems m).foldl (fun a el => dictInsert a (mkNodeFromElem el false 120 60))
    init
  let cs := (linkerElems m).foldl (fun a el => dictInsert a (mkNodeFromElem el true 90 11)) cs
  let cs := appFirstPass cs (conceptAppElems m)
  appFirstPass cs (linkerAppElems m)

/-- The connections of the appearance branch: parse, apply the appearance
entries, then fill in default anchors. -/
def appearanceConns (cs : List ConceptData) (m : XElem) (uuidf : ℕ → String) :
    List ConnectionData :=
  let conns := parseConns cs (connElems m) uuidf
  let cp := (connAppElems m).foldl (applyConnApp cs) (conns, [])
  assignDefaultAnchors cs cp.2 cp.1

/-- The default style record read from the style sheet, keeping the previous
document's record when the sheet or the child element is absent. -/
def sheetStyle (old : List (String × String)) (m : XElem) (tag bgD borderD : String) :
    List (String × String) :=
  match m.findPath2 "style-sheet-list" "style-sheet" with
  | none => old
  | some ss =>
    match ss.find1 tag with
    | none => old
    | some e => extractStyle e bgD borderD

/-- The second node pass of the appearance branch: apply the default styles to
every node, then re-apply the per-node appearance overrides. -/
def appearanceNodes2 (cs : List ConceptData) (m : XElem)
    (dcs dls : List (String × String)) : List ConceptData :=
  let cs := cs.map (fun n => applyDefaultStyle (if n.is_linker then dls else dcs) n)
  let cs := appOverridePass cs (conceptAppElems m)
  appOverridePass cs (linkerAppElems m)

/-- The appearance-dialect branch of CXLDocument.load. -/
def loadAppearance (doc : CXLDocument) (m : XElem) (uuidf : ℕ → String) : CXLDocument :=
  let cs := appearanceNodes1 doc.concepts m
  let conns := appearanceConns cs m uuidf
  let dcs := sheetStyle doc.default_concept_style m "concept-style" "237,244,246,255" "0,0,0,255"
  let dls := sheetStyle doc.default_linker_style m "linking-phrase-style" "0,0,255,0" "0,0,0,0"
  { doc with concepts := appearanceNodes2 cs m dcs dls, connections := conns,
             default_concept_style := dcs, default_linker_style := dls }

/-- The legacy style element attached to a node id (dict built with last-wins
semantics over equal object-ids). -/
def lastStyleFor (m : XElem) (cid : String) : Option XElem :=
  ((styleElems m).filter (fun st => (getAttr st.attrs "object-id").getD "" == cid)).getLast?

/-- Geometry, text and shape of a legacy style element applied to a node. -/
def applyLegacyStyle (st : XElem) (n : ConceptData) : ConceptData :=
  let n := match st.find1 "geom" with
    | none => n
    | some g => tryGeomAttrs g.attrs n
  let n := match st.find1 "text" with
    | none => n
    | some t =>
      let n := { n with font_family := (getAttr t.attrs "font-name").getD n.font_family }
      let n := { n with font_size :=
        (match getAttr t.attrs "font-size" with
         | none => n.font_size
         | some s => (pyFloat s).getD n.font_size) }
      let n := { n with font_color := (getAttr t.attrs "color").getD n.font_color }
      let sstr := (getAttr t.attrs "style").getD ""
      { n with font_bold := pyInStr "bold" sstr, font_italic := pyInStr "italic" sstr,
               font_underline := pyInStr "underline" sstr }
  match st.find1 "shape" with
  | none => n
  | some sh =>
    { n with fill_color := (getAttr sh.attrs "fill").getD n.fill_color,
             border_color := (getAttr sh.attrs "border").getD n.border_color }

/-- The node dictionary of the legacy branch after the concept and
linking-phrase lists are read. -/
def legacyNodes1 (init : List ConceptData) (m : XElem) : List ConceptData :=
  let cs := (conceptElems m).foldl (fun a el => dictInsert a (mkNodeFromElem el false 120 60))
    init
  (linkerElems m).foldl (fun a el => dictInsert a (mkNodeFromElem el true 120 40)) cs

/-- The legacy style pass applied to every node. -/
def legacyNodes2 (cs : List ConceptData) (m : XElem) : List ConceptData :=
  cs.map (fun n =>
    match lastStyleFor m n.id with
    | none => n
    | some st => applyLegacyStyle st n)

/-- The legacy style-list branch of CXLDocument.load. -/
def loadLegacy (doc : CXLDocument) (m : XElem) (uuidf : ℕ → String) : CXLDocument :=
  let cs := legacyNodes1 doc.concepts m
  { doc with concepts := legacyNodes2 cs m,
             connections := parseConns cs (connElems m) uuidf }

/-- The final colour canonicalisation applied to every node after parsing. -/
def canonNodeColors (n : ConceptData) : ConceptData :=
  { n with font_color := parse_color n.font_color,
           fill_color := parse_color n.fill_color,
           border_color := parse_color n.border_color }

/-- Outcome of ET.parse: failure covers malformed XML and a missing file, both
of which the source catches and re-raises before touching any state. -/
inductive ParseOutcome where
  | failure
  | ok (root : XElem)

/-- CXLDocument.load.  The returned pair is the post-call state together with
the raised error message, if any.  Root and filepath are assigned and the
concept/connection containers cleared before the map element is looked up,
exactly as in the source. -/
def load (doc : CXLDocument) (filepath : String) (uuidf : ℕ → String)
    (po : ParseOutcome) : CXLDocument × Option String :=
  match po with
  | .failure => (doc, some "Errore nel parse del file CXL")
  | .ok r =>
    let doc := { doc with root := some r, filepath := some filepath,
                          concepts := ([] : List ConceptData),
                          connections := ([] : List ConnectionData) }
    match r.find1 "map" with
    | none => (doc, some "Il file non contiene un elemento <map>.")
    | some m =>
      let am := (m.find1 "concept-appearance-list").isSome
      let doc := { doc with appearance_mode := am }
      let doc := if am then loadAppearance doc m uuidf else loadLegacy doc m uuidf
      ({ doc with concepts := doc.concepts.map canonNodeColors }, none)

/-! Saving (CXLDocument.save).  Python floats print via str(); for the decimal
values reachable here that is the exact decimal expansion, reproduced by
showFloat.  (A coordinate that stayed an int literal prints without the
trailing .0 in Python; both spellings reparse to the same value.) -/

/-- Least exponent e with den ∣ 10^e, searched up to den (enough whenever the
denominator divides some power of ten). -/
def decExp (q : ℚ) : ℕ :=
  ((List.range (q.den + 1)).find? (fun e => q.den ∣ 10 ^ e)).getD 0

/-- Python str() of a float idealised as a decimal rational. -/
def showFloatL (q : ℚ) : List Char :=
  let e := decExp q
  let n : ℕ := (|q| * 10 ^ e).num.toNat
  let ip := n / 10 ^ e
  let fp := n % 10 ^ e
  (if q < 0 then ['-'] else []) ++ natToDec ip ++ '.' ::
    (if e = 0 then ['0'] else padZeros e (natToDec fp))

/-- Python str() of a float, on strings. -/
def showFloat (q : ℚ) : String := ⟨showFloatL q⟩

/-- Replace the first list entry satisfying p using f. -/
def updateFirstWhere (p : XElem → Bool) (f : XElem → XElem) : List XElem → List XElem
  | [] => []
  | x :: xs => if p x then f x :: xs else x :: updateFirstWhere p f xs

/-- Replace the last list entry satisfying p using f. -/
def updateLastWhere (p : XElem → Bool) (f : XElem → XElem) (l : List XElem) : List XElem :=
  (updateFirstWhere p f l.reverse).reverse

/-- find-or-SubElement followed by in-place mutation: rewrite the first child
with the given tag, appending a fresh element first when none exists. -/
def XElem.modChild (e : XElem) (t : String) (f : XElem → XElem) : XElem :=
  if e.children.any (fun c => c.tag == t) then
    { e with children := updateFirstWhere (fun c => c.tag == t) f e.children }
  else { e with children := e.children ++ [f ⟨t, [], []⟩] }

/-- Concept or linking-phrase list entry written by save. -/
def mkNodeListElem (n : ConceptData) : XElem :=
  if n.is_linker then ⟨"linking-phrase", [("id", n.id), ("label", n.label)], []⟩
  else ⟨"concept", [("id", n.id), ("label", n.label)], []⟩

/-- Appearance element written by save; none models the ValueError raised by
_color_to_rgba on a malformed stored hex colour. -/
def mkAppearanceElem (n : ConceptData) : Option XElem := do
  let bg ← color_to_rgba n.fill_color
  let fc ← color_to_rgba n.font_color
  let bc ← color_to_rgba n.border_color
  pure ⟨(if n.is_linker then "linking-phrase-appearance" else "concept-appearance"),
    [("id", n.id), ("x", showFloat n.x), ("y", showFloat n.y),
     ("width", showFloat n.width), ("height", showFloat n.height),
     ("background-color", bg), ("font-color", fc), ("border-color", bc),
     ("border-thickness", showInt (truncInt n.border_width)),
     ("font-name", n.font_family), ("font-size", showInt (truncInt n.font_size)),
     ("font-style", font_style_to_str n)], []⟩

/-- Connection list entry written by save. -/
def mkConnElem (c : ConnectionData) : XElem :=
  ⟨"connection", [("id", c.id), ("from-id", c.from_id), ("to-id", c.to_id)], []⟩

/-- Connection appearance entry written by save. -/
def mkConnAppElem (c : ConnectionData) : XElem :=
  ⟨"connection-appearance",
   [("id", c.id), ("from-pos", anchor_to_pos c.from_anchor),
    ("to-pos", anchor_to_pos c.to_anchor),
    ("from-index", showNat c.from_anchor), ("to-index", showNat c.to_anchor)], []⟩

/-- The style-sheet attributes written from a style-defining node. -/
def styleAttrsOf (n : ConceptData) : Option (List (String × String)) := do
  let fc ← color_to_rgba n.font_color
  let bg ← color_to_rgba n.fill_color
  let bc ← color_to_rgba n.border_color
  pure [("font-name", n.font_family), ("font-size", showInt (truncInt n.font_size)),
        ("font-color", fc), ("font-style", font_style_to_str n),
        ("background-color", bg), ("border-color", bc),
        ("border-thickness", showInt (truncInt n.border_width))]

/-- styleAttrsOf lifted over the optional first concept / first linker. -/
def optStyleAttrs (n? : Option ConceptData) : Option (Option (List (String × String))) :=
  match n? with
  | none => some none
  | some n => (styleAttrsOf n).map some

/-- The appearance branch of save applied to the map element. -/
def saveAppearanceMap (doc : CXLDocument) (m : XElem) : Option XElem := do
  let capp ← (doc.concepts.filter (fun n => !n.is_linker)).mapM mkAppearanceElem
  let lapp ← (doc.concepts.filter (fun n => n.is_linker)).mapM mkAppearanceElem
  let cAttrs ← optStyleAttrs (doc.concepts.find? (fun n => !n.is_linker))
  let lAttrs ← optStyleAttrs (doc.concepts.find? (fun n => n.is_linker))
  let m := m.modChild "concept-list" (fun e =>
    ⟨e.tag, [], (doc.concepts.filter (fun n => !n.is_linker)).map mkNodeListElem⟩)
  let m := m.modChild "linking-phrase-list" (fun e =>
    ⟨e.tag, [], (doc.concepts.filter (fun n => n.is_linker)).map mkNodeListElem⟩)
  let m := m.modChild "concept-appearance-list" (fun e => ⟨e.tag, [], capp⟩)
  let m := m.modChild "linking-phrase-appearance-list" (fun e => ⟨e.tag, [], lapp⟩)
  let m := m.modChild "connection-list" (fun e => ⟨e.tag, [], doc.connections.map mkConnElem⟩)
  let m := m.modChild "connection-appearance-list" (fun e =>
    ⟨e.tag, [], doc.connections.map mkConnAppElem⟩)
  let m := m.modChild "style-sheet-list" (fun sl => sl.modChild "style-sheet" (fun ss =>
    if ss.children.any (fun c => c.tag == "connection-style") then ss
    else { ss with children := ss.children ++
      [⟨"connection-style",
        [("color", "0,0,0,255"), ("style", "solid"), ("thickness", "1"),
         ("type", "straight"), ("arrowhead", "if-to-concept")], []⟩] }))
  let m := m.modChild "style-sheet-list" (fun sl => sl.modChild "style-sheet" (fun ss =>
    let ss := ss.modChild "concept-style" (fun e =>
      match cAttrs with
      | none => e
      | some ats => { e with attrs := setAttrsL e.attrs ats })
    ss.modChild "linking-phrase-style" (fun e =>
      match lAttrs with
      | none => e
      | some ats => { e with attrs := setAttrsL e.attrs ats })))
  pure m

/-- Legacy save: update the label attribute of the elements whose id resolves
to a live node (findall over every list with the given tag). -/
def setLabelsIn (cs : List ConceptData) (listTag elemTag : String) (m : XElem) : XElem :=
  { m with children := m.children.map (fun ch =>
      if ch.tag == listTag then
        { ch with children := ch.children.map (fun el =>
            if el.tag == elemTag then
              match dictGet cs ((getAttr el.attrs "id").getD "") with
              | some n => { el with attrs := setAttr el.attrs "label" n.label }
              | none => el
            else el) }
      else ch) }

/-- Update or create the geom, text and shape children of a style element. -/
def updateStyleElem (n : ConceptData) (st : XElem) : XElem :=
  let st := st.modChild "geom" (fun g => { g with attrs := (setAttrsL g.attrs
    [("x", showFloat n.x), ("y", showFloat n.y), ("width", showFloat n.width),
     ("height", showFloat n.height)]) })
  let st := st.modChild "text" (fun t => { t with attrs := (setAttrsL t.attrs
    [("font-name", n.font_family), ("font-size", showInt (truncInt n.font_size)),
     ("color", n.font_color), ("style", font_style_to_str n)]) })
  st.modChild "shape" (fun sh => { sh with attrs := (setAttrsL sh.attrs
    [("fill", n.fill_color), ("border", n.border_color)]) })

/-- Whether a style-list child contains a style for the given object id. -/
def hasStyleFor (cid : String) (sl : XElem) : Bool :=
  sl.tag == "style-list" && sl.children.any (fun st => st.tag == "style" &&
    ((getAttr st.attrs "object-id").getD "" == cid))

/-- Rewrite the style element the last-wins style_lookup dict associates with
an object id (the last matching style, across style-list elements). -/
def updateLastStyleFor (m : XElem) (cid : String) (f : XElem → XElem) : XElem :=
  { m with children := (updateLastWhere (hasStyleFor cid)
      (fun sl => { sl with children := (updateLastWhere
        (fun st => st.tag == "style" && ((getAttr st.attrs "object-id").getD "" == cid)) f
        sl.children) }) m.children) }

/-- Append a freshly created style element to the first style-list, creating
the list at the end of the map when absent. -/
def appendNewStyle (m : XElem) (st : XElem) : XElem :=
  if m.children.any (fun c => c.tag == "style-list") then
    { m with children := (updateFirstWhere (fun c => c.tag == "style-list")
        (fun sl => { sl with children := sl.children ++ [st] }) m.children) }
  else { m with children := m.children ++ [⟨"style-list", [], [st]⟩] }

/-- The legacy branch of save applied to the map element. -/
def saveLegacyMap (doc : CXLDocument) (m : XElem) : XElem :=
  let m := setLabelsIn doc.concepts "concept-list" "concept" m
  let m := setLabelsIn doc.concepts "linking-phrase-list" "linking-phrase" m
  let had := fun cid => (styleElems m).any
    (fun st => ((getAttr st.attrs "object-id").getD "" == cid))
  doc.concepts.foldl (fun m n =>
    if had n.id then updateLastStyleFor m n.id (updateStyleElem n)
    else appendNewStyle m (updateStyleElem n ⟨"style", [("object-id", n.id)], []⟩)) m

/-- CXLDocument.save: returns the element tree written to disk, or the raised
error.  Errors occur in source order: missing root, missing map element, the
colour conversion ValueError, then the missing output path. -/
def save (doc : CXLDocument) (filepath : Option String) : Except String XElem :=
  match doc.root with
  | none => .error "Nessun documento CXL caricato o creato."
  | some r =>
    match r.find1 "map" with
    | none => .error "Il documento non contiene un <map>."
    | some m =>
      let newM :=
        if doc.appearance_mode then saveAppearanceMap doc m else some (saveLegacyMap doc m)
      match newM with
      | none => .error "ValueError: invalid literal for int() with base 16"
      | some m2 =>
        let outpath := match filepath with
          | some s => if s == "" then doc.filepath.getD "" else s
          | none => doc.filepath.getD ""
        if outpath == "" then .error "Specificare un percorso per salvare."
        else .ok { r with children :=
          (updateFirstWhere (fun c => c.tag == "map") (fun _ => m2) r.children) }

/-! Editor operations: deletion with bridging, relabelling, undo/redo. -/

/-- The bridging endpoints computed by delete_selected's loop over a linker's
two attached connections (last assignment wins, as in the source). -/
def bridgeEnds (cid : String) (related : List ConnectionData) :
    Option String × Option String :=
  related.foldl (fun p c =>
    if c.to_id == cid then (some c.from_id, p.2)
    else if c.from_id == cid then (p.1, some c.to_id)
    else p) (none, none)

/-- ConceptMapEditor.delete_selected restricted to a single selected node.
The uuid argument stands for the fresh uuid4 given to a bridged connection. -/
def delete_node (doc : CXLDocument) (uuid : String) (cid : String) : CXLDocument :=
  match dictGet doc.concepts cid with
  | none => doc
  | some node =>
    if node.is_linker then
      let related := doc.connections.filter (fun c => c.from_id == cid || c.to_id == cid)
      if related.length == 2 then
        let ends := bridgeEnds cid related
        let conns := doc.connections.filter (fun c => !(c.from_id == cid || c.to_id == cid))
        let conns := match ends with
          | (some s, some d) =>
            if s ≠ "" ∧ d ≠ "" then conns ++ [{ id := uuid, from_id := s, to_id := d }]
            else conns
          | _ => conns
        { doc with connections := conns,
                   concepts := doc.concepts.filter (fun c => !(c.id == cid)) }
      else { doc with concepts := doc.concepts.filter (fun c => !(c.id == cid)) }
    else
      { doc with
        connections := doc.connections.filter (fun c => !(c.from_id == cid) && !(c.to_id == cid)),
        concepts := doc.concepts.filter (fun c => !(c.id == cid)) }

/-- NodeItem.finish_editing restricted to its label update: empty or
all-whitespace text is replaced by the fixed placeholder. -/
def finish_editing (n : ConceptData) (text : String) : ConceptData :=
  let stripped := pyStrip text
  { n with label := if stripped == "" then "????" else stripped }

/-- Editor undo/redo state: the live document plus the two snapshot stacks. -/
structure EditorState where
  document : CXLDocument
  undo_stack : List CXLDocument := []
  redo_stack : List CXLDocument := []

/-- ConceptMapEditor.push_undo_state (deepcopy is value copying here). -/
def push_undo_state (e : EditorState) : EditorState :=
  { e with undo_stack := e.undo_stack ++ [e.document], redo_stack := [] }

/-- ConceptMapEditor.undo. -/
def undo (e : EditorState) : EditorState :=
  match e.undo_stack.getLast? with
  | none => e
  | some d =>
    { document := d, undo_stack := e.undo_stack.dropLast,
      redo_stack := e.redo_stack ++ [e.document] }

/-- ConceptMapEditor.redo. -/
def redo (e : EditorState) : EditorState :=
  match e.redo_stack.getLast? with
  | none => e
  | some d =>
    { document := d, redo_stack := e.redo_stack.dropLast,
      undo_stack := e.undo_stack ++ [e.document] }

/-- One model mutation as performed by the editor: push_undo_state followed by
an arbitrary update of the live document. -/
def applyOp (e : EditorState) (f : CXLDocument → CXLDocument) : EditorState :=
  let e2 := push_undo_state e
  { e2 with document := f e2.document }

/-- Whether an id resolves to a linking phrase in the node dictionary. -/
def isLinkerId (cs : List ConceptData) (k : String) : Bool :=
  match dictGet cs k with
  | some n => n.is_linker
  | none => false

/-- The identity-relevant projection of a node. -/
def nodeKey (n : ConceptData) : String × Bool := (n.id, n.is_linker)

/-- A small appearance-dialect file: two concepts, one linking phrase, a
connection into the linker and one out of it, with explicit anchor indices. -/
def c10file : XElem :=
  ⟨"cmap", [], [⟨"map", [], [
    ⟨"concept-list", [], [
      ⟨"concept", [("id", "c1"), ("label", "A")], []⟩,
      ⟨"concept", [("id", "c2"), ("label", "B")], []⟩]⟩,
    ⟨"linking-phrase-list", [], [
      ⟨"linking-phrase", [("id", "l1"), ("label", "rel")], []⟩]⟩,
    ⟨"connection-list", [], [
      ⟨"connection", [("id", "k1"), ("from-id", "c1"), ("to-id", "l1")], []⟩,
      ⟨"connection", [("id", "k2"), ("from-id", "l1"), ("to-id", "c2")], []⟩]⟩,
    ⟨"concept-appearance-list", [], []⟩,
    ⟨"connection-appearance-list", [], [
      ⟨"connection-appearance", [("id", "k1"), ("from-index", "19"), ("to-index", "18")], []⟩,
      ⟨"connection-appearance", [("id", "k2"), ("from-index", "7"), ("to-index", "3")], []⟩]⟩]⟩]⟩

/-- Whether every numeric from-index/to-index attribute of the file's
connection-appearance elements is below 24. -/
def connAppIdxOK (f : XElem) : Bool :=
  (match f.find1 "map" with
   | some m => connAppElems m
   | none => []).all (fun app =>
    (match getAttr app.attrs "from-index" with
     | some s => !pyIsDigit s || decide (digitsVal s.data < 24)
     | none => true) &&
    (match getAttr app.attrs "to-index" with
     | some s => !pyIsDigit s || decide (digitsVal s.data < 24)
     | none => true))

/-- The c10file shape with an out-of-range numeric from-index. -/
def c7file : XElem :=
  ⟨"cmap", [], [⟨"map", [], [
    ⟨"concept-list", [], [
      ⟨"concept", [("id", "c1"), ("label", "A")], []⟩,
      ⟨"concept", [("id", "c2"), ("label", "B")], []⟩]⟩,
    ⟨"linking-phrase-list", [], [
      ⟨"linking-phrase", [("id", "l1"), ("label", "rel")], []⟩]⟩,
    ⟨"connection-list", [], [
      ⟨"connection", [("id", "k1"), ("from-id", "c1"), ("to-id", "l1")], []⟩]⟩,
    ⟨"concept-appearance-list", [], []⟩,
    ⟨"connection-appearance-list", [], [
      ⟨"connection-appearance", [("id", "k1"), ("from-index", "99"), ("to-index", "5")], []⟩]⟩]⟩]⟩

/-- Whether a rational is a decimal fraction (denominator divides a power of
ten found by decExp, as holds for every Python float printed by str()). -/
def decimalQ (q : ℚ) : Bool := decide (q.den ∣ 10 ^ decExp q)

/-- The rgba string a canonical colour converts to. -/
def rgbaStr (c : String) : String := (color_to_rgba c).getD ""

/-- A colour that survives the save/load conversion exactly: it is already in
parse_color canonical form and converts to an rgba string that parses back. -/
def goodColor (c : String) : Bool :=
  parse_color c == c &&
  (match color_to_rgba c with
   | some s => parse_color s == c
   | none => false)

/-- A rational that Python int() truncation leaves unchanged. -/
def intQ (q : ℚ) : Bool := decide ((truncInt q : ℚ) = q)

/-- A node whose attributes survive the save format: decimal coordinates,
canonical colours, integral font size and border width, nonempty font name. -/
def goodNode (n : ConceptData) : Bool :=
  decimalQ n.x && decimalQ n.y && decimalQ n.width && decimalQ n.height &&
  goodColor n.fill_color && goodColor n.font_color && goodColor n.border_color &&
  intQ n.font_size && intQ n.border_width &&
  !(n.font_family == "")

/-- The saved ordering of the node dictionary: concepts first, then linking
phrases. -/
def filterSplit (l : List ConceptData) : List ConceptData :=
  l.filter (fun n => !n.is_linker) ++ l.filter (fun n => n.is_linker)

/-- Conditional node update keyed on an appearance element id. -/
def condUpd (key : Option String) (f : ConceptData → ConceptData)
    (n : ConceptData) : ConceptData :=
  match key with
  | none => n
  | some aid => if n.id == aid then f n else n

/-- The appearance element mkAppearanceElem writes for a good node. -/
def appElemP (n : ConceptData) : XElem :=
  ⟨(if n.is_linker then "linking-phrase-appearance" else "concept-appearance"),
    [("id", n.id), ("x", showFloat n.x), ("y", showFloat n.y),
     ("width", showFloat n.width), ("height", showFloat n.height),
     ("background-color", rgbaStr n.fill_color), ("font-color", rgbaStr n.font_color),
     ("border-color", rgbaStr n.border_color),
     ("border-thickness", showInt (truncInt n.border_width)),
     ("font-name", n.font_family), ("font-size", showInt (truncInt n.font_size)),
     ("font-style", font_style_to_str n)], []⟩

/-- The style-sheet attributes styleAttrsOf writes for a good node. -/
def styleAttrsP (n : ConceptData) : List (String × String) :=
  [("font-name", n.font_family), ("font-size", showInt (truncInt n.font_size)),
   ("font-color", rgbaStr n.font_color), ("font-style", font_style_to_str n),
   ("background-color", rgbaStr n.fill_color), ("border-color", rgbaStr n.border_color),
   ("border-thickness", showInt (truncInt n.border_width))]

/-- saveAppearanceMap with every optional conversion resolved (good nodes). -/
def pureSaveMap (doc : CXLDocument) (m : XElem) : XElem :=
  let capp := (doc.concepts.filter (fun n => !n.is_linker)).map appElemP
  let lapp := (doc.concepts.filter (fun n => n.is_linker)).map appElemP
  let cAttrs := (doc.concepts.find? (fun n => !n.is_linker)).map styleAttrsP
  let lAttrs := (doc.concepts.find? (fun n => n.is_linker)).map styleAttrsP
  let m := m.modChild "concept-list" (fun e =>
    ⟨e.tag, [], (doc.concepts.filter (fun n => !n.is_linker)).map mkNodeListElem⟩)
  let m := m.modChild "linking-phrase-list" (fun e =>
    ⟨e.tag, [], (doc.concepts.filter (fun n => n.is_linker)).map mkNodeListElem⟩)
  let m := m.modChild "concept-appearance-list" (fun e => ⟨e.tag, [], capp⟩)
  let m := m.modChild "linking-phrase-appearance-list" (fun e => ⟨e.tag, [], lapp⟩)
  let m := m.modChild "connection-list" (fun e => ⟨e.tag, [], doc.connections.map mkConnElem⟩)
  let m := m.modChild "connection-appearance-list" (fun e =>
    ⟨e.tag, [], doc.connections.map mkConnAppElem⟩)
  let m := m.modChild "style-sheet-list" (fun sl => sl.modChild "style-sheet" (fun ss =>
    if ss.children.any (fun c => c.tag == "connection-style") then ss
    else { ss with children := ss.children ++
      [⟨"connection-style",
        [("color", "0,0,0,255"), ("style", "solid"), ("thickness", "1"),
         ("type", "straight"), ("arrowhead", "if-to-concept")], []⟩] }))
  let m := m.modChild "style-sheet-list" (fun sl => sl.modChild "style-sheet" (fun ss =>
    let ss := ss.modChild "concept-style" (fun e =>
      match cAttrs with
      | none => e
      | some ats => { e with attrs := setAttrsL e.attrs ats })
    ss.modChild "linking-phrase-style" (fun e =>
      match lAttrs with
      | none => e
      | some ats => { e with attrs := setAttrsL e.attrs ats })))
  m

/-- The connection style element save appends to a fresh style sheet. -/
def connStyleDefaultElem : XElem :=
  ⟨"connection-style",
   [("color", "0,0,0,255"), ("style", "solid"), ("thickness", "1"),
    ("type", "straight"), ("arrowhead", "if-to-concept")], []⟩

/-- The concept-style / linking-phrase-style element created on a fresh sheet. -/
def styleChildE (t : String) (ats? : Option (List (String × String))) : XElem :=
  match ats? with
  | none => ⟨t, [], []⟩
  | some ats => ⟨t, setAttrsL [] ats, []⟩

/-- The node a concept list entry parses back to (appearance dialect). -/
def baseC (n : ConceptData) : ConceptData :=
  { id := n.id, label := n.label, width := 120, height := 60 }

/-- The node a linking-phrase list entry parses back to (appearance dialect). -/
def baseL (n : ConceptData) : ConceptData :=
  { id := n.id, label := n.label, width := 90, height := 11, is_linker := true }

/-- A connection as the parse stage first reconstructs it (anchors zero). -/
def zeroConn (c : ConnectionData) : ConnectionData :=
  { c with from_anchor := 0, to_anchor := 0 }

/-- A connection whose saved form reloads to itself: nonempty id, resolving
endpoints, and the arrow flags the loader recomputes. -/
def goodConn (cs : List ConceptData) (c : ConnectionData) : Bool :=
  !(c.id == "") && (dictGet cs c.from_id).isSome && (dictGet cs c.to_id).isSome &&
  (c.arrow_start == false) && (c.arrow_end == !(isLinkerId cs c.to_id))

/-- Unwrap a successful save result (fallback never reached in the theorems). -/
def exceptOk : Except String XElem → XElem
  | .ok t => t
  | .error _ => ⟨"", [], []⟩

/-- An appearance file whose concept carries a fractional font size. -/
def c2file : XElem :=
  ⟨"cmap", [], [⟨"map", [], [
    ⟨"concept-list", [], [⟨"concept", [("id", "c1"), ("label", "A")], []⟩]⟩,
    ⟨"concept-appearance-list", [], [
      ⟨"concept-appearance", [("id", "c1"), ("font-size", "14.5")], []⟩]⟩]⟩]⟩

/-- A concrete good document for the C2 witness. -/
def c2doc : CXLDocument :=
  { root := some ⟨"cmap", [], [⟨"map", [], []⟩]⟩,
    appearance_mode := true,
    concepts := [
      { id := "c1", label := "A", font_color := "#000000", fill_color := "#EDF4F6",
        border_color := "#000000" },
      { id := "l1", label := "rel", font_color := "#000000", fill_color := "#EDF4F6",
        border_color := "#000000", is_linker := true }],
    connections := [
      { id := "k1", from_id := "c1", to_id := "l1", arrow_end := false,
        from_anchor := 19, to_anchor := 18 }] }

/-! Definitions supporting the save/load round-trip analysis. -/

/-- The six structural list tags save rebuilds inside the map element. -/
def saveListTags : List String :=
  ["concept-list", "linking-phrase-list", "concept-appearance-list",
   "linking-phrase-appearance-list", "connection-list", "connection-appearance-list"]

/-- The style truncation save applies to every node: font size and border
width pass through int(). -/
def truncStyle (n : ConceptData) : ConceptData :=
  { n with font_size := ((truncInt n.font_size : ℤ) : ℚ),
           border_width := ((truncInt n.border_width : ℤ) : ℚ) }

/-- Decimal coordinates only (no constraint on the style fields). -/
def decCoords (n : ConceptData) : Bool :=
  decimalQ n.x && decimalQ n.y && decimalQ n.width && decimalQ n.height

/-- A node whose geometry, colours and font name survive the save format;
the numeric style fields may be fractional (they are truncated). -/
def goodNodeT (n : ConceptData) : Bool :=
  decimalQ n.x && decimalQ n.y && decimalQ n.width && decimalQ n.height &&
  goodColor n.fill_color && goodColor n.font_color && goodColor n.border_color &&
  !(n.font_family == "")

/-- All style elements recorded for an object id, in document order. -/
def styleFor (m : XElem) (cid : String) : List XElem :=
  (styleElems m).filter (fun st => (getAttr st.attrs "object-id").getD "" == cid)

/-- The combined predicate selecting the style elements of an object id. -/
def stPred (cid : String) (st : XElem) : Bool :=
  st.tag == "style" && ((getAttr st.attrs "object-id").getD "" == cid)

/-- Matching styles of one style-list element. -/
def payQ (cid : String) (sl : XElem) : List XElem := sl.children.filter (stPred cid)

def legKey (n : ConceptData) : String × String × Bool × ℚ :=
  (n.id, n.label, n.is_linker, n.border_width)

def elFix (cs : List ConceptData) (el : XElem) : XElem :=
  match dictGet cs ((getAttr el.attrs "id").getD "") with
  | some n => { el with attrs := setAttr el.attrs "label" n.label }
  | none => el

def elFixT (cs : List ConceptData) (et : String) (el : XElem) : XElem :=
  if el.tag == et then elFix cs el else el

def gLab (cs : List ConceptData) (b : ConceptData) : ConceptData :=
  match dictGet cs b.id with
  | some nn => { b with label := nn.label }
  | none => b

/-! Lemmas. -/

lemma string_mk_data (s : String) : (⟨s.data⟩ : String) = s := rfl

lemma dropWhile_eq_self_of_head (p : Char → Bool) (l : List Char)
    (h : ∀ c, l.head? = some c → p c = false) : l.dropWhile p = l := by
  cases l with
  | nil => rfl
  | cons a t => simp [List.dropWhile_cons, h a rfl]

lemma pyStripL_eq_self (l : List Char)
    (h1 : ∀ c, l.head? = some c → isSpaceC c = false)
    (h2 : ∀ c, l.getLast? = some c → isSpaceC c = false) : pyStripL l = l := by
  unfold pyStripL
  rw [dropWhile_eq_self_of_head _ _ h1]
  rw [dropWhile_eq_self_of_head _ _ (fun c hc =>
    h2 c (by rwa [List.head?_reverse] at hc))]
  exact List.reverse_reverse l

lemma pyStripL_eq_self_of_all (l : List Char)
    (h : ∀ c ∈ l, isSpaceC c = false) : pyStripL l = l := by
  refine pyStripL_eq_self l (fun c hc => h c ?_) (fun c hc => h c ?_)
  · exact List.mem_of_mem_head? hc
  · cases l with
    | nil => simp at hc
    | cons a t =>
      rw [List.getLast?_eq_getLast _ (by simp)] at hc
      exact Option.some_injective _ hc ▸ List.getLast_mem _

lemma digit_not_space (c : Char) (h : c.isDigit = true) : isSpaceC c = false := by
  unfold isSpaceC
  rcases eq_or_ne c ' ' with rfl | h1
  · exact absurd h (by decide)
  rcases eq_or_ne c '\t' with rfl | h2
  · exact absurd h (by decide)
  rcases eq_or_ne c '\n' with rfl | h3
  · exact absurd h (by decide)
  rcases eq_or_ne c '\r' with rfl | h4
  · exact absurd h (by decide)
  rcases eq_or_ne c '\x0b' with rfl | h5
  · exact absurd h (by decide)
  rcases eq_or_ne c '\x0c' with rfl | h6
  · exact absurd h (by decide)
  rw [beq_eq_false_iff_ne.mpr h1, beq_eq_false_iff_ne.mpr h2, beq_eq_false_iff_ne.mpr h3,
      beq_eq_false_iff_ne.mpr h4, beq_eq_false_iff_ne.mpr h5, beq_eq_false_iff_ne.mpr h6]
  rfl

lemma digit_ne (c d : Char) (h : c.isDigit = true) (hd : d.isDigit = false) : c ≠ d :=
  fun e => by subst e; rw [h] at hd; cases hd

lemma splitChar_ne_nil (sep : Char) (l : List Char) : splitChar sep l ≠ [] := by
  cases l with
  | nil => simp [splitChar]
  | cons a t =>
    rcases h : splitChar sep t with _ | ⟨h1, t1⟩ <;> simp [splitChar, h] <;> split <;> simp

lemma splitChar_no_sep (sep : Char) (l : List Char) (h : sep ∉ l) : splitChar sep l = [l] := by
  induction l with
  | nil => rfl
  | cons a t ih =>
    have ha : (a == sep) = false :=
      beq_eq_false_iff_ne.mpr (fun e => h (e ▸ List.mem_cons_self a t))
    rw [splitChar, ih (fun m => h (List.mem_cons_of_mem a m)), ha]
    simp

lemma splitChar_append (sep : Char) (a b : List Char) (h : sep ∉ a) :
    splitChar sep (a ++ sep :: b) = a :: splitChar sep b := by
  induction a with
  | nil =>
    rcases hsb : splitChar sep b with _ | ⟨h1, t1⟩
    · exact absurd hsb (splitChar_ne_nil sep b)
    · simp [splitChar, hsb]
  | cons c t ih =>
    have hc : (c == sep) = false :=
      beq_eq_false_iff_ne.mpr (fun e => h (e ▸ List.mem_cons_self c t))
    rw [List.cons_append, splitChar, ih (fun m => h (List.mem_cons_of_mem c m)), hc]
    simp

lemma splitWsAux_word (w : List Char) (hw : ∀ c ∈ w, isSpaceC c = false) :
    ∀ (rest cur : List Char), splitWsAux (w ++ rest) cur = splitWsAux rest (w.reverse ++ cur) := by
  induction w with
  | nil => intro rest cur; simp
  | cons a t ih =>
    intro rest cur
    have ha := hw a (List.mem_cons_self a t)
    rw [List.cons_append, splitWsAux]
    rw [ha]
    simp only [Bool.false_eq_true, if_false]
    rw [ih (fun c m => hw c (List.mem_cons_of_mem a m)) rest (a :: cur)]
    simp [List.append_assoc]

lemma splitWsAux_space (rest cur : List Char) (h : cur ≠ []) :
    splitWsAux (' ' :: rest) cur = cur.reverse :: splitWsAux rest [] := by
  have h1 : isSpaceC ' ' = true := rfl
  have h2 : cur.isEmpty = false := by simpa using h
  rw [splitWsAux, h1, h2]
  simp

lemma splitWsAux_end (cur : List Char) (h : cur ≠ []) :
    splitWsAux [] cur = [cur.reverse] := by
  have h2 : cur.isEmpty = false := by simpa using h
  rw [splitWsAux, h2]
  simp

lemma splitWsL_three (l1 l2 l3 : List Char)
    (h1 : l1 ≠ []) (h2 : l2 ≠ []) (h3 : l3 ≠ [])
    (hw1 : ∀ c ∈ l1, isSpaceC c = false) (hw2 : ∀ c ∈ l2, isSpaceC c = false)
    (hw3 : ∀ c ∈ l3, isSpaceC c = false) :
    splitWsL (l1 ++ ' ' :: (l2 ++ ' ' :: l3)) = [l1, l2, l3] := by
  unfold splitWsL
  rw [splitWsAux_word l1 hw1, List.append_nil,
      splitWsAux_space _ _ (by simpa using h1), List.reverse_reverse,
      splitWsAux_word l2 hw2, List.append_nil,
      splitWsAux_space _ _ (by simpa using h2), List.reverse_reverse]
  have := splitWsAux_word l3 hw3 [] []
  rw [List.append_nil, List.append_nil] at this
  rw [this, splitWsAux_end _ (by simpa using h3), List.reverse_reverse]

lemma pyIsDigitL_parts (l : List Char) (h : pyIsDigitL l = true) :
    l ≠ [] ∧ ∀ c ∈ l, c.isDigit = true := by
  unfold pyIsDigitL at h
  simp only [Bool.and_eq_true, Bool.not_eq_true', List.all_eq_true] at h
  obtain ⟨hne, hall⟩ := h
  exact ⟨by simpa using hne, hall⟩

lemma pyIntDigits_digits (l : List Char) (h : pyIsDigitL l = true) :
    pyIntDigits l = some (digitsVal l : ℤ) := by
  obtain ⟨hne, hall⟩ := pyIsDigitL_parts l h
  unfold pyIntDigits
  rw [if_neg (by simpa using hne), if_pos (List.all_eq_true.mpr hall)]

lemma pyIntL_digits (l : List Char) (h : pyIsDigitL l = true) :
    pyIntL l = some (digitsVal l : ℤ) := by
  obtain ⟨hne, hall⟩ := pyIsDigitL_parts l h
  have hstrip : pyStripL l = l :=
    pyStripL_eq_self_of_all l (fun c hc => digit_not_space c (hall c hc))
  unfold pyIntL
  rw [hstrip]
  rcases l with _ | ⟨c, t⟩
  · exact absurd rfl hne
  have hc : c.isDigit = true := hall c (List.mem_cons_self c t)
  split
  · next heq =>
    injection heq with hx _
    exact absurd hx (digit_ne c '+' hc (by decide))
  · next heq =>
    injection heq with hx _
    exact absurd hx (digit_ne c '-' hc (by decide))
  · exact pyIntDigits_digits _ h

lemma startsHash_cons (c : Char) (l : List Char) : startsHash (c :: l) = (c == '#') := by
  rcases eq_or_ne c '#' with rfl | h
  · simp [startsHash]
  · rw [beq_eq_false_iff_ne.mpr h]
    unfold startsHash
    split
    · next heq =>
      injection heq with hx _
      exact absurd hx h
    · rfl

lemma head?_append_of_ne_nil (l1 l2 : List Char) (h : l1 ≠ []) :
    (l1 ++ l2).head? = l1.head? := by
  rcases l1 with _ | ⟨c, t⟩
  · exact absurd rfl h
  · rfl

lemma getLast?_append_of_ne_nil (l1 l2 : List Char) (h : l2 ≠ []) :
    (l1 ++ l2).getLast? = l2.getLast? := by
  rw [← List.head?_reverse, List.reverse_append,
      head?_append_of_ne_nil _ _ (by simpa using h), List.head?_reverse]

lemma mem_of_getLast?_eq (l : List Char) (c : Char) (h : l.getLast? = some c) : c ∈ l := by
  cases l with
  | nil => simp at h
  | cons a t =>
    rw [List.getLast?_eq_getLast _ (by simp)] at h
    exact Option.some_injective _ h ▸ List.getLast_mem _

lemma startsHash_append (l1 l2 : List Char) (h : l1 ≠ []) :
    startsHash (l1 ++ l2) = startsHash l1 := by
  rcases l1 with _ | ⟨c, t⟩
  · exact absurd rfl h
  · rw [List.cons_append, startsHash_cons, startsHash_cons]

lemma pyFloatCore_hash (t : List Char) : pyFloatCore ('#' :: t) = none := rfl

lemma pyFloatL_head_ne_hash (l : List Char) (q : ℚ) (h : pyFloatL l = some q)
    (hw : ∀ c ∈ l, isSpaceC c = false) : startsHash l = false := by
  rcases l with _ | ⟨c, t⟩
  · rfl
  rw [startsHash_cons]
  rcases eq_or_ne c '#' with rfl | hne
  · exfalso
    have hz : pyFloatL ('#' :: t) = none := by
      rw [pyFloatL, pyStripL_eq_self_of_all _ hw]
      split
      · next heq => injection heq with hx _; exact absurd hx (by decide)
      · next heq => injection heq with hx _; exact absurd hx (by decide)
      · exact pyFloatCore_hash t
    rw [hz] at h
    cases h
  · exact beq_eq_false_iff_ne.mpr hne

lemma commaTry_digits (l1 l2 l3 t : List Char)
    (hd1 : pyIsDigitL l1 = true) (hd2 : pyIsDigitL l2 = true) (hd3 : pyIsDigitL l3 = true)
    (ht : t = [] ∨ ∃ t', t = ',' :: t') :
    commaTry (l1 ++ ',' :: (l2 ++ ',' :: (l3 ++ t))) =
      some ('#' :: (fmt02X (digitsVal l1 : ℤ) ++ fmt02X (digitsVal l2 : ℤ) ++
        fmt02X (digitsVal l3 : ℤ))) := by
  have nc : ∀ l : List Char, pyIsDigitL l = true → ',' ∉ l := by
    intro l hl m
    have := (pyIsDigitL_parts _ hl).2 ',' m
    exact absurd this (by decide)
  have hparts : splitChar ',' (l1 ++ ',' :: (l2 ++ ',' :: (l3 ++ t))) =
      l1 :: l2 :: splitChar ',' (l3 ++ t) := by
    rw [splitChar_append _ _ _ (nc l1 hd1), splitChar_append _ _ _ (nc l2 hd2)]
  unfold commaTry
  rw [hparts]
  rcases ht with rfl | ⟨t', rfl⟩
  · rw [List.append_nil, splitChar_no_sep _ _ (nc l3 hd3)]
    simp only [List.length_cons, List.length_singleton, List.getD_cons_zero,
      List.getD_cons_succ]
    rw [if_pos (by omega), pyIntL_digits _ hd1, pyIntL_digits _ hd2, pyIntL_digits _ hd3]
  · rw [splitChar_append _ _ _ (nc l3 hd3)]
    simp only [List.length_cons, List.getD_cons_zero, List.getD_cons_succ]
    rw [if_pos (by omega), pyIntL_digits _ hd1, pyIntL_digits _ hd2, pyIntL_digits _ hd3]

lemma wsTry_floats (l1 l2 l3 : List Char) (q1 q2 q3 : ℚ)
    (h1 : pyFloatL l1 = some q1) (h2 : pyFloatL l2 = some q2) (h3 : pyFloatL l3 = some q3)
    (hne1 : l1 ≠ []) (hne2 : l2 ≠ []) (hne3 : l3 ≠ [])
    (hw1 : ∀ c ∈ l1, isSpaceC c = false) (hw2 : ∀ c ∈ l2, isSpaceC c = false)
    (hw3 : ∀ c ∈ l3, isSpaceC c = false) :
    wsTry (l1 ++ ' ' :: (l2 ++ ' ' :: l3)) =
      some ('#' :: (fmt02X (truncInt q1) ++ fmt02X (truncInt q2) ++ fmt02X (truncInt q3))) := by
  unfold wsTry
  rw [splitWsL_three l1 l2 l3 hne1 hne2 hne3 hw1 hw2 hw3]
  simp only [List.length_cons, List.length_singleton, List.getD_cons_zero,
    List.getD_cons_succ]
  rw [if_pos (by omega), h1, h2, h3]

lemma commaTry_single (l : List Char) (h : ',' ∉ l) : commaTry l = none := by
  unfold commaTry
  rw [splitChar_no_sep _ _ h]
  simp

/-- C3: the colour parser canonicalises uniformly: a 7-character string that
begins with # passes through unchanged; a comma-separated r,g,b form (with an
optional ,a... tail) canonicalises to the #RRGGBB hex of its first three
integer components; a space-separated r g b form with possibly floating-point
components canonicalises to the hex of their truncated values; an input none
of the three branches accepts yields #000000; and the spec's concrete
examples evaluate as stated. -/
theorem C3_color_parse_semantics :
    (∀ (s : String) (rest : List Char), s.data = '#' :: rest → rest.length = 6 →
      (∀ c ∈ s.data, isSpaceC c = false) → parse_color s = s) ∧
    (∀ l1 l2 l3 t : List Char, pyIsDigitL l1 = true → pyIsDigitL l2 = true →
      pyIsDigitL l3 = true → (t = [] ∨ ∃ t', t = ',' :: t') →
      (∀ c ∈ t, isSpaceC c = false) →
      digitsVal l1 ≤ 255 → digitsVal l2 ≤ 255 → digitsVal l3 ≤ 255 →
      parse_color ⟨l1 ++ ',' :: (l2 ++ ',' :: (l3 ++ t))⟩ =
        ⟨'#' :: (fmt02X (digitsVal l1 : ℤ) ++ fmt02X (digitsVal l2 : ℤ) ++
          fmt02X (digitsVal l3 : ℤ))⟩) ∧
    (∀ (l1 l2 l3 : List Char) (q1 q2 q3 : ℚ),
      pyFloatL l1 = some q1 → pyFloatL l2 = some q2 → pyFloatL l3 = some q3 →
      l1 ≠ [] → l2 ≠ [] → l3 ≠ [] →
      (∀ c ∈ l1, isSpaceC c = false) → (∀ c ∈ l2, isSpaceC c = false) →
      (∀ c ∈ l3, isSpaceC c = false) →
      ',' ∉ l1 → ',' ∉ l2 → ',' ∉ l3 →
      0 ≤ q1 → q1 ≤ 255 → 0 ≤ q2 → q2 ≤ 255 → 0 ≤ q3 → q3 ≤ 255 →
      parse_color ⟨l1 ++ ' ' :: (l2 ++ ' ' :: l3)⟩ =
        ⟨'#' :: (fmt02X (truncInt q1) ++ fmt02X (truncInt q2) ++ fmt02X (truncInt q3))⟩) ∧
    (∀ s : String,
      (startsHash (pyStripL s.data) && (pyStripL s.data).length == 7) = false →
      commaTry (pyStripL s.data) = none → wsTry (pyStripL s.data) = none →
      parse_color s = "#000000") ∧
    parse_color "255,0,0,255" = "#FF0000" ∧ parse_color "255 0 0" = "#FF0000" ∧
    parse_color "#FF0000" = "#FF0000" ∧ parse_color "garbage" = "#000000" := by
  refine ⟨?_, ?_, ?_, ?_, by decide, by decide, by decide, by decide⟩
  · intro s rest hs hlen hw
    have hstrip : pyStripL s.data = s.data := pyStripL_eq_self_of_all _ hw
    have hp : parse_colorL s.data = s.data := by
      unfold parse_colorL
      rw [hstrip, hs]
      unfold parseColorBody
      rw [startsHash_cons]
      simp [hlen]
    unfold parse_color
    rw [hp, string_mk_data]
  · intro l1 l2 l3 t hd1 hd2 hd3 ht htw _ _ _
    obtain ⟨hne1, hall1⟩ := pyIsDigitL_parts _ hd1
    obtain ⟨hne2, hall2⟩ := pyIsDigitL_parts _ hd2
    obtain ⟨hne3, hall3⟩ := pyIsDigitL_parts _ hd3
    have hwAll : ∀ c ∈ l1 ++ ',' :: (l2 ++ ',' :: (l3 ++ t)), isSpaceC c = false := by
      intro c hc
      simp only [List.mem_append, List.mem_cons] at hc
      rcases hc with h | h | h | h | h | h
      · exact digit_not_space c (hall1 c h)
      · subst h; decide
      · exact digit_not_space c (hall2 c h)
      · subst h; decide
      · exact digit_not_space c (hall3 c h)
      · exact htw c h
    have hcomma := commaTry_digits l1 l2 l3 t hd1 hd2 hd3 ht
    rcases l1 with _ | ⟨c, t1⟩
    · exact absurd rfl hne1
    have hcd : c.isDigit = true := hall1 c (List.mem_cons_self c t1)
    show (⟨parse_colorL _⟩ : String) = _
    unfold parse_colorL
    rw [pyStripL_eq_self_of_all _ hwAll]
    unfold parseColorBody
    rw [List.cons_append, startsHash_cons,
        beq_eq_false_iff_ne.mpr (digit_ne c '#' hcd (by decide))]
    simp only [Bool.false_and, Bool.false_eq_true, if_false]
    rw [← List.cons_append, hcomma]
  · intro l1 l2 l3 q1 q2 q3 h1 h2 h3 hne1 hne2 hne3 hw1 hw2 hw3 hc1 hc2 hc3
      _ _ _ _ _ _
    have hwhead : ∀ c, (l1 ++ ' ' :: (l2 ++ ' ' :: l3)).head? = some c → isSpaceC c = false := by
      intro c hc
      rw [head?_append_of_ne_nil _ _ hne1] at hc
      exact hw1 c (List.mem_of_mem_head? hc)
    have hwlast : ∀ c, (l1 ++ ' ' :: (l2 ++ ' ' :: l3)).getLast? = some c →
        isSpaceC c = false := by
      intro c hc
      rw [getLast?_append_of_ne_nil _ _ (by simp)] at hc
      rw [show (' ' :: (l2 ++ ' ' :: l3)) = [' '] ++ (l2 ++ ' ' :: l3) from rfl] at hc
      rw [getLast?_append_of_ne_nil _ _ (by simp)] at hc
      rw [getLast?_append_of_ne_nil _ _ (by simp)] at hc
      rw [show (' ' :: l3) = [' '] ++ l3 from rfl] at hc
      rw [getLast?_append_of_ne_nil _ _ (by simpa using hne3)] at hc
      exact hw3 c (mem_of_getLast?_eq _ _ hc)
    have hstrip := pyStripL_eq_self _ hwhead hwlast
    have hnc : ',' ∉ l1 ++ ' ' :: (l2 ++ ' ' :: l3) := by
      intro m
      simp only [List.mem_append, List.mem_cons] at m
      rcases m with h | h | h | h | h
      · exact hc1 h
      · exact absurd h (by decide)
      · exact hc2 h
      · exact absurd h (by decide)
      · exact hc3 h
    show (⟨parse_colorL _⟩ : String) = _
    unfold parse_colorL
    rw [hstrip]
    unfold parseColorBody
    rw [startsHash_append _ _ hne1, pyFloatL_head_ne_hash l1 q1 h1 hw1]
    simp only [Bool.false_and, Bool.false_eq_true, if_false]
    rw [commaTry_single _ hnc,
        wsTry_floats l1 l2 l3 q1 q2 q3 h1 h2 h3 hne1 hne2 hne3 hw1 hw2 hw3]
  · intro s hh hc hw
    have hp : parse_colorL s.data = "#000000".data := by
      unfold parse_colorL parseColorBody
      rw [hh, hc, hw]
      simp
    unfold parse_color
    rw [hp, string_mk_data]

/-- Witness for C3 at concrete inputs of each accepted shape. -/
theorem C3_color_parse_semantics_witness :
    parse_color ⟨['1', '0'] ++ ',' :: (['2', '0'] ++ ',' :: (['3', '0'] ++ []))⟩ =
      ⟨'#' :: (fmt02X (digitsVal ['1', '0'] : ℤ) ++ fmt02X (digitsVal ['2', '0'] : ℤ) ++
        fmt02X (digitsVal ['3', '0'] : ℤ))⟩ ∧
    (⟨'#' :: (fmt02X (digitsVal ['1', '0'] : ℤ) ++ fmt02X (digitsVal ['2', '0'] : ℤ) ++
      fmt02X (digitsVal ['3', '0'] : ℤ))⟩ : String) = "#0A141E" := by
  constructor
  · exact C3_color_parse_semantics.2.1 ['1', '0'] ['2', '0'] ['3', '0'] []
      (by decide) (by decide) (by decide) (Or.inl rfl) (by decide)
      (by decide) (by decide) (by decide)
  · decide

/-- The anchor list written out as a literal 24-entry list. -/
lemma anchor_positions_explicit (n : ConceptData) :
    anchor_positions n =
      [(n.width * 0 / 6, 0), (n.width * 0 / 6, n.height),
       (n.width * 1 / 6, 0), (n.width * 1 / 6, n.height),
       (n.width * 2 / 6, 0), (n.width * 2 / 6, n.height),
       (n.width * 3 / 6, 0), (n.width * 3 / 6, n.height),
       (n.width * 4 / 6, 0), (n.width * 4 / 6, n.height),
       (n.width * 5 / 6, 0), (n.width * 5 / 6, n.height),
       (n.width * 6 / 6, 0), (n.width * 6 / 6, n.height),
       (0, n.height * 1 / 6), (n.width, n.height * 1 / 6),
       (0, n.height * 2 / 6), (n.width, n.height * 2 / 6),
       (0, n.height * 3 / 6), (n.width, n.height * 3 / 6),
       (0, n.height * 4 / 6), (n.width, n.height * 4 / 6),
       (0, n.height * 5 / 6), (n.width, n.height * 5 / 6)] := by
  have h7 : List.range 7 = [0, 1, 2, 3, 4, 5, 6] := rfl
  have h5 : List.range 5 = [0, 1, 2, 3, 4] := rfl
  simp [anchor_positions, h7, h5]
  norm_num

/-- C5: the 24-point anchor grid follows the fixed index scheme: indices 0-13
alternate top/bottom points left to right at x = w*i/6 for i = 0..6 (even on
the top edge, odd on the bottom edge), and indices 14-23 alternate left/right
interior points top to bottom at y = h*i/6 for i = 1..5 (even on the left
edge, odd on the right edge). -/
theorem C5_anchor_grid_layout (n : ConceptData) (hw : 0 < n.width) (hh : 0 < n.height) :
    (anchor_positions n).length = 24 ∧
    (∀ i : ℕ, i ≤ 6 →
      (anchor_positions n).getD (2 * i) (0, 0) = (n.width * i / 6, 0) ∧
      (anchor_positions n).getD (2 * i + 1) (0, 0) = (n.width * i / 6, n.height)) ∧
    (∀ i : ℕ, 1 ≤ i → i ≤ 5 →
      (anchor_positions n).getD (14 + 2 * (i - 1)) (0, 0) = (0, n.height * i / 6) ∧
      (anchor_positions n).getD (15 + 2 * (i - 1)) (0, 0) = (n.width, n.height * i / 6)) := by
  rw [anchor_positions_explicit]
  refine ⟨rfl, ?_, ?_⟩
  · intro i hi
    interval_cases i <;> norm_num [List.getD]
  · intro i hi1 hi5
    interval_cases i <;> norm_num [List.getD]

/-- Witness for C5 at a concrete node. -/
theorem C5_anchor_grid_layout_witness :
    (0 : ℚ) < 12 ∧ (0 : ℚ) < 6 ∧
    (anchor_positions { id := "n", label := "x", width := 12, height := 6 }).getD 3 (0, 0) =
      ((12 : ℚ) * 1 / 6, 6) := by
  refine ⟨by norm_num, by norm_num, ?_⟩
  have h := (C5_anchor_grid_layout { id := "n", label := "x", width := 12, height := 6 }
    (by norm_num) (by norm_num)).2.1 1 (by norm_num)
  exact h.2

/-- C9 counterexample: relabelling a linking phrase with empty text does not
leave its label empty; the placeholder is substituted for linkers too. -/
theorem C9_counterexample :
    ({ id := "l", label := "was", is_linker := true } : ConceptData).is_linker = true ∧
    (finish_editing { id := "l", label := "was", is_linker := true } "").label = "????" ∧
    (finish_editing { id := "l", label := "was", is_linker := true } "").label ≠ "" := by
  refine ⟨rfl, rfl, by decide⟩

/-- C9 amended: relabelling any node, concept or linking phrase alike, with
empty or all-whitespace text substitutes the fixed placeholder instead of
raising an error; after relabelling, the label is never empty, and non-blank
text is stored stripped. -/
theorem C9_relabel_placeholder (n : ConceptData) (t : String) :
    (finish_editing n t).label ≠ "" ∧
    (pyStrip t = "" → (finish_editing n t).label = "????") ∧
    (pyStrip t ≠ "" → (finish_editing n t).label = pyStrip t) := by
  unfold finish_editing
  by_cases h : pyStrip t = ""
  · simp [h]
  · have hb : (pyStrip t == "") = false := beq_eq_false_iff_ne.mpr h
    simp [hb, h]

/-- Witness for C9 at concrete inputs. -/
theorem C9_relabel_placeholder_witness :
    (finish_editing { id := "c", label := "old" } "   ").label = "????" ∧
    (finish_editing { id := "l", label := "x", is_linker := true } " hi ").label = "hi" := by
  constructor
  · exact (C9_relabel_placeholder { id := "c", label := "old" } "   ").2.1 (by decide)
  · have h := (C9_relabel_placeholder
      { id := "l", label := "x", is_linker := true } " hi ").2.2 (by decide)
    rw [h]
    decide

/-- C4: deleting a linking phrase with exactly two attached connections
forming source → linker → dest removes both connections and the linker and
adds a single direct source → dest connection carrying the default arrow
policy (no start arrow, end arrow only); deleting a concept removes exactly
the connections touching it, leaving all other nodes and connections
unchanged (no bridging). -/
theorem C4_delete_cascade (doc : CXLDocument) (u cid : String) :
    (∀ (L : ConceptData) (a b : ConnectionData) (s d : String),
      dictGet doc.concepts cid = some L → L.is_linker = true →
      doc.connections.filter (fun c => c.from_id == cid || c.to_id == cid) = [a, b] →
      bridgeEnds cid [a, b] = (some s, some d) → s ≠ "" → d ≠ "" →
      delete_node doc u cid =
        { doc with
          connections :=
            doc.connections.filter (fun c => !(c.from_id == cid || c.to_id == cid)) ++
            [{ id := u, from_id := s, to_id := d, arrow_start := false, arrow_end := true,
               from_anchor := 0, to_anchor := 0 }],
          concepts := doc.concepts.filter (fun c => !(c.id == cid)) }) ∧
    (∀ C : ConceptData, dictGet doc.concepts cid = some C → C.is_linker = false →
      delete_node doc u cid =
        { doc with
          connections := doc.connections.filter
            (fun c => !(c.from_id == cid) && !(c.to_id == cid)),
          concepts := doc.concepts.filter (fun c => !(c.id == cid)) }) := by
  constructor
  · intro L a b s d hL hlink hrel hends hs hd
    unfold delete_node
    rw [hL]
    simp only [hlink, if_true, hrel]
    norm_num
    rw [hends]
    simp [hs, hd]
  · intro C hC hconc
    unfold delete_node
    rw [hC]
    simp [hconc]

/-- Witness for C4: a concrete bridge deletion and a concrete concept
deletion. -/
theorem C4_delete_cascade_witness :
    (delete_node
      { concepts := [{ id := "A", label := "a" }, { id := "B", label := "b" },
                     { id := "L", label := "lk", is_linker := true }],
        connections := [{ id := "k1", from_id := "A", to_id := "L", arrow_end := false },
                        { id := "k2", from_id := "L", to_id := "B" }] }
      "u9" "L").connections =
      [{ id := "u9", from_id := "A", to_id := "B", arrow_start := false, arrow_end := true,
         from_anchor := 0, to_anchor := 0 }] ∧
    (delete_node
      { concepts := [{ id := "A", label := "a" }, { id := "B", label := "b" },
                     { id := "L", label := "lk", is_linker := true }],
        connections := [{ id := "k1", from_id := "A", to_id := "L", arrow_end := false },
                        { id := "k2", from_id := "L", to_id := "B" }] }
      "u9" "L").concepts = [{ id := "A", label := "a" }, { id := "B", label := "b" }] := by
  have h := (C4_delete_cascade
    { concepts := [{ id := "A", label := "a" }, { id := "B", label := "b" },
                   { id := "L", label := "lk", is_linker := true }],
      connections := [{ id := "k1", from_id := "A", to_id := "L", arrow_end := false },
                      { id := "k2", from_id := "L", to_id := "B" }] }
    "u9" "L").1
    { id := "L", label := "lk", is_linker := true }
    { id := "k1", from_id := "A", to_id := "L", arrow_end := false }
    { id := "k2", from_id := "L", to_id := "B" } "A" "B"
    (by decide) rfl (by decide) (by decide) (by decide) (by decide)
  rw [h]
  constructor <;> decide

lemma undo_stack_pop (e : EditorState) (h : e.undo_stack ≠ []) :
    undo e = { document := e.undo_stack.getLast h,
               undo_stack := e.undo_stack.dropLast,
               redo_stack := e.redo_stack ++ [e.document] } := by
  unfold undo
  rw [List.getLast?_eq_getLast _ h]

lemma undo_redo_cancel (e : EditorState) (h : e.undo_stack ≠ []) : redo (undo e) = e := by
  rw [undo_stack_pop e h]
  unfold redo
  simp only [List.getLast?_concat, List.dropLast_concat]
  rw [List.dropLast_append_getLast h]

lemma redoN_undoN (n : ℕ) : ∀ e : EditorState, n ≤ e.undo_stack.length →
    redo^[n] (undo^[n] e) = e := by
  induction n with
  | zero => intro e _; rfl
  | succ k ih =>
    intro e he
    rw [show undo^[k + 1] e = undo^[k] (undo e) from Function.iterate_succ_apply undo k e]
    rw [show redo^[k + 1] (undo^[k] (undo e)) = redo (redo^[k] (undo^[k] (undo e))) from
      Function.iterate_succ_apply' redo k _]
    have hne : e.undo_stack ≠ [] := by
      intro h0
      rw [h0] at he
      simp at he
    have hlen : k ≤ (undo e).undo_stack.length := by
      rw [undo_stack_pop e hne]
      simp only [List.length_dropLast]
      omega
    rw [ih (undo e) hlen]
    exact undo_redo_cancel e hne

lemma foldl_applyOp_len (ops : List (CXLDocument → CXLDocument)) :
    ∀ e : EditorState, (ops.foldl applyOp e).undo_stack.length =
      e.undo_stack.length + ops.length := by
  induction ops with
  | nil => intro e; simp
  | cons f t ih =>
    intro e
    rw [List.foldl_cons, ih]
    simp [applyOp, push_undo_state]
    omega

/-- C8: after N editor mutations, each preceded by an undo-state push,
performing N undos and then N redos restores the live document exactly as it
was just before the first undo (structural equality of the whole document,
hence of its nodes, connections and default styles). -/
theorem C8_undo_redo_roundtrip (e : EditorState) (ops : List (CXLDocument → CXLDocument)) :
    (redo^[ops.length] (undo^[ops.length] (ops.foldl applyOp e))).document =
      (ops.foldl applyOp e).document := by
  rw [redoN_undoN ops.length _ (by rw [foldl_applyOp_len]; omega)]

/-- C6 counterexample: when the two node centres coincide, swapping the
arguments does not mirror the side pair — both orders return the right/left
pair (19, 18). -/
theorem C6_counterexample :
    closest_anchors { id := "b", label := "y", x := 2, y := 2, width := 6, height := 6 }
        { id := "a", label := "x", x := 0, y := 0, width := 10, height := 10 } = (19, 18) ∧
    (closest_anchors { id := "a", label := "x", x := 0, y := 0, width := 10, height := 10 }
        { id := "b", label := "y", x := 2, y := 2, width := 6, height := 6 }).swap = (18, 19) ∧
    closest_anchors { id := "b", label := "y", x := 2, y := 2, width := 6, height := 6 }
        { id := "a", label := "x", x := 0, y := 0, width := 10, height := 10 } ≠
      (closest_anchors { id := "a", label := "x", x := 0, y := 0, width := 10, height := 10 }
        { id := "b", label := "y", x := 2, y := 2, width := 6, height := 6 }).swap := by
  refine ⟨by decide, by decide, by decide⟩

/-- C6 amended: whenever the two centres differ, closest_anchors is
anti-symmetric — swapping the arguments yields the same two anchors with the
roles exchanged, i.e. the mirrored side pair with the same alignment index.
(With coincident centres both orders fall into the dx ≥ 0 case and the pair
is not mirrored.) -/
theorem C6_closest_anchors_swap (a b : ConceptData)
    (hne : (a.x + a.width / 2, a.y + a.height / 2) ≠
      (b.x + b.width / 2, b.y + b.height / 2)) :
    closest_anchors b a = (closest_anchors a b).swap := by
  have hx : |a.x + a.width / 2 - (b.x + b.width / 2)| =
      |b.x + b.width / 2 - (a.x + a.width / 2)| := abs_sub_comm _ _
  have hy : |a.y + a.height / 2 - (b.y + b.height / 2)| =
      |b.y + b.height / 2 - (a.y + a.height / 2)| := abs_sub_comm _ _
  simp only [closest_anchors]
  rw [hx, hy]
  by_cases hH : |b.x + b.width / 2 - (a.x + a.width / 2)| ≥
      |b.y + b.height / 2 - (a.y + a.height / 2)|
  · rw [if_pos hH, if_pos hH]
    have hxne : b.x + b.width / 2 - (a.x + a.width / 2) ≠ 0 := by
      intro h0
      apply hne
      rw [h0, abs_zero] at hH
      have h1 := abs_nonneg (b.y + b.height / 2 - (a.y + a.height / 2))
      have h2 : |b.y + b.height / 2 - (a.y + a.height / 2)| = 0 := le_antisymm hH h1
      have h3 := abs_eq_zero.mp h2
      rw [Prod.mk.injEq]
      constructor <;> linarith
    by_cases hdx : b.x + b.width / 2 - (a.x + a.width / 2) ≥ 0
    · rw [if_pos hdx, if_neg (by intro h; apply hxne; linarith)]
      rfl
    · rw [if_neg hdx, if_pos (by push_neg at hdx; linarith)]
      rfl
  · rw [if_neg hH, if_neg hH]
    have hdyne : b.y + b.height / 2 - (a.y + a.height / 2) ≠ 0 := by
      intro h0
      rw [h0, abs_zero] at hH
      exact hH (abs_nonneg _)
    by_cases hdy : b.y + b.height / 2 - (a.y + a.height / 2) ≥ 0
    · rw [if_pos hdy, if_neg (by intro h; apply hdyne; linarith)]
      rfl
    · rw [if_neg hdy, if_pos (by push_neg at hdy; linarith)]
      rfl

/-- Witness for C6 at nodes with distinct centres. -/
theorem C6_closest_anchors_swap_witness :
    closest_anchors { id := "b", label := "y", x := 100, y := 0, width := 10, height := 10 }
        { id := "a", label := "x", x := 0, y := 0, width := 10, height := 10 } =
      (closest_anchors { id := "a", label := "x", x := 0, y := 0, width := 10, height := 10 }
        { id := "b", label := "y", x := 100, y := 0, width := 10, height := 10 }).swap := by
  exact C6_closest_anchors_swap
    { id := "a", label := "x", x := 0, y := 0, width := 10, height := 10 }
    { id := "b", label := "y", x := 100, y := 0, width := 10, height := 10 }
    (by decide)

/-- C1 counterexample: loading a parsed file that lacks a map element raises,
but only after the previously loaded concepts have been cleared — the prior
in-memory model is partially mutated, contrary to the claim. -/
theorem C1_counterexample :
    ((load { concepts := [{ id := "c1", label := "keep" }] } "f.cxl" (fun _ => "u")
        (.ok ⟨"cmap", [], []⟩)).2).isSome = true ∧
    (load { concepts := [{ id := "c1", label := "keep" }] } "f.cxl" (fun _ => "u")
        (.ok ⟨"cmap", [], []⟩)).1.concepts = [] ∧
    ({ concepts := [{ id := "c1", label := "keep" }] } : CXLDocument).concepts ≠ [] := by
  refine ⟨rfl, rfl, by decide⟩

/-- C1 amended: a load that fails at the XML parse (malformed XML or missing
file) raises and leaves the whole document state untouched; a load of a
parsed tree without a map element raises only after storing the new root and
filepath and clearing concepts and connections, while the default styles are
left untouched. -/
theorem C1_load_failure_states (doc : CXLDocument) (fp : String) (uf : ℕ → String) :
    load doc fp uf .failure = (doc, some "Errore nel parse del file CXL") ∧
    (∀ r : XElem, r.find1 "map" = none →
      load doc fp uf (.ok r) =
        ({ doc with root := some r, filepath := some fp,
                    concepts := [], connections := [] },
         some "Il file non contiene un elemento <map>.")) := by
  constructor
  · rfl
  · intro r hr
    simp only [load, hr]

/-- Witness for C1 at a concrete prior document and mapless file. -/
theorem C1_load_failure_states_witness :
    load { concepts := [{ id := "c1", label := "keep" }] } "g.cxl" (fun _ => "u")
        (.ok ⟨"cmap", [], []⟩) =
      ({ ({ concepts := [{ id := "c1", label := "keep" }] } : CXLDocument) with
          root := some ⟨"cmap", [], []⟩, filepath := some "g.cxl",
          concepts := [], connections := [] },
       some "Il file non contiene un elemento <map>.") :=
  (C1_load_failure_states { concepts := [{ id := "c1", label := "keep" }] } "g.cxl"
    (fun _ => "u")).2 ⟨"cmap", [], []⟩ rfl

lemma isLinkerId_congr (cs : List ConceptData) :
    ∀ cs' : List ConceptData, cs.map nodeKey = cs'.map nodeKey →
    ∀ k, isLinkerId cs k = isLinkerId cs' k := by
  induction cs with
  | nil =>
    intro cs' h k
    cases cs' with
    | nil => rfl
    | cons b t => simp at h
  | cons a t ih =>
    intro cs' h k
    cases cs' with
    | nil => simp at h
    | cons b t' =>
      simp only [List.map_cons, List.cons.injEq] at h
      obtain ⟨hab, ht⟩ := h
      have hid : a.id = b.id := congrArg Prod.fst hab
      have hlk : a.is_linker = b.is_linker := congrArg Prod.snd hab
      unfold isLinkerId dictGet
      rw [List.find?_cons, List.find?_cons]
      cases hk : (a.id == k)
      · rw [hid] at hk
        rw [hk]
        exact ih t' ht k
      · rw [hid] at hk
        rw [hk]
        simpa using hlk
  
lemma isLinkerId_iff (cs : List ConceptData) (k : String) :
    isLinkerId cs k = true ↔ (dictGet cs k).map ConceptData.is_linker = some true := by
  unfold isLinkerId
  cases h : dictGet cs k <;> simp [h]

lemma tryGeomAttrs_key (ats : List (String × String)) (n : ConceptData) :
    nodeKey (tryGeomAttrs ats n) = nodeKey n := by
  unfold tryGeomAttrs
  repeat' split
  all_goals rfl

lemma styleStepBackground_key (ats : List (String × String)) (n : ConceptData) :
    nodeKey (styleStepBackground ats n) = nodeKey n := by
  unfold styleStepBackground
  repeat' split
  all_goals rfl

lemma styleStepFontColor_key (ats : List (String × String)) (n : ConceptData) :
    nodeKey (styleStepFontColor ats n) = nodeKey n := by
  unfold styleStepFontColor
  repeat' split
  all_goals rfl

lemma styleStepBorderColor_key (ats : List (String × String)) (n : ConceptData) :
    nodeKey (styleStepBorderColor ats n) = nodeKey n := by
  unfold styleStepBorderColor
  repeat' split
  all_goals rfl

lemma styleStepBorderThickness_key (ats : List (String × String)) (n : ConceptData) :
    nodeKey (styleStepBorderThickness ats n) = nodeKey n := by
  unfold styleStepBorderThickness
  repeat' split
  all_goals rfl

lemma styleStepFontName_key (ats : List (String × String)) (n : ConceptData) :
    nodeKey (styleStepFontName ats n) = nodeKey n := by
  unfold styleStepFontName
  repeat' split
  all_goals rfl

lemma styleStepFontSize_key (ats : List (String × String)) (n : ConceptData) :
    nodeKey (styleStepFontSize ats n) = nodeKey n := by
  unfold styleStepFontSize
  repeat' split
  all_goals rfl

lemma styleStepFontStyle_key (ats : List (String × String)) (n : ConceptData) :
    nodeKey (styleStepFontStyle ats n) = nodeKey n := by
  unfold styleStepFontStyle
  repeat' split
  all_goals rfl

lemma applyStyleAttrs_key (ats : List (String × String)) (n : ConceptData) :
    nodeKey (applyStyleAttrs ats n) = nodeKey n := by
  unfold applyStyleAttrs
  rw [styleStepFontStyle_key, styleStepFontSize_key, styleStepFontName_key,
      styleStepBorderThickness_key, styleStepBorderColor_key, styleStepFontColor_key,
      styleStepBackground_key]

lemma applyDefaultStyle_key (st : List (String × String)) (n : ConceptData) :
    nodeKey (applyDefaultStyle st n) = nodeKey n := by
  unfold applyDefaultStyle
  repeat' split
  all_goals rfl

lemma applyLegacyStyle_key (st : XElem) (n : ConceptData) :
    nodeKey (applyLegacyStyle st n) = nodeKey n := by
  have hid : ∀ (ats : List (String × String)) (n : ConceptData),
      (tryGeomAttrs ats n).id = n.id :=
    fun ats n => congrArg Prod.fst (tryGeomAttrs_key ats n)
  have hlk : ∀ (ats : List (String × String)) (n : ConceptData),
      (tryGeomAttrs ats n).is_linker = n.is_linker :=
    fun ats n => congrArg Prod.snd (tryGeomAttrs_key ats n)
  unfold applyLegacyStyle
  repeat' split
  all_goals simp [nodeKey, hid, hlk]

lemma canonNodeColors_key (n : ConceptData) : nodeKey (canonNodeColors n) = nodeKey n := rfl

lemma map_nodeKey_congr (cs : List ConceptData) (f : ConceptData → ConceptData)
    (hf : ∀ n, nodeKey (f n) = nodeKey n) :
    (cs.map f).map nodeKey = cs.map nodeKey := by
  induction cs with
  | nil => rfl
  | cons a t ih => simp [hf a, ih]

lemma updNode_keys (m : List ConceptData) (k : String) (f : ConceptData → ConceptData)
    (hf : ∀ n, nodeKey (f n) = nodeKey n) :
    (updNode m k f).map nodeKey = m.map nodeKey := by
  unfold updNode
  induction m with
  | nil => rfl
  | cons a t ih =>
    simp only [List.map_cons, List.cons.injEq]
    constructor
    · by_cases h : (a.id == k) = true
      · simp [h, hf a]
      · simp [h]
    · exact ih

lemma appFirstPass_keys (apps : List XElem) :
    ∀ cs : List ConceptData, (appFirstPass cs apps).map nodeKey = cs.map nodeKey := by
  induction apps with
  | nil => intro cs; rfl
  | cons a t ih =>
    intro cs
    have hcons : appFirstPass cs (a :: t) =
        appFirstPass (match getAttr a.attrs "id" with
          | none => cs
          | some aid => updNode cs aid
              (fun n => applyStyleAttrs a.attrs (tryGeomAttrs a.attrs n))) t := rfl
    rw [hcons, ih]
    cases h : getAttr a.attrs "id"
    · rfl
    · exact updNode_keys _ _ _ (fun n => by rw [applyStyleAttrs_key, tryGeomAttrs_key])

lemma appOverridePass_keys (apps : List XElem) :
    ∀ cs : List ConceptData, (appOverridePass cs apps).map nodeKey = cs.map nodeKey := by
  induction apps with
  | nil => intro cs; rfl
  | cons a t ih =>
    intro cs
    have hcons : appOverridePass cs (a :: t) =
        appOverridePass (updNode cs ((getAttr a.attrs "id").getD "")
          (fun n => applyStyleAttrs a.attrs n)) t := rfl
    rw [hcons, ih]
    exact updNode_keys _ _ _ (fun n => applyStyleAttrs_key _ n)

lemma appearanceNodes2_keys (cs : List ConceptData) (m : XElem)
    (dcs dls : List (String × String)) :
    (appearanceNodes2 cs m dcs dls).map nodeKey = cs.map nodeKey := by
  unfold appearanceNodes2
  rw [appOverridePass_keys, appOverridePass_keys,
      map_nodeKey_congr _ _ (fun n => applyDefaultStyle_key _ n)]

lemma legacyNodes2_keys (cs : List ConceptData) (m : XElem) :
    (legacyNodes2 cs m).map nodeKey = cs.map nodeKey := by
  unfold legacyNodes2
  refine map_nodeKey_congr _ _ (fun n => ?_)
  cases h : lastStyleFor m n.id
  · rfl
  · exact applyLegacyStyle_key _ n

lemma parseConnStep_mem (cs : List ConceptData) (uf : ℕ → String)
    (acc : List ConnectionData × ℕ) (el : XElem) (c : ConnectionData)
    (hc : c ∈ (parseConnStep cs uf acc el).1) :
    c ∈ acc.1 ∨ (c.arrow_start = false ∧ c.arrow_end = !(isLinkerId cs c.to_id) ∧
      c.from_anchor = 0 ∧ c.to_anchor = 0) := by
  unfold parseConnStep at hc
  simp only [List.mem_append, List.mem_singleton] at hc
  rcases hc with h | rfl
  · exact Or.inl h
  · right
    refine ⟨rfl, ?_, rfl, rfl⟩
    cases hd : dictGet cs ((getAttr el.attrs "to-id").getD "") <;>
      simp [isLinkerId, hd]

lemma foldl_parseConnStep_inv (cs : List ConceptData) (uf : ℕ → String)
    (P : ConnectionData → Prop) (elems : List XElem) :
    ∀ acc : List ConnectionData × ℕ,
      (∀ c ∈ acc.1, P c) →
      (∀ c, c.arrow_start = false → c.arrow_end = !(isLinkerId cs c.to_id) →
        c.from_anchor = 0 → c.to_anchor = 0 → P c) →
      ∀ c ∈ (elems.foldl (parseConnStep cs uf) acc).1, P c := by
  induction elems with
  | nil => intro acc hacc _ c hc; exact hacc c hc
  | cons e t ih =>
    intro acc hacc hnew c hc
    rw [List.foldl_cons] at hc
    refine ih _ ?_ hnew c hc
    intro c' hc'
    rcases parseConnStep_mem cs uf acc e c' hc' with h | ⟨h1, h2, h3, h4⟩
    · exact hacc _ h
    · exact hnew c' h1 h2 h3 h4

lemma parseConns_prop (cs : List ConceptData) (elems : List XElem) (uf : ℕ → String) :
    ∀ c ∈ parseConns cs elems uf,
      c.arrow_start = false ∧ c.arrow_end = !(isLinkerId cs c.to_id) ∧
      c.from_anchor = 0 ∧ c.to_anchor = 0 := by
  unfold parseConns
  exact foldl_parseConnStep_inv cs uf _ elems ([], 0) (by simp)
    (fun c h1 h2 h3 h4 => ⟨h1, h2, h3, h4⟩)

lemma connAppFrom_spec (app : XElem) (src dst : ConceptData) (c : ConnectionData) :
    ∃ fa, connAppFrom app src dst c = { c with from_anchor := fa } ∧
      ((∃ s, getAttr app.attrs "from-index" = some s ∧ pyIsDigit s = true ∧
          fa = digitsVal s.data) ∨
        ∃ p : String, fa = pos_to_anchor p src dst) := by
  unfold connAppFrom
  rcases hfa : getAttr app.attrs "from-index" with _ | s
  · exact ⟨_, rfl, Or.inr ⟨_, rfl⟩⟩
  · by_cases hd : pyIsDigit s
    · simp only [if_pos hd]
      exact ⟨_, rfl, Or.inl ⟨s, rfl, hd, rfl⟩⟩
    · simp only [if_neg hd]
      exact ⟨_, rfl, Or.inr ⟨_, rfl⟩⟩

lemma connAppTo_spec (app : XElem) (src dst : ConceptData) (c : ConnectionData) :
    ∃ ta, connAppTo app src dst c = { c with to_anchor := ta } ∧
      ((∃ s, getAttr app.attrs "to-index" = some s ∧ pyIsDigit s = true ∧
          ta = digitsVal s.data) ∨
        ∃ p : String, ta = pos_to_anchor p dst src) := by
  unfold connAppTo
  rcases hta : getAttr app.attrs "to-index" with _ | s
  · exact ⟨_, rfl, Or.inr ⟨_, rfl⟩⟩
  · by_cases hd : pyIsDigit s
    · simp only [if_pos hd]
      exact ⟨_, rfl, Or.inl ⟨s, rfl, hd, rfl⟩⟩
    · simp only [if_neg hd]
      exact ⟨_, rfl, Or.inr ⟨_, rfl⟩⟩

lemma applyConnApp_mem (cs : List ConceptData) (st : List ConnectionData × List String)
    (app : XElem) (c : ConnectionData) (hc : c ∈ (applyConnApp cs st app).1) :
    c ∈ st.1 ∨
    ∃ c0 ∈ st.1, ∃ src dst : ConceptData, ∃ fa ta : ℕ,
      c = { c0 with from_anchor := fa, to_anchor := ta } ∧
      ((∃ s, getAttr app.attrs "from-index" = some s ∧ pyIsDigit s = true ∧
          fa = digitsVal s.data) ∨
        (∃ p : String, fa = pos_to_anchor p src dst)) ∧
      ((∃ s, getAttr app.attrs "to-index" = some s ∧ pyIsDigit s = true ∧
          ta = digitsVal s.data) ∨
        (∃ p : String, ta = pos_to_anchor p dst src)) := by
  simp only [applyConnApp] at hc
  split at hc
  · exact Or.inl hc
  rename_i j hj
  split at hc
  · exact Or.inl hc
  rename_i c0 hget
  split at hc
  case _ =>
    rename_i src dst hsrc hdst
    obtain ⟨fa, hf, hfp⟩ := connAppFrom_spec app src dst c0
    obtain ⟨ta, ht, htp⟩ := connAppTo_spec app src dst { c0 with from_anchor := fa }
    rw [hf, ht] at hc
    rcases List.mem_or_eq_of_mem_set hc with h | rfl
    · exact Or.inl h
    · exact Or.inr ⟨c0, List.get?_mem hget, src, dst, fa, ta, rfl, hfp, htp⟩
  case _ => exact Or.inl hc

lemma foldl_applyConnApp_inv (cs : List ConceptData) (P : ConnectionData → Prop)
    (hP : ∀ (c : ConnectionData) (fa ta : ℕ), P c →
      P { c with from_anchor := fa, to_anchor := ta })
    (apps : List XElem) :
    ∀ st : List ConnectionData × List String, (∀ c ∈ st.1, P c) →
      ∀ c ∈ (apps.foldl (applyConnApp cs) st).1, P c := by
  induction apps with
  | nil => intro st hst c hc; exact hst c hc
  | cons a t ih =>
    intro st hst c hc
    rw [List.foldl_cons] at hc
    refine ih _ ?_ c hc
    intro c' hc'
    rcases applyConnApp_mem cs st a c' hc' with h | ⟨c0, h0, _, _, fa, ta, rfl, _, _⟩
    · exact hst _ h
    · exact hP c0 fa ta (hst _ h0)

lemma assignDefaultAnchors_mem (cs : List ConceptData) (processed : List String)
    (conns : List ConnectionData) (c : ConnectionData)
    (hc : c ∈ assignDefaultAnchors cs processed conns) :
    c ∈ conns ∨ ∃ c0 ∈ conns, ∃ src dst : ConceptData,
      c = { c0 with from_anchor := pos_to_anchor "center" src dst,
                    to_anchor := pos_to_anchor "center" dst src } := by
  unfold assignDefaultAnchors at hc
  rcases List.mem_map.mp hc with ⟨c0, hc0, rfl⟩
  by_cases hp : processed.contains c0.id
  · rw [if_pos hp]; exact Or.inl hc0
  · rw [if_neg hp]
    rcases h3 : dictGet cs c0.from_id with _ | src
    · exact Or.inl hc0
    rcases h4 : dictGet cs c0.to_id with _ | dst
    · exact Or.inl hc0
    exact Or.inr ⟨c0, hc0, src, dst, rfl⟩

lemma appearanceConns_arrows (cs : List ConceptData) (m : XElem) (uf : ℕ → String) :
    ∀ c ∈ appearanceConns cs m uf,
      c.arrow_start = false ∧ c.arrow_end = !(isLinkerId cs c.to_id) := by
  intro c hc
  unfold appearanceConns at hc
  have hfold : ∀ c' ∈ ((connAppElems m).foldl (applyConnApp cs)
      (parseConns cs (connElems m) uf, [])).1,
      c'.arrow_start = false ∧ c'.arrow_end = !(isLinkerId cs c'.to_id) := by
    refine foldl_applyConnApp_inv cs _ (fun c' fa ta h => h) (connAppElems m) _ ?_
    intro c' hc'
    exact ⟨(parseConns_prop cs (connElems m) uf c' hc').1,
           (parseConns_prop cs (connElems m) uf c' hc').2.1⟩
  rcases assignDefaultAnchors_mem cs _ _ c hc with h | ⟨c0, h0, src, dst, rfl⟩
  · exact hfold c h
  · exact hfold c0 h0

/-- A successful load lands in one of the two dialect branches; in either one
the connection list and the key projection of the node list are those of the
corresponding pipeline stages run from the cleared containers. -/
lemma load_ok_cases (doc : CXLDocument) (fp : String) (uf : ℕ → String) (r : XElem)
    (d : CXLDocument) (h : load doc fp uf (.ok r) = (d, none)) :
    ∃ m, r.find1 "map" = some m ∧
      (((m.find1 "concept-appearance-list").isSome = true ∧
        d.connections = appearanceConns (appearanceNodes1 [] m) m uf ∧
        d.concepts.map nodeKey = (appearanceNodes1 [] m).map nodeKey) ∨
       ((m.find1 "concept-appearance-list").isSome = false ∧
        d.connections = parseConns (legacyNodes1 [] m) (connElems m) uf ∧
        d.concepts.map nodeKey = (legacyNodes1 [] m).map nodeKey)) := by
  rcases hm : r.find1 "map" with _ | m
  · exfalso
    have h2 := congrArg Prod.snd h
    simp only [load, hm] at h2
    exact Option.noConfusion h2
  · refine ⟨m, rfl, ?_⟩
    have hd := congrArg Prod.fst h
    simp only [load, hm] at hd
    cases ha : (m.find1 "concept-appearance-list").isSome
    · right
      rw [ha] at hd
      simp only [Bool.false_eq_true, if_false] at hd
      subst hd
      refine ⟨rfl, ?_, ?_⟩
      · rfl
      · dsimp only
        rw [map_nodeKey_congr _ _ canonNodeColors_key]
        show (legacyNodes2 (legacyNodes1 [] m) m).map nodeKey =
          (legacyNodes1 [] m).map nodeKey
        exact legacyNodes2_keys _ _
    · left
      rw [ha] at hd
      simp only [if_true] at hd
      subst hd
      refine ⟨rfl, ?_, ?_⟩
      · rfl
      · dsimp only
        rw [map_nodeKey_congr _ _ canonNodeColors_key]
        show (appearanceNodes2 (appearanceNodes1 [] m) m
            (sheetStyle doc.default_concept_style m "concept-style"
              "237,244,246,255" "0,0,0,255")
            (sheetStyle doc.default_linker_style m "linking-phrase-style"
              "0,0,255,0" "0,0,0,0")).map nodeKey =
          (appearanceNodes1 [] m).map nodeKey
        exact appearanceNodes2_keys _ _ _ _

/-- C10: after a successful load in either dialect every connection has
arrow_start = false, and arrow_end = false exactly when the connection's
to-id resolves to a node marked as a linking phrase in the loaded document
(so arrow_end = true when the to-id is unknown or names a concept). -/
theorem C10_arrow_direction (doc : CXLDocument) (fp : String) (uf : ℕ → String)
    (f : XElem) (d : CXLDocument) (h : load doc fp uf (.ok f) = (d, none)) :
    ∀ c ∈ d.connections, c.arrow_start = false ∧
      (c.arrow_end = false ↔
        (dictGet d.concepts c.to_id).map ConceptData.is_linker = some true) := by
  obtain ⟨m, hm, hcase⟩ := load_ok_cases doc fp uf f d h
  intro c hc
  rcases hcase with ⟨ha, hconn, hkeys⟩ | ⟨ha, hconn, hkeys⟩
  · rw [hconn] at hc
    obtain ⟨h1, h2⟩ := appearanceConns_arrows _ m uf c hc
    refine ⟨h1, ?_⟩
    rw [← isLinkerId_iff, ← isLinkerId_congr d.concepts _ hkeys c.to_id] at *
    rw [h2]
    simp
  · rw [hconn] at hc
    obtain ⟨h1, h2, _, _⟩ := parseConns_prop _ _ uf c hc
    refine ⟨h1, ?_⟩
    rw [← isLinkerId_iff, ← isLinkerId_congr d.concepts _ hkeys c.to_id] at *
    rw [h2]
    simp

/-- Witness for C10 on the concrete appearance file: the connection into the
linking phrase has both arrow booleans determined by the policy. -/
theorem C10_arrow_direction_witness :
    (⟨"k1", "c1", "l1", false, false, 19, 18⟩ : ConnectionData).arrow_start = false ∧
      ((⟨"k1", "c1", "l1", false, false, 19, 18⟩ : ConnectionData).arrow_end = false ↔
        (dictGet (load {} "w.cxl" (fun _ => "u") (.ok c10file)).1.concepts
          (⟨"k1", "c1", "l1", false, false, 19, 18⟩ : ConnectionData).to_id).map
          ConceptData.is_linker = some true) :=
  C10_arrow_direction {} "w.cxl" (fun _ => "u") c10file _ rfl
    ⟨"k1", "c1", "l1", false, false, 19, 18⟩ (by decide)

lemma pos_to_anchor_lt (p : String) (a b : ConceptData) : pos_to_anchor p a b < 24 := by
  simp only [pos_to_anchor]
  split_ifs <;> norm_num

lemma getD_lt (l : List ℕ) (d : ℕ) (hl : ∀ x ∈ l, x < 24) (hd : d < 24) :
    ∀ i, l.getD i d < 24 := by
  induction l with
  | nil => intro i; simpa using hd
  | cons a t ih =>
    intro i
    cases i with
    | zero => simpa using hl a (List.mem_cons_self a t)
    | succ j => simpa using ih (fun x hx => hl x (List.mem_cons_of_mem a hx)) j

lemma closest_anchors_lt (a b : ConceptData) :
    (closest_anchors a b).1 < 24 ∧ (closest_anchors a b).2 < 24 := by
  constructor <;>
    · simp only [closest_anchors]
      split_ifs <;>
        · dsimp only
          exact getD_lt _ _ (by decide) (by decide) _

lemma connAppIdxOK_spec (f : XElem) (m : XElem) (hok : connAppIdxOK f = true)
    (hm : f.find1 "map" = some m) :
    ∀ app ∈ connAppElems m, ∀ s : String,
      (getAttr app.attrs "from-index" = some s ∨ getAttr app.attrs "to-index" = some s) →
      pyIsDigit s = true → digitsVal s.data < 24 := by
  intro app hap s hs hdig
  unfold connAppIdxOK at hok
  rw [hm] at hok
  rw [List.all_eq_true] at hok
  have h := hok app hap
  rw [Bool.and_eq_true] at h
  rcases hs with hs | hs
  · have h1 := h.1
    rw [hs] at h1
    simp only [hdig, Bool.not_true, Bool.false_or, decide_eq_true_eq] at h1
    exact h1
  · have h2 := h.2
    rw [hs] at h2
    simp only [hdig, Bool.not_true, Bool.false_or, decide_eq_true_eq] at h2
    exact h2

lemma foldl_applyConnApp_bound (cs : List ConceptData) :
    ∀ apps : List XElem,
      (∀ app ∈ apps, ∀ s : String,
        (getAttr app.attrs "from-index" = some s ∨
          getAttr app.attrs "to-index" = some s) →
        pyIsDigit s = true → digitsVal s.data < 24) →
      ∀ st : List ConnectionData × List String,
        (∀ c ∈ st.1, c.from_anchor < 24 ∧ c.to_anchor < 24) →
        ∀ c ∈ (apps.foldl (applyConnApp cs) st).1,
          c.from_anchor < 24 ∧ c.to_anchor < 24 := by
  intro apps
  induction apps with
  | nil => intro _ st hst c hc; exact hst c hc
  | cons a t ih =>
    intro hidx st hst c hc
    rw [List.foldl_cons] at hc
    refine ih (fun app hap => hidx app (List.mem_cons_of_mem a hap)) _ ?_ c hc
    intro c' hc'
    rcases applyConnApp_mem cs st a c' hc' with
      hmem | ⟨c0, h0, src, dst, fa, ta, rfl, hfp, htp⟩
    · exact hst _ hmem
    · constructor
      · show fa < 24
        rcases hfp with ⟨s, hs, hdig, rfl⟩ | ⟨p, rfl⟩
        · exact hidx a (List.mem_cons_self a t) s (Or.inl hs) hdig
        · exact pos_to_anchor_lt p src dst
      · show ta < 24
        rcases htp with ⟨s, hs, hdig, rfl⟩ | ⟨p, rfl⟩
        · exact hidx a (List.mem_cons_self a t) s (Or.inr hs) hdig
        · exact pos_to_anchor_lt p dst src

lemma appearanceConns_bound (cs : List ConceptData) (m : XElem) (uf : ℕ → String)
    (hidx : ∀ app ∈ connAppElems m, ∀ s : String,
      (getAttr app.attrs "from-index" = some s ∨
        getAttr app.attrs "to-index" = some s) →
      pyIsDigit s = true → digitsVal s.data < 24) :
    ∀ c ∈ appearanceConns cs m uf, c.from_anchor < 24 ∧ c.to_anchor < 24 := by
  intro c hc
  unfold appearanceConns at hc
  have hfold : ∀ c' ∈ ((connAppElems m).foldl (applyConnApp cs)
      (parseConns cs (connElems m) uf, [])).1,
      c'.from_anchor < 24 ∧ c'.to_anchor < 24 := by
    refine foldl_applyConnApp_bound cs (connAppElems m) hidx _ ?_
    intro c' hc'
    obtain ⟨_, _, h3, h4⟩ := parseConns_prop cs (connElems m) uf c' hc'
    rw [h3, h4]
    exact ⟨by norm_num, by norm_num⟩
  rcases assignDefaultAnchors_mem cs _ _ c hc with h | ⟨c0, h0, src, dst, rfl⟩
  · exact hfold c h
  · constructor
    · show pos_to_anchor "center" src dst < 24
      exact pos_to_anchor_lt _ src dst
    · show pos_to_anchor "center" dst src < 24
      exact pos_to_anchor_lt _ dst src

/-- C7 counterexample: a load accepts a numeric from-index of 99 without any
range validation, so a loaded connection carries from_anchor = 99 ∉ [0, 24). -/
theorem C7_counterexample :
    (load {} "x.cxl" (fun _ => "u") (.ok c7file)).2 = none ∧
    (⟨"k1", "c1", "l1", false, false, 99, 5⟩ : ConnectionData) ∈
      (load {} "x.cxl" (fun _ => "u") (.ok c7file)).1.connections ∧
    ¬(99 < 24) :=
  ⟨rfl, by decide, by decide⟩

/-- C7 amended: anchors of a loaded document lie in [0, 24) provided every
numeric from-index/to-index attribute of the file's connection-appearance
elements is below 24 (the loader installs such an index unvalidated, so an
out-of-range numeric index is passed straight through); the computed anchors
from _pos_to_anchor and closest_anchors always lie in [0, 24). -/
theorem C7_anchor_range (doc : CXLDocument) (fp : String) (uf : ℕ → String)
    (f : XElem) (d : CXLDocument) (h : load doc fp uf (.ok f) = (d, none))
    (hok : connAppIdxOK f = true) :
    (∀ c ∈ d.connections, c.from_anchor < 24 ∧ c.to_anchor < 24) ∧
    (∀ (p : String) (a b : ConceptData), pos_to_anchor p a b < 24) ∧
    (∀ a b : ConceptData,
      (closest_anchors a b).1 < 24 ∧ (closest_anchors a b).2 < 24) := by
  refine ⟨?_, pos_to_anchor_lt, closest_anchors_lt⟩
  obtain ⟨m, hm, hcase⟩ := load_ok_cases doc fp uf f d h
  intro c hc
  rcases hcase with ⟨ha, hconn, hkeys⟩ | ⟨ha, hconn, hkeys⟩
  · rw [hconn] at hc
    exact appearanceConns_bound _ m uf (connAppIdxOK_spec f m hok hm) c hc
  · rw [hconn] at hc
    obtain ⟨_, _, h3, h4⟩ := parseConns_prop _ _ uf c hc
    rw [h3, h4]
    exact ⟨by norm_num, by norm_num⟩

/-- Witness for C7 on the concrete in-range appearance file. -/
theorem C7_anchor_range_witness :
    (⟨"k1", "c1", "l1", false, false, 19, 18⟩ : ConnectionData).from_anchor < 24 ∧
    (⟨"k1", "c1", "l1", false, false, 19, 18⟩ : ConnectionData).to_anchor < 24 :=
  (C7_anchor_range {} "w.cxl" (fun _ => "u") c10file _ rfl (by decide)).1
    ⟨"k1", "c1", "l1", false, false, 19, 18⟩ (by decide)

/-! Round-trip facts about the decimal printers and the float parser. -/

lemma natToDecAux_fuel (fuel : ℕ) :
    ∀ fuel' n, n < fuel → n < fuel' → natToDecAux fuel n = natToDecAux fuel' n := by
  induction fuel with
  | zero => intro fuel' n h _; exact absurd h (Nat.not_lt_zero n)
  | succ f ih =>
    intro fuel' n h h'
    cases fuel' with
    | zero => exact absurd h' (Nat.not_lt_zero n)
    | succ f' =>
      show natToDecAux (f + 1) n = natToDecAux (f' + 1) n
      unfold natToDecAux
      by_cases h10 : n < 10
      · rw [if_pos h10, if_pos h10]
      · rw [if_neg h10, if_neg h10]
        have hpos : 0 < n := by omega
        have hdiv : n / 10 < n := Nat.div_lt_self hpos (by norm_num)
        rw [ih f' (n / 10) (by omega) (by omega)]

lemma natToDec_eq (n : ℕ) :
    natToDec n = if n < 10 then [Char.ofNat (48 + n)]
      else natToDec (n / 10) ++ [Char.ofNat (48 + n % 10)] := by
  show natToDecAux (n + 1) n = _
  unfold natToDecAux
  by_cases h10 : n < 10
  · rw [if_pos h10, if_pos h10]
  · rw [if_neg h10, if_neg h10]
    have hpos : 0 < n := by omega
    have hdiv : n / 10 < n := Nat.div_lt_self hpos (by norm_num)
    rw [natToDecAux_fuel n (n / 10 + 1) (n / 10) (by omega) (by omega)]
    rfl

lemma digitsVal_foldl (l : List Char) :
    ∀ acc : ℕ, l.foldl (fun a c => 10 * a + (c.toNat - 48)) acc =
      acc * 10 ^ l.length + digitsVal l := by
  induction l with
  | nil => intro acc; simp [digitsVal]
  | cons c t ih =>
    intro acc
    show (t.foldl _ (10 * acc + (c.toNat - 48))) = acc * 10 ^ (t.length + 1) + digitsVal (c :: t)
    rw [ih]
    have h2 : digitsVal (c :: t) = (c.toNat - 48) * 10 ^ t.length + digitsVal t := by
      show t.foldl _ (10 * 0 + (c.toNat - 48)) = _
      rw [ih]
      ring_nf
    rw [h2]
    ring

lemma digitsVal_append (a b : List Char) :
    digitsVal (a ++ b) = digitsVal a * 10 ^ b.length + digitsVal b := by
  unfold digitsVal
  rw [List.foldl_append]
  rw [digitsVal_foldl b (a.foldl _ 0)]
  rfl

lemma natToDec_spec (n : ℕ) :
    natToDec n ≠ [] ∧ (∀ c ∈ natToDec n, c.isDigit = true) ∧
      digitsVal (natToDec n) = n := by
  induction n using Nat.strong_induction_on with
  | _ n ih =>
    rw [natToDec_eq]
    by_cases h10 : n < 10
    · rw [if_pos h10]
      refine ⟨by simp, ?_, ?_⟩
      · intro c hc
        rw [List.mem_singleton] at hc
        subst hc
        interval_cases n <;> decide
      · show digitsVal [Char.ofNat (48 + n)] = n
        interval_cases n <;> decide
    · rw [if_neg h10]
      have hpos : 0 < n := by omega
      obtain ⟨hne, hdig, hval⟩ := ih (n / 10) (Nat.div_lt_self hpos (by norm_num))
      have hm : n % 10 < 10 := Nat.mod_lt n (by norm_num)
      refine ⟨by simp, ?_, ?_⟩
      · intro c hc
        rw [List.mem_append, List.mem_singleton] at hc
        rcases hc with hc | rfl
        · exact hdig c hc
        · set m := n % 10 with hmdef
          interval_cases m <;> decide
      · rw [digitsVal_append, hval]
        have hlast : digitsVal [Char.ofNat (48 + n % 10)] = n % 10 := by
          set m := n % 10 with hmdef
          interval_cases m <;> decide
        rw [hlast]
        simp only [List.length_singleton, pow_one]
        omega

lemma natToDec_length_le (k : ℕ) :
    ∀ n, n < 10 ^ k → 1 ≤ k → (natToDec n).length ≤ k := by
  induction k with
  | zero => intro n _ h1; exact absurd h1 (by norm_num)
  | succ k ih =>
    intro n hn _
    rw [natToDec_eq]
    by_cases h10 : n < 10
    · rw [if_pos h10]
      simp
    · rw [if_neg h10]
      rw [List.length_append, List.length_singleton]
      have hk1 : 1 ≤ k := by
        by_contra hk
        have : k = 0 := by omega
        subst this
        simp at hn
        omega
      have hdivlt : n / 10 < 10 ^ k := by
        rw [Nat.div_lt_iff_lt_mul (by norm_num : (0:ℕ) < 10)]
        calc n < 10 ^ (k + 1) := hn
        _ = 10 ^ k * 10 := by ring
      have := ih (n / 10) hdivlt hk1
      omega

lemma digitsVal_replicate_zero (k : ℕ) (l : List Char) :
    digitsVal (List.replicate k '0' ++ l) = digitsVal l := by
  induction k with
  | zero => simp
  | succ j ih =>
    rw [List.replicate_succ, List.cons_append]
    show List.foldl _ (10 * 0 + ('0'.toNat - 48)) _ = _
    have h0 : 10 * 0 + ('0'.toNat - 48) = 0 := by decide
    rw [h0]
    exact ih

lemma padZeros_spec (e : ℕ) (l : List Char) (hle : l.length ≤ e) (hne : l ≠ [])
    (hdig : ∀ c ∈ l, c.isDigit = true) :
    (padZeros e l).length = e ∧ digitsVal (padZeros e l) = digitsVal l ∧
      padZeros e l ≠ [] ∧ ∀ c ∈ padZeros e l, c.isDigit = true := by
  unfold padZeros
  refine ⟨?_, digitsVal_replicate_zero _ _, ?_, ?_⟩
  · rw [List.length_append, List.length_replicate]
    omega
  · simp [hne]
  · intro c hc
    rw [List.mem_append] at hc
    rcases hc with hc | hc
    · rw [List.eq_of_mem_replicate hc]
      decide
    · exact hdig c hc

lemma showNat_digits (k : ℕ) :
    pyIsDigit (showNat k) = true ∧ digitsVal (showNat k).data = k := by
  obtain ⟨hne, hdig, hval⟩ := natToDec_spec k
  refine ⟨?_, hval⟩
  show pyIsDigitL (natToDec k) = true
  unfold pyIsDigitL
  simp only [Bool.and_eq_true, Bool.not_eq_true', List.all_eq_true]
  exact ⟨by simpa using hne, hdig⟩

lemma takeWhile_all (p : Char → Bool) :
    ∀ l : List Char, (∀ c ∈ l, p c = true) → l.takeWhile p = l := by
  intro l
  induction l with
  | nil => intro _; rfl
  | cons c t ih =>
    intro h
    rw [List.takeWhile_cons, h c (List.mem_cons_self c t)]
    rw [ih (fun x hx => h x (List.mem_cons_of_mem c hx))]
    simp

lemma dropWhile_all (p : Char → Bool) :
    ∀ l : List Char, (∀ c ∈ l, p c = true) → l.dropWhile p = [] := by
  intro l
  induction l with
  | nil => intro _; rfl
  | cons c t ih =>
    intro h
    rw [List.dropWhile_cons_of_pos (h c (List.mem_cons_self c t))]
    exact ih (fun x hx => h x (List.mem_cons_of_mem c hx))

lemma takeWhile_append_stop (p : Char → Bool) (c : Char) (b : List Char)
    (hc : p c = false) :
    ∀ a : List Char, (∀ x ∈ a, p x = true) → (a ++ c :: b).takeWhile p = a := by
  intro a
  induction a with
  | nil => intro _; simpa [List.takeWhile_cons] using hc
  | cons x t ih =>
    intro h
    rw [List.cons_append, List.takeWhile_cons, h x (List.mem_cons_self x t)]
    rw [ih (fun y hy => h y (List.mem_cons_of_mem x hy))]
    simp

lemma dropWhile_append_stop (p : Char → Bool) (c : Char) (b : List Char)
    (hc : p c = false) :
    ∀ a : List Char, (∀ x ∈ a, p x = true) → (a ++ c :: b).dropWhile p = c :: b := by
  intro a
  induction a with
  | nil =>
    intro _
    rw [List.nil_append, List.dropWhile_cons_of_neg (by simp [hc])]
  | cons x t ih =>
    intro h
    rw [List.cons_append, List.dropWhile_cons_of_pos (by simp [h x (List.mem_cons_self x t)])]
    exact ih (fun y hy => h y (List.mem_cons_of_mem x hy))

lemma pyFloatCore_digits (l : List Char) (h : pyIsDigitL l = true) :
    pyFloatCore l = some (digitsVal l : ℚ) := by
  obtain ⟨hne, hall⟩ := pyIsDigitL_parts l h
  rcases l with _ | ⟨c, t⟩
  · exact absurd rfl hne
  simp only [pyFloatCore]
  rw [takeWhile_all _ _ hall, dropWhile_all _ _ hall]
  rfl

lemma pyFloatL_eq_core (l : List Char) (hstrip : pyStripL l = l)
    (c : Char) (t : List Char) (hl : l = c :: t) (hc : c.isDigit = true) :
    pyFloatL l = pyFloatCore l := by
  unfold pyFloatL
  rw [hstrip]
  subst hl
  split
  · next heq =>
    injection heq with hx _
    exact absurd hx (digit_ne c '+' hc (by decide))
  · next heq =>
    injection heq with hx _
    exact absurd hx (digit_ne c '-' hc (by decide))
  · rfl

lemma pyFloatL_neg_head (l : List Char) (hstrip : pyStripL ('-' :: l) = '-' :: l) :
    pyFloatL ('-' :: l) = (pyFloatCore l).map Neg.neg := by
  unfold pyFloatL
  rw [hstrip]
  rfl

lemma pyFloatL_digits (l : List Char) (h : pyIsDigitL l = true) :
    pyFloatL l = some (digitsVal l : ℚ) := by
  obtain ⟨hne, hall⟩ := pyIsDigitL_parts l h
  rcases l with _ | ⟨c, t⟩
  · exact absurd rfl hne
  rw [pyFloatL_eq_core _ (pyStripL_eq_self_of_all _
      (fun x hx => digit_not_space x (hall x hx))) c t rfl
      (hall c (List.mem_cons_self c t))]
  exact pyFloatCore_digits _ h

lemma pyFloat_showInt (i : ℤ) : pyFloat (showInt i) = some (i : ℚ) := by
  unfold pyFloat showInt
  by_cases hneg : i < 0
  · rw [if_pos hneg]
    rw [string_mk_data]
    obtain ⟨hne, hdig, hval⟩ := natToDec_spec i.natAbs
    have hstrip : pyStripL ('-' :: natToDec i.natAbs) = '-' :: natToDec i.natAbs := by
      refine pyStripL_eq_self_of_all _ ?_
      intro x hx
      rcases List.mem_cons.mp hx with rfl | hx
      · decide
      · exact digit_not_space x (hdig x hx)
    rw [pyFloatL_neg_head _ hstrip]
    have hdigs : pyIsDigitL (natToDec i.natAbs) = true := by
      unfold pyIsDigitL
      simp only [Bool.and_eq_true, Bool.not_eq_true', List.all_eq_true]
      exact ⟨by simpa using hne, hdig⟩
    rw [pyFloatCore_digits _ hdigs, hval]
    show some (-((i.natAbs : ℚ))) = some ((i : ℚ))
    congr 1
    have : (i.natAbs : ℚ) = -(i : ℚ) := by
      rw [Int.cast_natAbs]
      simp [abs_of_neg (show (i:ℚ) < 0 by exact_mod_cast hneg)]
    rw [this]
    ring
  · rw [if_neg hneg]
    have hdigs : pyIsDigitL (natToDec i.toNat) = true := (showNat_digits i.toNat).1
    have hval : digitsVal (natToDec i.toNat) = i.toNat := (showNat_digits i.toNat).2
    show pyFloatL (natToDec i.toNat) = some (i : ℚ)
    rw [pyFloatL_digits _ hdigs]
    rw [hval]
    congr 1
    exact_mod_cast Int.toNat_of_nonneg (by omega)

lemma pyFloatCore_dot (ip frac : List Char)
    (hip : ∀ c ∈ ip, c.isDigit = true) (hip_ne : ip ≠ [])
    (hfrac : ∀ c ∈ frac, c.isDigit = true) :
    pyFloatCore (ip ++ '.' :: frac) =
      some ((digitsVal ip : ℚ) + (digitsVal frac : ℚ) / 10 ^ frac.length) := by
  simp only [pyFloatCore]
  rw [takeWhile_append_stop _ '.' _ (by decide) _ hip,
      dropWhile_append_stop _ '.' _ (by decide) _ hip]
  split
  · rename_i heq
    exact absurd heq (by simp)
  · rename_i rest2 heq
    injection heq with _ h2
    subst h2
    rw [takeWhile_all _ _ hfrac, dropWhile_all _ _ hfrac]
    rw [if_neg (by simp [hip_ne])]
  · rename_i e rest4 hne heq
    injection heq with h1 _
    exact absurd h1.symm hne

lemma rat_mul_pow_int (q : ℚ) (e : ℕ) (hd : q.den ∣ 10 ^ e) :
    ((q.num * ((10 ^ e : ℕ) / q.den : ℕ) : ℤ) : ℚ) = q * 10 ^ e := by
  have hden : (q.den : ℚ) ≠ 0 := by exact_mod_cast q.den_pos.ne'
  have h1 : ((10 ^ e / q.den : ℕ) : ℚ) = (10 ^ e : ℚ) / (q.den : ℚ) := by
    rw [Nat.cast_div hd hden]
    norm_num
  have hq0 := Rat.num_div_den q
  rw [div_eq_iff hden] at hq0
  have hk : q.den * ((10 ^ e : ℕ) / q.den) = 10 ^ e := Nat.mul_div_cancel' hd
  have hkQ : (q.den : ℚ) * (((10 ^ e / q.den : ℕ)) : ℚ) = (10 : ℚ) ^ e := by
    exact_mod_cast congrArg (fun n : ℕ => (n : ℚ)) hk
  have hzQ : ((q.num * ((10 ^ e : ℕ) / q.den : ℕ) : ℤ) : ℚ)
      = (q.num : ℚ) * (((10 ^ e / q.den : ℕ)) : ℚ) := by
    rw [Int.cast_mul, Int.cast_natCast]
  rw [hzQ, hq0, mul_assoc, hkQ]

lemma decimal_rep (q : ℚ) (h : decimalQ q = true) :
    ∃ N : ℕ, (N : ℚ) = |q| * 10 ^ decExp q ∧
      (|q| * 10 ^ decExp q).num.toNat = N := by
  have hd : q.den ∣ 10 ^ decExp q := by
    simpa [decimalQ] using h
  have habs : |q|.den = q.den := by
    rcases abs_choice q with h1 | h1 <;> rw [h1]
    exact Rat.neg_den q
  have hd2 : |q|.den ∣ 10 ^ decExp q := by rw [habs]; exact hd
  have hmain := rat_mul_pow_int |q| (decExp q) hd2
  have hz0 : (0:ℤ) ≤ |q|.num * ((10 ^ decExp q : ℕ) / |q|.den : ℕ) :=
    mul_nonneg (Rat.num_nonneg.mpr (abs_nonneg q)) (Int.ofNat_nonneg _)
  refine ⟨(|q|.num * ((10 ^ decExp q : ℕ) / |q|.den : ℕ)).toNat, ?_, ?_⟩
  · calc (((|q|.num * ((10 ^ decExp q : ℕ) / |q|.den : ℕ)).toNat : ℕ) : ℚ)
        = ((|q|.num * ((10 ^ decExp q : ℕ) / |q|.den : ℕ) : ℤ) : ℚ) := by
          exact_mod_cast congrArg (fun z : ℤ => (z : ℚ)) (Int.toNat_of_nonneg hz0)
    _ = |q| * 10 ^ decExp q := hmain
  · rw [← hmain]
    norm_cast

lemma showFloatL_val (q : ℚ) (h : decimalQ q = true) :
    pyFloatCore ((if q < 0 then showFloatL q else showFloatL q).drop
      (if q < 0 then 1 else 0)) = some |q| ∧
    (q < 0 → ∃ b, showFloatL q = '-' :: b) ∧
    (¬q < 0 → ∃ c t, showFloatL q = c :: t ∧ c.isDigit = true) ∧
    (∀ c ∈ showFloatL q, isSpaceC c = false) := by
  obtain ⟨N, hN, hNt⟩ := decimal_rep q h
  set e := decExp q with he
  set ip := N / 10 ^ e with hip
  set fp := N % 10 ^ e with hfp
  obtain ⟨hne_i, hdig_i, hval_i⟩ := natToDec_spec ip
  have hfrac_facts : (∀ c ∈ (if e = 0 then ['0'] else padZeros e (natToDec fp)),
      c.isDigit = true) ∧
      digitsVal (if e = 0 then ['0'] else padZeros e (natToDec fp)) = (if e = 0 then 0 else fp) ∧
      (if e = 0 then ['0'] else padZeros e (natToDec fp)).length = (if e = 0 then 1 else e) := by
    by_cases he0 : e = 0
    · simp only [if_pos he0]
      exact ⟨by intro c hc; rw [List.mem_singleton] at hc; subst hc; decide, by decide, rfl⟩
    · simp only [if_neg he0]
      obtain ⟨hne_f, hdig_f, hval_f⟩ := natToDec_spec fp
      have hfp_lt : fp < 10 ^ e := Nat.mod_lt N (Nat.pos_pow_of_pos e (by norm_num))
      have hlen := natToDec_length_le e fp hfp_lt (by omega)
      obtain ⟨hplen, hpval, hpne, hpdig⟩ := padZeros_spec e (natToDec fp) hlen hne_f hdig_f
      exact ⟨hpdig, by rw [hpval, hval_f], hplen⟩
  obtain ⟨hfrac_dig, hfrac_val, hfrac_len⟩ := hfrac_facts
  have hbody : pyFloatCore (natToDec ip ++ '.' ::
      (if e = 0 then ['0'] else padZeros e (natToDec fp))) = some |q| := by
    rw [pyFloatCore_dot _ _ hdig_i hne_i hfrac_dig]
    congr 1
    rw [hval_i, hfrac_val, hfrac_len]
    have hpow : ((10:ℚ)) ^ e ≠ 0 := by positivity
    by_cases he0 : e = 0
    · simp only [if_pos he0]
      have hNip : N = ip := by
        rw [hip, he0]
        simp
      have hNq : (N : ℚ) = |q| := by
        rw [hN, he0]
        norm_num
      rw [← hNip, hNq]
      norm_num
    · simp only [if_neg he0]
      have hsum : (ip * 10 ^ e + fp : ℕ) = N := by
        rw [hip, hfp]
        exact Nat.div_add_mod' N (10 ^ e)
      have : ((ip : ℚ) + (fp : ℚ) / 10 ^ e) * 10 ^ e = (N : ℚ) := by
        rw [← hsum]
        push_cast
        field_simp
      have h2 : ((ip : ℚ) + (fp : ℚ) / 10 ^ e) * 10 ^ e = |q| * 10 ^ e := by
        rw [this, hN]
      exact mul_right_cancel₀ hpow h2
  have hshow : showFloatL q = (if q < 0 then ['-'] else []) ++ natToDec ip ++ '.' ::
      (if e = 0 then ['0'] else padZeros e (natToDec fp)) := by
    simp only [showFloatL, ← he, ← hip, ← hfp, hNt]
  refine ⟨?_, ?_, ?_, ?_⟩
  · by_cases hq : q < 0
    · rw [if_pos hq, if_pos hq, hshow, if_pos hq]
      simpa using hbody
    · rw [if_neg hq, if_neg hq, hshow, if_neg hq]
      simpa using hbody
  · intro hq
    rw [hshow, if_pos hq]
    exact ⟨_, rfl⟩
  · intro hq
    rw [hshow, if_neg hq]
    rcases hh : natToDec ip with _ | ⟨c, t⟩
    · exact absurd hh hne_i
    · refine ⟨c, t ++ '.' :: (if e = 0 then ['0'] else padZeros e (natToDec fp)), ?_, ?_⟩
      · simp
      · exact hdig_i c (by rw [hh]; exact List.mem_cons_self c t)
  · intro c hc
    rw [hshow] at hc
    rw [List.mem_append, List.mem_append, List.mem_cons] at hc
    rcases hc with (hc | hc) | hc | hc
    · split at hc
      · rw [List.mem_singleton] at hc
        subst hc
        decide
      · simp at hc
    · exact digit_not_space c (hdig_i c hc)
    · subst hc
      decide
    · exact digit_not_space c (hfrac_dig c hc)

lemma pyFloat_showFloat (q : ℚ) (h : decimalQ q = true) :
    pyFloat (showFloat q) = some q := by
  obtain ⟨hcore, hneg, hpos, hnospace⟩ := showFloatL_val q h
  unfold pyFloat showFloat
  rw [string_mk_data]
  have hstrip : pyStripL (showFloatL q) = showFloatL q :=
    pyStripL_eq_self_of_all _ hnospace
  by_cases hq : q < 0
  · obtain ⟨b, hb⟩ := hneg hq
    rw [hb]
    rw [pyFloatL_neg_head b (by rw [← hb]; exact hstrip)]
    have hcb : pyFloatCore b = some |q| := by
      have h2 := hcore
      rw [if_pos hq, if_pos hq, hb] at h2
      exact h2
    rw [hcb]
    show some (-|q|) = some q
    rw [abs_of_neg hq, neg_neg]
  · obtain ⟨c, t, hct, hcd⟩ := hpos hq
    rw [pyFloatL_eq_core _ hstrip c t hct hcd]
    have h2 := hcore
    rw [if_neg hq, if_neg hq] at h2
    rw [show (showFloatL q).drop 0 = showFloatL q from rfl] at h2
    rw [h2, abs_of_nonneg (not_lt.mp hq)]

lemma goodColor_spec (c : String) (h : goodColor c = true) :
    parse_color c = c ∧ color_to_rgba c = some (rgbaStr c) ∧
      parse_color (rgbaStr c) = c ∧ rgbaStr c ≠ "" := by
  unfold goodColor at h
  rw [Bool.and_eq_true] at h
  obtain ⟨h1, h2⟩ := h
  have hp : parse_color c = c := beq_iff_eq.mp h1
  rcases hcc : color_to_rgba c with _ | s
  · rw [hcc] at h2
    exact absurd h2 (by simp)
  · rw [hcc] at h2
    have hps : parse_color s = c := beq_iff_eq.mp h2
    have hs : rgbaStr c = s := by unfold rgbaStr; rw [hcc]; rfl
    refine ⟨hp, by rw [hs], by rw [hs]; exact hps, ?_⟩
    rw [hs]
    intro hemp
    rw [hemp] at hps
    have hc0 : c = "#000000" := by rw [← hps]; decide
    rw [hc0] at hcc
    rw [hemp] at hcc
    exact absurd hcc (by decide)

lemma intQ_spec (q : ℚ) (h : intQ q = true) : ((truncInt q : ℤ) : ℚ) = q :=
  of_decide_eq_true h

lemma goodNode_spec (n : ConceptData) (h : goodNode n = true) :
    decimalQ n.x = true ∧ decimalQ n.y = true ∧ decimalQ n.width = true ∧
    decimalQ n.height = true ∧ goodColor n.fill_color = true ∧
    goodColor n.font_color = true ∧ goodColor n.border_color = true ∧
    intQ n.font_size = true ∧ intQ n.border_width = true ∧
    (n.font_family == "") = false := by
  unfold goodNode at h
  simp only [Bool.and_eq_true, Bool.not_eq_true'] at h
  obtain ⟨⟨⟨⟨⟨⟨⟨⟨⟨h1, h2⟩, h3⟩, h4⟩, h5⟩, h6⟩, h7⟩, h8⟩, h9⟩, h10⟩ := h
  exact ⟨h1, h2, h3, h4, h5, h6, h7, h8, h9, h10⟩

lemma font_style_only_flags (n : ConceptData) :
    font_style_to_str n = font_style_to_str
      { id := "", label := "", font_bold := n.font_bold,
        font_italic := n.font_italic, font_underline := n.font_underline } := rfl

lemma font_style_roundtrip (n : ConceptData) :
    pyInStr "bold" (pyLower (font_style_to_str n)) = n.font_bold ∧
    pyInStr "italic" (pyLower (font_style_to_str n)) = n.font_italic ∧
    pyInStr "underline" (pyLower (font_style_to_str n)) = n.font_underline ∧
    (font_style_to_str n == "") = false := by
  rw [font_style_only_flags n]
  cases hb : n.font_bold <;> cases hi : n.font_italic <;> cases hu : n.font_underline <;>
    exact ⟨by decide, by decide, by decide, by decide⟩

lemma showInt_ne_empty (i : ℤ) : (showInt i == "") = false := by
  obtain ⟨hne, _, _⟩ := natToDec_spec i.natAbs
  obtain ⟨hne2, _, _⟩ := natToDec_spec i.toNat
  unfold showInt
  by_cases hneg : i < 0
  · rw [if_pos hneg]
    rw [beq_eq_false_iff_ne]
    intro hcon
    have := congrArg String.data hcon
    rw [string_mk_data] at this
    exact absurd this (by simp)
  · rw [if_neg hneg]
    rw [beq_eq_false_iff_ne]
    intro hcon
    have := congrArg String.data hcon
    rw [string_mk_data] at this
    exact hne2 this

lemma ne_empty_beq (s : String) (h : s.data ≠ []) : (s == "") = false := by
  rw [beq_eq_false_iff_ne]
  intro hcon
  rw [hcon] at h
  exact h rfl

/-! List and dictionary machinery for the save/reload analysis. -/

lemma mapM_some {α β : Type} (f : α → Option β) (g : α → β) :
    ∀ l : List α, (∀ x ∈ l, f x = some (g x)) → l.mapM f = some (l.map g) := by
  intro l
  induction l with
  | nil => intro _; rfl
  | cons a t ih =>
    intro h
    rw [List.mapM_cons, h a (List.mem_cons_self a t),
        ih (fun x hx => h x (List.mem_cons_of_mem a hx))]
    rfl

lemma dictGet_none_iff (l : List ConceptData) (k : String) :
    dictGet l k = none ↔ ∀ c ∈ l, c.id ≠ k := by
  unfold dictGet
  rw [List.find?_eq_none]
  constructor
  · intro h c hc
    have := h c hc
    simpa using this
  · intro h c hc
    simpa using h c hc

lemma dictGet_some_iff (l : List ConceptData) (hn : (l.map ConceptData.id).Nodup)
    (k : String) (c : ConceptData) :
    dictGet l k = some c ↔ c ∈ l ∧ c.id = k := by
  constructor
  · intro h
    refine ⟨List.mem_of_find?_eq_some h, ?_⟩
    have := List.find?_some h
    simpa using this
  · rintro ⟨hmem, rfl⟩
    induction l with
    | nil => exact absurd hmem (by simp)
    | cons a t ih =>
      unfold dictGet
      rw [List.find?_cons]
      rcases List.mem_cons.mp hmem with rfl | hmem2
      · simp
      · have hne : (a.id == c.id) = false := by
          rw [beq_eq_false_iff_ne]
          intro hcon
          rw [List.map_cons, List.nodup_cons] at hn
          exact hn.1 (hcon ▸ List.mem_map_of_mem ConceptData.id hmem2)
        rw [hne]
        exact ih (by rw [List.map_cons, List.nodup_cons] at hn; exact hn.2) hmem2

lemma dictGet_perm (l l' : List ConceptData) (hperm : l.Perm l')
    (hn : (l.map ConceptData.id).Nodup) (k : String) :
    dictGet l k = dictGet l' k := by
  have hn' : (l'.map ConceptData.id).Nodup := ((hperm.map ConceptData.id).nodup_iff).mp hn
  rcases h : dictGet l' k with _ | c
  · rw [dictGet_none_iff] at h ⊢
    intro c hc
    exact h c (hperm.mem_iff.mp hc)
  · rw [dictGet_some_iff l' hn' k c] at h
    rw [dictGet_some_iff l hn k c]
    exact ⟨hperm.mem_iff.mpr h.1, h.2⟩

lemma filterSplit_perm (l : List ConceptData) : (filterSplit l).Perm l := by
  unfold filterSplit
  have h := List.filter_append_perm (fun n => !n.is_linker) l
  refine List.Perm.trans ?_ h
  apply List.Perm.append_left
  apply List.Perm.of_eq
  apply List.filter_congr
  intro n _
  simp

lemma dictGet_filterSplit (l : List ConceptData) (hn : (l.map ConceptData.id).Nodup)
    (k : String) : dictGet (filterSplit l) k = dictGet l k :=
  dictGet_perm (filterSplit l) l (filterSplit_perm l)
    (((filterSplit_perm l).map ConceptData.id).nodup_iff.mpr hn) k

lemma dictInsert_fresh (m : List ConceptData) (d : ConceptData)
    (h : ∀ c ∈ m, c.id ≠ d.id) : dictInsert m d = m ++ [d] := by
  unfold dictInsert
  have hany : (m.any (fun c => c.id == d.id)) = false := by
    rw [List.any_eq_false]
    intro c hc
    simpa using h c hc
  rw [hany]
  simp

lemma foldl_dictInsert (ns : List ConceptData) :
    ∀ init : List ConceptData, ((init ++ ns).map ConceptData.id).Nodup →
      ns.foldl dictInsert init = init ++ ns := by
  induction ns with
  | nil => intro init _; simp
  | cons d t ih =>
    intro init hnd
    rw [List.foldl_cons]
    have hfresh : dictInsert init d = init ++ [d] := by
      refine dictInsert_fresh init d ?_
      intro c hc hcon
      rw [List.map_append, List.nodup_append] at hnd
      refine hnd.2.2 (hcon ▸ List.mem_map_of_mem ConceptData.id hc) ?_
      exact List.mem_map_of_mem ConceptData.id (List.mem_cons_self d t)
    rw [hfresh, ih (init ++ [d]) (by simpa using hnd)]
    simp

lemma foldl_congr_mem {α β : Type} (l : List α) (f g : β → α → β) :
    ∀ init, (∀ a ∈ l, ∀ acc, f acc a = g acc a) → l.foldl f init = l.foldl g init := by
  induction l with
  | nil => intro _ _; rfl
  | cons a t ih =>
    intro init h
    rw [List.foldl_cons, List.foldl_cons, h a (List.mem_cons_self a t)]
    exact ih _ (fun x hx acc => h x (List.mem_cons_of_mem a hx) acc)

lemma updNode_eq_map (m : List ConceptData) (k : String) (f : ConceptData → ConceptData) :
    updNode m k f = m.map (fun n => if n.id == k then f n else n) := rfl

lemma foldl_condUpd_fusion (trans : XElem → ConceptData → ConceptData)
    (key : XElem → Option String) (apps : List XElem)
    (hstep : ∀ cs app, (match key app with
      | none => cs
      | some aid => updNode cs aid (trans app)) =
      cs.map (fun n => condUpd (key app) (trans app) n)) :
    ∀ cs : List ConceptData,
      apps.foldl (fun cs app => match key app with
        | none => cs
        | some aid => updNode cs aid (trans app)) cs =
      cs.map (fun n => apps.foldl (fun n app => condUpd (key app) (trans app) n) n) := by
  induction apps with
  | nil => intro cs; simp
  | cons a t ih =>
    intro cs
    rw [List.foldl_cons, hstep cs a, ih, List.map_map]
    apply List.map_congr_left
    intro n _
    rfl

lemma condUpd_step_eq (cs : List ConceptData) (app : XElem)
    (trans : XElem → ConceptData → ConceptData) (key : XElem → Option String) :
    (match key app with
      | none => cs
      | some aid => updNode cs aid (trans app)) =
      cs.map (fun n => condUpd (key app) (trans app) n) := by
  cases h : key app
  · simp [condUpd, h]
  · rename_i s
    show updNode cs s (trans app) = cs.map (fun n => condUpd (some s) (trans app) n)
    rw [updNode_eq_map]
    apply List.map_congr_left
    intro n _
    simp [condUpd]

lemma fold_condUpd_miss (trans : XElem → ConceptData → ConceptData)
    (key : XElem → Option String) :
    ∀ (apps : List XElem) (n : ConceptData),
      (∀ app ∈ apps, key app ≠ some n.id) →
      apps.foldl (fun n app => condUpd (key app) (trans app) n) n = n := by
  intro apps
  induction apps with
  | nil => intro n _; rfl
  | cons a t ih =>
    intro n h
    rw [List.foldl_cons]
    have hstep : condUpd (key a) (trans a) n = n := by
      unfold condUpd
      cases hk : key a
      · rfl
      · rename_i s
        show (if (n.id == s) = true then trans a n else n) = n
        rw [if_neg]
        intro hcon
        exact h a (List.mem_cons_self a t) (by rw [hk, beq_iff_eq.mp hcon])
    rw [hstep]
    exact ih n (fun app hap => h app (List.mem_cons_of_mem a hap))

lemma fold_condUpd_hit (trans : XElem → ConceptData → ConceptData)
    (key : XElem → Option String) (pre post : List XElem) (app0 : XElem)
    (n : ConceptData)
    (hpre : ∀ a ∈ pre, key a ≠ some n.id)
    (hk : key app0 = some n.id)
    (hpost : ∀ a ∈ post, key a ≠ some (trans app0 n).id) :
    (pre ++ app0 :: post).foldl (fun n app => condUpd (key app) (trans app) n) n =
      trans app0 n := by
  rw [List.foldl_append, fold_condUpd_miss trans key pre n hpre, List.foldl_cons]
  have hstep : condUpd (key app0) (trans app0) n = trans app0 n := by
    unfold condUpd
    rw [hk]
    simp
  rw [hstep]
  exact fold_condUpd_miss trans key post (trans app0 n) hpost

lemma mkAppearanceElem_eq (n : ConceptData) (h : goodNode n = true) :
    mkAppearanceElem n = some (appElemP n) := by
  obtain ⟨_, _, _, _, h5, h6, h7, _, _, _⟩ := goodNode_spec n h
  unfold mkAppearanceElem
  rw [(goodColor_spec _ h5).2.1, (goodColor_spec _ h6).2.1, (goodColor_spec _ h7).2.1]
  rfl

lemma styleAttrsOf_eq (n : ConceptData) (h : goodNode n = true) :
    styleAttrsOf n = some (styleAttrsP n) := by
  obtain ⟨_, _, _, _, h5, h6, h7, _, _, _⟩ := goodNode_spec n h
  unfold styleAttrsOf
  rw [(goodColor_spec _ h6).2.1, (goodColor_spec _ h5).2.1, (goodColor_spec _ h7).2.1]
  rfl

lemma saveAppearanceMap_eq (doc : CXLDocument) (m : XElem)
    (hgood : ∀ n ∈ doc.concepts, goodNode n = true) :
    saveAppearanceMap doc m = some (pureSaveMap doc m) := by
  unfold saveAppearanceMap pureSaveMap
  rw [mapM_some mkAppearanceElem appElemP _
    (fun n hn => mkAppearanceElem_eq n (hgood n (List.mem_of_mem_filter hn)))]
  rw [mapM_some mkAppearanceElem appElemP _
    (fun n hn => mkAppearanceElem_eq n (hgood n (List.mem_of_mem_filter hn)))]
  have hOpt1 : optStyleAttrs (doc.concepts.find? (fun n => !n.is_linker)) =
      some ((doc.concepts.find? (fun n => !n.is_linker)).map styleAttrsP) := by
    rcases hf : doc.concepts.find? (fun n => !n.is_linker) with _ | n0
    · rw [hf]; rfl
    · rw [hf]
      show (styleAttrsOf n0).map some = some ((some n0).map styleAttrsP)
      rw [styleAttrsOf_eq n0 (hgood n0 (List.mem_of_find?_eq_some hf))]
      rfl
  have hOpt2 : optStyleAttrs (doc.concepts.find? (fun n => n.is_linker)) =
      some ((doc.concepts.find? (fun n => n.is_linker)).map styleAttrsP) := by
    rcases hf : doc.concepts.find? (fun n => n.is_linker) with _ | n0
    · rw [hf]; rfl
    · rw [hf]
      show (styleAttrsOf n0).map some = some ((some n0).map styleAttrsP)
      rw [styleAttrsOf_eq n0 (hgood n0 (List.mem_of_find?_eq_some hf))]
      rfl
  rw [hOpt1, hOpt2]
  rfl

lemma save_ok (doc : CXLDocument) (rt : String) (rats mats : List (String × String))
    (fp : String)
    (hroot : doc.root = some ⟨rt, rats, [⟨"map", mats, []⟩]⟩)
    (happ : doc.appearance_mode = true)
    (hgood : ∀ n ∈ doc.concepts, goodNode n = true)
    (hfp : (fp == "") = false) :
    save doc (some fp) = .ok ⟨rt, rats, [pureSaveMap doc ⟨"map", mats, []⟩]⟩ := by
  simp only [save, hroot,
    show XElem.find1 ⟨rt, rats, [⟨"map", mats, []⟩]⟩ "map" = some ⟨"map", mats, []⟩
      from rfl,
    happ, if_true, saveAppearanceMap_eq doc _ hgood, hfp, Bool.false_eq_true, if_false]
  rfl

lemma filter_map_all {α : Type} (f : α → XElem) (t : String) (l : List α)
    (h : ∀ x ∈ l, (f x).tag = t) :
    (l.map f).filter (fun c => c.tag == t) = l.map f := by
  rw [List.filter_eq_self]
  intro c hc
  obtain ⟨x, hx, rfl⟩ := List.mem_map.mp hc
  simp [h x hx]

lemma mkNodeListElem_tag (n : ConceptData) :
    (mkNodeListElem n).tag = (if n.is_linker then "linking-phrase" else "concept") := by
  unfold mkNodeListElem
  cases n.is_linker <;> rfl

lemma appElemP_tag (n : ConceptData) :
    (appElemP n).tag =
      (if n.is_linker then "linking-phrase-appearance" else "concept-appearance") := rfl

lemma modChild_append (e : XElem) (t : String) (f : XElem → XElem)
    (h : e.children.any (fun c => c.tag == t) = false) :
    e.modChild t f = ⟨e.tag, e.attrs, e.children ++ [f ⟨t, [], []⟩]⟩ := by
  unfold XElem.modChild
  rw [h]
  rfl

lemma modChild_found (e : XElem) (t : String) (f : XElem → XElem)
    (h : e.children.any (fun c => c.tag == t) = true) :
    e.modChild t f =
      ⟨e.tag, e.attrs, updateFirstWhere (fun c => c.tag == t) f e.children⟩ := by
  unfold XElem.modChild
  rw [h]
  rfl

lemma pureSaveMap_shape (doc : CXLDocument) (mats : List (String × String)) :
    pureSaveMap doc ⟨"map", mats, []⟩ = ⟨"map", mats,
      [⟨"concept-list", [],
        (doc.concepts.filter (fun n => !n.is_linker)).map mkNodeListElem⟩,
       ⟨"linking-phrase-list", [],
        (doc.concepts.filter (fun n => n.is_linker)).map mkNodeListElem⟩,
       ⟨"concept-appearance-list", [],
        (doc.concepts.filter (fun n => !n.is_linker)).map appElemP⟩,
       ⟨"linking-phrase-appearance-list", [],
        (doc.concepts.filter (fun n => n.is_linker)).map appElemP⟩,
       ⟨"connection-list", [], doc.connections.map mkConnElem⟩,
       ⟨"connection-appearance-list", [], doc.connections.map mkConnAppElem⟩,
       ⟨"style-sheet-list", [], [⟨"style-sheet", [],
         [connStyleDefaultElem,
          styleChildE "concept-style"
            ((doc.concepts.find? (fun n => !n.is_linker)).map styleAttrsP),
          styleChildE "linking-phrase-style"
            ((doc.concepts.find? (fun n => n.is_linker)).map styleAttrsP)]⟩]⟩]⟩ := by
  unfold pureSaveMap
  rcases hc : (doc.concepts.find? (fun n => !n.is_linker)).map styleAttrsP with _ | cats <;>
    rcases hl : (doc.concepts.find? (fun n => n.is_linker)).map styleAttrsP with _ | lats <;>
    simp [XElem.modChild, updateFirstWhere, styleChildE, connStyleDefaultElem, hc, hl]

lemma reload_conceptElems (doc : CXLDocument) (mats : List (String × String)) :
    conceptElems (pureSaveMap doc ⟨"map", mats, []⟩) =
      (doc.concepts.filter (fun n => !n.is_linker)).map mkNodeListElem := by
  rw [pureSaveMap_shape]
  simp only [conceptElems, XElem.findall2, XElem.taggedChildren, List.filter, List.map,
    List.flatten]
  norm_num
  rintro a x hx hlk rfl
  rw [mkNodeListElem_tag, hlk]
  simp

lemma reload_linkerElems (doc : CXLDocument) (mats : List (String × String)) :
    linkerElems (pureSaveMap doc ⟨"map", mats, []⟩) =
      (doc.concepts.filter (fun n => n.is_linker)).map mkNodeListElem := by
  rw [pureSaveMap_shape]
  simp only [linkerElems, XElem.findall2, XElem.taggedChildren, List.filter, List.map,
    List.flatten]
  norm_num
  rintro a x hx hlk rfl
  rw [mkNodeListElem_tag, hlk]
  simp

lemma reload_conceptAppElems (doc : CXLDocument) (mats : List (String × String)) :
    conceptAppElems (pureSaveMap doc ⟨"map", mats, []⟩) =
      (doc.concepts.filter (fun n => !n.is_linker)).map appElemP := by
  rw [pureSaveMap_shape]
  simp only [conceptAppElems, XElem.findall2, XElem.taggedChildren, List.filter, List.map,
    List.flatten]
  norm_num
  rintro a x hx hlk rfl
  rw [appElemP_tag, hlk]
  simp

lemma reload_linkerAppElems (doc : CXLDocument) (mats : List (String × String)) :
    linkerAppElems (pureSaveMap doc ⟨"map", mats, []⟩) =
      (doc.concepts.filter (fun n => n.is_linker)).map appElemP := by
  rw [pureSaveMap_shape]
  simp only [linkerAppElems, XElem.findall2, XElem.taggedChildren, List.filter, List.map,
    List.flatten]
  norm_num
  rintro a x hx hlk rfl
  rw [appElemP_tag, hlk]
  simp

lemma reload_connElems (doc : CXLDocument) (mats : List (String × String)) :
    connElems (pureSaveMap doc ⟨"map", mats, []⟩) =
      doc.connections.map mkConnElem := by
  rw [pureSaveMap_shape]
  simp only [connElems, XElem.findall2, XElem.taggedChildren, List.filter, List.map,
    List.flatten]
  norm_num
  rintro a hx
  rfl

lemma reload_connAppElems (doc : CXLDocument) (mats : List (String × String)) :
    connAppElems (pureSaveMap doc ⟨"map", mats, []⟩) =
      doc.connections.map mkConnAppElem := by
  rw [pureSaveMap_shape]
  simp only [connAppElems, XElem.findall2, XElem.taggedChildren, List.filter, List.map,
    List.flatten]
  norm_num
  rintro a hx
  rfl

lemma reload_appearance_flag (doc : CXLDocument) (mats : List (String × String)) :
    ((pureSaveMap doc ⟨"map", mats, []⟩).find1 "concept-appearance-list").isSome = true := by
  rw [pureSaveMap_shape]
  rfl

lemma mkNode_listElem_c (n : ConceptData) (h : n.is_linker = false) :
    mkNodeFromElem (mkNodeListElem n) false 120 60 = baseC n := by
  unfold mkNodeListElem
  rw [h]
  rfl

lemma mkNode_listElem_l (n : ConceptData) (h : n.is_linker = true) :
    mkNodeFromElem (mkNodeListElem n) true 90 11 = baseL n := by
  unfold mkNodeListElem
  rw [h]
  rfl

lemma tryGeom_appElemP (n : ConceptData) (h : goodNode n = true) (m : ConceptData) :
    tryGeomAttrs (appElemP n).attrs m =
      { m with x := n.x, y := n.y, width := n.width, height := n.height } := by
  obtain ⟨hdx, hdy, hdw, hdh, _, _, _, _, _, _⟩ := goodNode_spec n h
  simp only [tryGeomAttrs,
    show getAttr (appElemP n).attrs "x" = some (showFloat n.x) from rfl,
    show getAttr (appElemP n).attrs "y" = some (showFloat n.y) from rfl,
    show getAttr (appElemP n).attrs "width" = some (showFloat n.width) from rfl,
    show getAttr (appElemP n).attrs "height" = some (showFloat n.height) from rfl,
    pyFloat_showFloat n.x hdx, pyFloat_showFloat n.y hdy,
    pyFloat_showFloat n.width hdw, pyFloat_showFloat n.height hdh]

lemma styleRestore_bg (n : ConceptData) (h5 : goodColor n.fill_color = true)
    (m : ConceptData) :
    styleStepBackground (appElemP n).attrs m = { m with fill_color := n.fill_color } := by
  obtain ⟨_, _, hback, hnemp⟩ := goodColor_spec _ h5
  simp only [styleStepBackground,
    show getAttr (appElemP n).attrs "background-color" = some (rgbaStr n.fill_color)
      from rfl,
    beq_eq_false_iff_ne.mpr hnemp, Bool.false_eq_true, if_false, hback]

lemma styleRestore_fc (n : ConceptData) (h6 : goodColor n.font_color = true)
    (m : ConceptData) :
    styleStepFontColor (appElemP n).attrs m = { m with font_color := n.font_color } := by
  obtain ⟨_, _, hback, hnemp⟩ := goodColor_spec _ h6
  simp only [styleStepFontColor,
    show getAttr (appElemP n).attrs "font-color" = some (rgbaStr n.font_color) from rfl,
    beq_eq_false_iff_ne.mpr hnemp, Bool.false_eq_true, if_false, hback]

lemma styleRestore_bc (n : ConceptData) (h7 : goodColor n.border_color = true)
    (m : ConceptData) :
    styleStepBorderColor (appElemP n).attrs m =
      { m with border_color := n.border_color } := by
  obtain ⟨_, _, hback, hnemp⟩ := goodColor_spec _ h7
  simp only [styleStepBorderColor,
    show getAttr (appElemP n).attrs "border-color" = some (rgbaStr n.border_color)
      from rfl,
    beq_eq_false_iff_ne.mpr hnemp, Bool.false_eq_true, if_false, hback]

lemma styleRestore_bw (n : ConceptData) (h9 : intQ n.border_width = true)
    (m : ConceptData) :
    styleStepBorderThickness (appElemP n).attrs m =
      { m with border_width := n.border_width } := by
  simp only [styleStepBorderThickness,
    show getAttr (appElemP n).attrs "border-thickness" =
      some (showInt (truncInt n.border_width)) from rfl,
    showInt_ne_empty, Bool.false_eq_true, if_false,
    pyFloat_showInt, intQ_spec _ h9]

lemma styleRestore_fn (n : ConceptData) (hff : (n.font_family == "") = false)
    (m : ConceptData) :
    styleStepFontName (appElemP n).attrs m = { m with font_family := n.font_family } := by
  simp only [styleStepFontName,
    show getAttr (appElemP n).attrs "font-name" = some n.font_family from rfl,
    hff, Bool.false_eq_true, if_false]

lemma styleRestore_fs (n : ConceptData) (h8 : intQ n.font_size = true)
    (m : ConceptData) :
    styleStepFontSize (appElemP n).attrs m = { m with font_size := n.font_size } := by
  simp only [styleStepFontSize,
    show getAttr (appElemP n).attrs "font-size" =
      some (showInt (truncInt n.font_size)) from rfl,
    showInt_ne_empty, Bool.false_eq_true, if_false,
    pyFloat_showInt, intQ_spec _ h8]

lemma styleRestore_fst (n : ConceptData) (m : ConceptData) :
    styleStepFontStyle (appElemP n).attrs m =
      { m with font_bold := n.font_bold, font_italic := n.font_italic,
               font_underline := n.font_underline } := by
  obtain ⟨hfb, hfi, hfu, hfsne⟩ := font_style_roundtrip n
  simp only [styleStepFontStyle,
    show getAttr (appElemP n).attrs "font-style" = some (font_style_to_str n) from rfl,
    hfsne, Bool.false_eq_true, if_false, hfb, hfi, hfu]

lemma applyStyle_appElemP (n : ConceptData) (h : goodNode n = true) (m : ConceptData) :
    applyStyleAttrs (appElemP n).attrs m =
      { m with font_family := n.font_family, font_size := n.font_size,
               font_color := n.font_color, fill_color := n.fill_color,
               border_color := n.border_color, border_width := n.border_width,
               font_bold := n.font_bold, font_italic := n.font_italic,
               font_underline := n.font_underline } := by
  obtain ⟨_, _, _, _, h5, h6, h7, h8, h9, hff⟩ := goodNode_spec n h
  unfold applyStyleAttrs
  rw [styleRestore_bg n h5 m, styleRestore_fc n h6, styleRestore_bc n h7,
      styleRestore_bw n h9, styleRestore_fn n hff, styleRestore_fs n h8,
      styleRestore_fst n]

lemma pass1_node (n : ConceptData) (h : goodNode n = true) (m : ConceptData)
    (hid : m.id = n.id) (hlb : m.label = n.label) (hlk : m.is_linker = n.is_linker) :
    applyStyleAttrs (appElemP n).attrs (tryGeomAttrs (appElemP n).attrs m) = n := by
  rw [tryGeom_appElemP n h m, applyStyle_appElemP n h]
  rw [show ({ m with x := n.x, y := n.y, width := n.width, height := n.height } :
        ConceptData).id = m.id from rfl,
      show ({ m with x := n.x, y := n.y, width := n.width, height := n.height} :
        ConceptData).label = m.label from rfl,
      show ({ m with x := n.x, y := n.y, width := n.width, height := n.height} :
        ConceptData).is_linker = m.is_linker from rfl,
      hid, hlb, hlk]

lemma applyDefaultStyle_keeps (sty : List (String × String)) (n : ConceptData) :
    (applyDefaultStyle sty n).id = n.id ∧ (applyDefaultStyle sty n).label = n.label ∧
    (applyDefaultStyle sty n).x = n.x ∧ (applyDefaultStyle sty n).y = n.y ∧
    (applyDefaultStyle sty n).width = n.width ∧
    (applyDefaultStyle sty n).height = n.height ∧
    (applyDefaultStyle sty n).is_linker = n.is_linker := by
  unfold applyDefaultStyle
  repeat' split
  all_goals exact ⟨rfl, rfl, rfl, rfl, rfl, rfl, rfl⟩

lemma pass2_node (n : ConceptData) (h : goodNode n = true)
    (sty : List (String × String)) :
    applyStyleAttrs (appElemP n).attrs (applyDefaultStyle sty n) = n := by
  rw [applyStyle_appElemP n h]
  obtain ⟨h1, h2, h3, h4, h5, h6, h7⟩ := applyDefaultStyle_keeps sty n
  rw [h1, h2, h3, h4, h5, h6, h7]

lemma canon_good (n : ConceptData) (h : goodNode n = true) : canonNodeColors n = n := by
  obtain ⟨_, _, _, _, h5, h6, h7, _, _, _⟩ := goodNode_spec n h
  unfold canonNodeColors
  rw [(goodColor_spec _ h5).1, (goodColor_spec _ h6).1, (goodColor_spec _ h7).1]

lemma appElemP_key (p : ConceptData) : getAttr (appElemP p).attrs "id" = some p.id := rfl

lemma appElemP_fold_miss (tf : XElem → ConceptData → ConceptData)
    (L : List ConceptData) (m : ConceptData) (hmiss : ∀ x ∈ L, x.id ≠ m.id) :
    (L.map appElemP).foldl
      (fun x app => condUpd (getAttr app.attrs "id") (tf app) x) m = m := by
  refine fold_condUpd_miss tf (fun app => getAttr app.attrs "id") (L.map appElemP) m ?_
  intro a ha hcon
  obtain ⟨p, hp, rfl⟩ := List.mem_map.mp ha
  simp only [appElemP_key] at hcon
  injection hcon with he
  exact hmiss p hp he

lemma appElemP_fold_hit (tf : XElem → ConceptData → ConceptData)
    (pre post : List ConceptData) (n : ConceptData)
    (hnodup : (((pre ++ n :: post).map ConceptData.id)).Nodup)
    (m : ConceptData) (hid : m.id = n.id)
    (htrans : tf (appElemP n) m = n) :
    (((pre ++ n :: post).map appElemP)).foldl
      (fun x app => condUpd (getAttr app.attrs "id") (tf app) x) m = n := by
  rw [List.map_append, List.map_cons] at hnodup ⊢
  simp only [List.nodup_append, List.nodup_cons] at hnodup
  obtain ⟨hpre, ⟨hncons, hpost⟩, hdisj⟩ := hnodup
  refine (fold_condUpd_hit tf (fun app => getAttr app.attrs "id") (pre.map appElemP)
    (post.map appElemP) (appElemP n) m ?_ ?_ ?_).trans htrans
  · intro a ha hcon
    obtain ⟨p, hp, rfl⟩ := List.mem_map.mp ha
    simp only [appElemP_key] at hcon
    injection hcon with he
    rw [hid] at he
    exact hdisj (he ▸ List.mem_map_of_mem ConceptData.id hp) (List.mem_cons_self _ _)
  · simp only [appElemP_key, hid]
  · intro a ha hcon
    obtain ⟨p, hp, rfl⟩ := List.mem_map.mp ha
    simp only [appElemP_key, htrans] at hcon
    injection hcon with he
    exact hncons (he ▸ List.mem_map_of_mem ConceptData.id hp)

lemma reload_nodes1 (doc : CXLDocument) (mats : List (String × String))
    (hn : (doc.concepts.map ConceptData.id).Nodup)
    (hgood : ∀ n ∈ doc.concepts, goodNode n = true) :
    appearanceNodes1 [] (pureSaveMap doc ⟨"map", mats, []⟩) =
      filterSplit doc.concepts := by
  set A := doc.concepts.filter (fun n => !n.is_linker) with hAdef
  set B := doc.concepts.filter (fun n => n.is_linker) with hBdef
  have hA : (A.map ConceptData.id).Nodup :=
    hn.sublist (List.Sublist.map ConceptData.id (List.filter_sublist doc.concepts))
  have hB : (B.map ConceptData.id).Nodup :=
    hn.sublist (List.Sublist.map ConceptData.id (List.filter_sublist doc.concepts))
  have hAB : ((A ++ B).map ConceptData.id).Nodup :=
    (((filterSplit_perm doc.concepts).map ConceptData.id).nodup_iff).mpr hn
  have hdisj : ∀ x ∈ A, ∀ y ∈ B, x.id ≠ y.id := by
    rw [List.map_append, List.nodup_append] at hAB
    intro x hx y hy hcon
    exact hAB.2.2 (List.mem_map_of_mem ConceptData.id hx)
      (hcon ▸ List.mem_map_of_mem ConceptData.id hy)
  have hgoodA : ∀ n ∈ A, goodNode n = true :=
    fun n hn2 => hgood n (List.mem_of_mem_filter hn2)
  have hgoodB : ∀ n ∈ B, goodNode n = true :=
    fun n hn2 => hgood n (List.mem_of_mem_filter hn2)
  have hlkA : ∀ n ∈ A, n.is_linker = false := by
    intro n hn2
    have := List.of_mem_filter hn2
    simpa using this
  have hlkB : ∀ n ∈ B, n.is_linker = true := fun n hn2 => List.of_mem_filter hn2
  simp only [appearanceNodes1]
  rw [reload_conceptElems, reload_linkerElems, reload_conceptAppElems,
      reload_linkerAppElems]
  rw [← hAdef, ← hBdef]
  -- concept dictionary fold
  have step1 : (A.map mkNodeListElem).foldl
      (fun a el => dictInsert a (mkNodeFromElem el false 120 60)) [] = A.map baseC := by
    rw [List.foldl_map]
    rw [foldl_congr_mem A _ (fun a n => dictInsert a (baseC n)) []
      (fun n hn2 acc => by rw [mkNode_listElem_c n (hlkA n hn2)])]
    rw [show A.foldl (fun a n => dictInsert a (baseC n)) [] =
        (A.map baseC).foldl dictInsert [] from (List.foldl_map _ _ _ _).symm]
    rw [foldl_dictInsert (A.map baseC) [] (by
      simp only [List.nil_append, List.map_map]
      exact hA)]
    rfl
  rw [step1]
  -- linker dictionary fold
  have step2 : (B.map mkNodeListElem).foldl
      (fun a el => dictInsert a (mkNodeFromElem el true 90 11)) (A.map baseC) =
      A.map baseC ++ B.map baseL := by
    rw [List.foldl_map]
    rw [foldl_congr_mem B _ (fun a n => dictInsert a (baseL n)) (A.map baseC)
      (fun n hn2 acc => by rw [mkNode_listElem_l n (hlkB n hn2)])]
    rw [show B.foldl (fun a n => dictInsert a (baseL n)) (A.map baseC) =
        (B.map baseL).foldl dictInsert (A.map baseC) from (List.foldl_map _ _ _ _).symm]
    exact foldl_dictInsert (B.map baseL) (A.map baseC) (by
      simp only [List.map_append, List.map_map]
      have heq : (List.map (ConceptData.id ∘ baseC) A ++ List.map (ConceptData.id ∘ baseL) B)
          = List.map ConceptData.id (A ++ B) := by
        rw [List.map_append]
        congr 1
      rw [heq]
      exact hAB)
  rw [step2]
  -- first appearance pass (concept appearances)
  have hfuse1 : appFirstPass (A.map baseC ++ B.map baseL) (A.map appElemP) =
      (A.map baseC ++ B.map baseL).map (fun n => (A.map appElemP).foldl
        (fun n app => condUpd (getAttr app.attrs "id")
          (fun x => applyStyleAttrs app.attrs (tryGeomAttrs app.attrs x)) n) n) :=
    foldl_condUpd_fusion (fun app x => applyStyleAttrs app.attrs (tryGeomAttrs app.attrs x))
      (fun app => getAttr app.attrs "id") (A.map appElemP)
      (fun cs app => condUpd_step_eq cs app
        (fun a x => applyStyleAttrs a.attrs (tryGeomAttrs a.attrs x))
        (fun a => getAttr a.attrs "id")) (A.map baseC ++ B.map baseL)
  rw [hfuse1, List.map_append, List.map_map, List.map_map]
  have hA1 : A.map ((fun n => (A.map appElemP).foldl
      (fun n app => condUpd (getAttr app.attrs "id")
        (fun x => applyStyleAttrs app.attrs (tryGeomAttrs app.attrs x)) n) n) ∘ baseC) =
      A := by
    conv_rhs => rw [← List.map_id A]
    refine List.map_congr_left ?_
    intro n hn2
    obtain ⟨pre, post, hAeq⟩ := List.append_of_mem hn2
    show (A.map appElemP).foldl _ (baseC n) = n
    rw [hAeq]
    refine appElemP_fold_hit _ pre post n (by rw [← hAeq]; exact hA) (baseC n) rfl ?_
    exact pass1_node n (hgoodA n hn2) (baseC n) rfl rfl (by
      show false = n.is_linker
      rw [hlkA n hn2])
  have hB1 : B.map ((fun n => (A.map appElemP).foldl
      (fun n app => condUpd (getAttr app.attrs "id")
        (fun x => applyStyleAttrs app.attrs (tryGeomAttrs app.attrs x)) n) n) ∘ baseL) =
      B.map baseL := by
    refine List.map_congr_left ?_
    intro m hm
    show (A.map appElemP).foldl _ (baseL m) = baseL m
    exact appElemP_fold_miss _ A (baseL m)
      (fun x hx => by
        show x.id ≠ m.id
        exact hdisj x hx m hm)
  rw [hA1, hB1]
  -- second appearance pass (linking phrase appearances)
  have hfuse2 : appFirstPass (A ++ B.map baseL) (B.map appElemP) =
      (A ++ B.map baseL).map (fun n => (B.map appElemP).foldl
        (fun n app => condUpd (getAttr app.attrs "id")
          (fun x => applyStyleAttrs app.attrs (tryGeomAttrs app.attrs x)) n) n) :=
    foldl_condUpd_fusion (fun app x => applyStyleAttrs app.attrs (tryGeomAttrs app.attrs x))
      (fun app => getAttr app.attrs "id") (B.map appElemP)
      (fun cs app => condUpd_step_eq cs app
        (fun a x => applyStyleAttrs a.attrs (tryGeomAttrs a.attrs x))
        (fun a => getAttr a.attrs "id")) (A ++ B.map baseL)
  rw [hfuse2, List.map_append, List.map_map]
  have hA2 : A.map (fun n => (B.map appElemP).foldl
      (fun n app => condUpd (getAttr app.attrs "id")
        (fun x => applyStyleAttrs app.attrs (tryGeomAttrs app.attrs x)) n) n) = A := by
    conv_rhs => rw [← List.map_id A]
    refine List.map_congr_left ?_
    intro n hn2
    exact appElemP_fold_miss _ B n (fun x hx hcon => hdisj n hn2 x hx hcon.symm)
  have hB2 : B.map ((fun n => (B.map appElemP).foldl
      (fun n app => condUpd (getAttr app.attrs "id")
        (fun x => applyStyleAttrs app.attrs (tryGeomAttrs app.attrs x)) n) n) ∘ baseL) =
      B := by
    conv_rhs => rw [← List.map_id B]
    refine List.map_congr_left ?_
    intro m hm
    obtain ⟨pre, post, hBeq⟩ := List.append_of_mem hm
    show (B.map appElemP).foldl _ (baseL m) = m
    rw [hBeq]
    refine appElemP_fold_hit _ pre post m (by rw [← hBeq]; exact hB) (baseL m) rfl ?_
    exact pass1_node m (hgoodB m hm) (baseL m) rfl rfl (by
      show true = m.is_linker
      rw [hlkB m hm])
  rw [hA2, hB2]
  rfl

lemma appElemP_okey (p : ConceptData) :
    (fun app => some ((getAttr app.attrs "id").getD "")) (appElemP p) = some p.id := rfl

lemma appElemP_ofold_miss (tf : XElem → ConceptData → ConceptData)
    (L : List ConceptData) (m : ConceptData) (hmiss : ∀ x ∈ L, x.id ≠ m.id) :
    (L.map appElemP).foldl
      (fun x app => condUpd (some ((getAttr app.attrs "id").getD "")) (tf app) x) m = m := by
  refine fold_condUpd_miss tf (fun app => some ((getAttr app.attrs "id").getD ""))
    (L.map appElemP) m ?_
  intro a ha hcon
  obtain ⟨p, hp, rfl⟩ := List.mem_map.mp ha
  simp only [appElemP_okey] at hcon
  injection hcon with he
  exact hmiss p hp he

lemma appElemP_ofold_hit (tf : XElem → ConceptData → ConceptData)
    (pre post : List ConceptData) (n : ConceptData)
    (hnodup : (((pre ++ n :: post).map ConceptData.id)).Nodup)
    (m : ConceptData) (hid : m.id = n.id)
    (htrans : tf (appElemP n) m = n) :
    (((pre ++ n :: post).map appElemP)).foldl
      (fun x app => condUpd (some ((getAttr app.attrs "id").getD "")) (tf app) x) m = n := by
  rw [List.map_append, List.map_cons] at hnodup ⊢
  simp only [List.nodup_append, List.nodup_cons] at hnodup
  obtain ⟨hpre, ⟨hncons, hpost⟩, hdisj⟩ := hnodup
  refine (fold_condUpd_hit tf (fun app => some ((getAttr app.attrs "id").getD ""))
    (pre.map appElemP) (post.map appElemP) (appElemP n) m ?_ ?_ ?_).trans htrans
  · intro a ha hcon
    obtain ⟨p, hp, rfl⟩ := List.mem_map.mp ha
    simp only [appElemP_okey] at hcon
    injection hcon with he
    rw [hid] at he
    exact hdisj (he ▸ List.mem_map_of_mem ConceptData.id hp) (List.mem_cons_self _ _)
  · simp only [appElemP_okey, hid]
  · intro a ha hcon
    obtain ⟨p, hp, rfl⟩ := List.mem_map.mp ha
    simp only [appElemP_okey, htrans] at hcon
    injection hcon with he
    exact hncons (he ▸ List.mem_map_of_mem ConceptData.id hp)

lemma reload_nodes2 (doc : CXLDocument) (mats : List (String × String))
    (dcs dls : List (String × String))
    (hn : (doc.concepts.map ConceptData.id).Nodup)
    (hgood : ∀ n ∈ doc.concepts, goodNode n = true) :
    appearanceNodes2 (filterSplit doc.concepts) (pureSaveMap doc ⟨"map", mats, []⟩)
      dcs dls = filterSplit doc.concepts := by
  set A := doc.concepts.filter (fun n => !n.is_linker) with hAdef
  set B := doc.concepts.filter (fun n => n.is_linker) with hBdef
  have hA : (A.map ConceptData.id).Nodup :=
    hn.sublist (List.Sublist.map ConceptData.id (List.filter_sublist doc.concepts))
  have hB : (B.map ConceptData.id).Nodup :=
    hn.sublist (List.Sublist.map ConceptData.id (List.filter_sublist doc.concepts))
  have hAB : ((A ++ B).map ConceptData.id).Nodup :=
    (((filterSplit_perm doc.concepts).map ConceptData.id).nodup_iff).mpr hn
  have hdisj : ∀ x ∈ A, ∀ y ∈ B, x.id ≠ y.id := by
    rw [List.map_append, List.nodup_append] at hAB
    intro x hx y hy hcon
    exact hAB.2.2 (List.mem_map_of_mem ConceptData.id hx)
      (hcon ▸ List.mem_map_of_mem ConceptData.id hy)
  have hgoodA : ∀ n ∈ A, goodNode n = true :=
    fun n hn2 => hgood n (List.mem_of_mem_filter hn2)
  have hgoodB : ∀ n ∈ B, goodNode n = true :=
    fun n hn2 => hgood n (List.mem_of_mem_filter hn2)
  have hshow : filterSplit doc.concepts = A ++ B := rfl
  rw [hshow]
  simp only [appearanceNodes2]
  rw [reload_conceptAppElems, reload_linkerAppElems, ← hAdef, ← hBdef]
  set dflt := fun n : ConceptData =>
    applyDefaultStyle (if n.is_linker then dls else dcs) n with hdfl
  have hkeep : ∀ n : ConceptData, (dflt n).id = n.id := fun n =>
    (applyDefaultStyle_keeps _ n).1
  rw [List.map_append]
  have hov : ∀ (cs : List ConceptData) (apps : List XElem),
      appOverridePass cs apps = cs.map (fun n => apps.foldl
        (fun n app => condUpd (some ((getAttr app.attrs "id").getD ""))
          (fun x => applyStyleAttrs app.attrs x) n) n) :=
    fun cs apps => foldl_condUpd_fusion (fun app x => applyStyleAttrs app.attrs x)
      (fun app => some ((getAttr app.attrs "id").getD "")) apps
      (fun cs app => condUpd_step_eq cs app (fun a x => applyStyleAttrs a.attrs x)
        (fun a => some ((getAttr a.attrs "id").getD ""))) cs
  rw [hov (List.map dflt A ++ List.map dflt B) (List.map appElemP A),
      List.map_append, List.map_map, List.map_map]
  have hA1 : A.map ((fun n => (A.map appElemP).foldl
      (fun n app => condUpd (some ((getAttr app.attrs "id").getD ""))
        (fun x => applyStyleAttrs app.attrs x) n) n) ∘ dflt) = A := by
    conv_rhs => rw [← List.map_id A]
    refine List.map_congr_left ?_
    intro n hn2
    obtain ⟨pre, post, hAeq⟩ := List.append_of_mem hn2
    show (A.map appElemP).foldl _ (dflt n) = n
    rw [hAeq]
    exact appElemP_ofold_hit _ pre post n (by rw [← hAeq]; exact hA) (dflt n)
      (hkeep n) (pass2_node n (hgoodA n hn2) _)
  have hB1 : B.map ((fun n => (A.map appElemP).foldl
      (fun n app => condUpd (some ((getAttr app.attrs "id").getD ""))
        (fun x => applyStyleAttrs app.attrs x) n) n) ∘ dflt) = B.map dflt := by
    refine List.map_congr_left ?_
    intro m hm
    show (A.map appElemP).foldl _ (dflt m) = dflt m
    exact appElemP_ofold_miss _ A (dflt m)
      (fun x hx hcon => hdisj x hx m hm (by rw [hcon, hkeep]))
  rw [hA1, hB1]
  rw [hov (A ++ List.map dflt B) (List.map appElemP B), List.map_append, List.map_map]
  have hA2 : A.map (fun n => (B.map appElemP).foldl
      (fun n app => condUpd (some ((getAttr app.attrs "id").getD ""))
        (fun x => applyStyleAttrs app.attrs x) n) n) = A := by
    conv_rhs => rw [← List.map_id A]
    refine List.map_congr_left ?_
    intro n hn2
    exact appElemP_ofold_miss _ B n (fun x hx hcon => hdisj n hn2 x hx hcon.symm)
  have hB2 : B.map ((fun n => (B.map appElemP).foldl
      (fun n app => condUpd (some ((getAttr app.attrs "id").getD ""))
        (fun x => applyStyleAttrs app.attrs x) n) n) ∘ dflt) = B := by
    conv_rhs => rw [← List.map_id B]
    refine List.map_congr_left ?_
    intro m hm
    obtain ⟨pre, post, hBeq⟩ := List.append_of_mem hm
    show (B.map appElemP).foldl _ (dflt m) = m
    rw [hBeq]
    exact appElemP_ofold_hit _ pre post m (by rw [← hBeq]; exact hB) (dflt m)
      (hkeep m) (pass2_node m (hgoodB m hm) _)
  rw [hA2, hB2]

lemma goodConn_spec (cs : List ConceptData) (c : ConnectionData)
    (h : goodConn cs c = true) :
    (c.id == "") = false ∧ (dictGet cs c.from_id).isSome = true ∧
    (dictGet cs c.to_id).isSome = true ∧ c.arrow_start = false ∧
    c.arrow_end = !(isLinkerId cs c.to_id) := by
  unfold goodConn at h
  simp only [Bool.and_eq_true, Bool.not_eq_true'] at h
  obtain ⟨⟨⟨⟨h1, h2⟩, h3⟩, h4⟩, h5⟩ := h
  exact ⟨h1, h2, h3, by simpa using h4, by simpa using h5⟩

lemma isLinkerId_filterSplit (l : List ConceptData)
    (hn : (l.map ConceptData.id).Nodup) (k : String) :
    isLinkerId (filterSplit l) k = isLinkerId l k := by
  unfold isLinkerId
  rw [dictGet_filterSplit l hn k]

lemma parseConnStep_mk (cs : List ConceptData) (uf : ℕ → String)
    (acc : List ConnectionData × ℕ) (c : ConnectionData)
    (hid : (c.id == "") = false) (hstart : c.arrow_start = false)
    (hend : c.arrow_end = !(isLinkerId cs c.to_id)) :
    parseConnStep cs uf acc (mkConnElem c) = (acc.1 ++ [zeroConn c], acc.2) := by
  have haend : (match dictGet cs c.to_id with
      | some d => !d.is_linker
      | none => true) = c.arrow_end := by
    rw [hend]
    cases hd : dictGet cs c.to_id <;> simp [isLinkerId, hd]
  simp only [parseConnStep,
    show getAttr (mkConnElem c).attrs "id" = some c.id from rfl,
    show getAttr (mkConnElem c).attrs "from-id" = some c.from_id from rfl,
    show getAttr (mkConnElem c).attrs "to-id" = some c.to_id from rfl,
    Option.getD_some, hid, Bool.false_eq_true, if_false, haend]
  rcases c with ⟨i, f, t, as, ae, fa, ta⟩
  simp only at hstart
  subst hstart
  rfl

lemma parseConns_mk (cs : List ConceptData) (uf : ℕ → String) :
    ∀ conns : List ConnectionData,
      (∀ c ∈ conns, (c.id == "") = false ∧ c.arrow_start = false ∧
        c.arrow_end = !(isLinkerId cs c.to_id)) →
      ∀ acc : List ConnectionData × ℕ,
        (conns.map mkConnElem).foldl (parseConnStep cs uf) acc =
          (acc.1 ++ conns.map zeroConn, acc.2) := by
  intro conns
  induction conns with
  | nil => intro _ acc; simp
  | cons c t ih =>
    intro h acc
    rw [List.map_cons, List.foldl_cons]
    obtain ⟨h1, h2, h3⟩ := h c (List.mem_cons_self c t)
    rw [parseConnStep_mk cs uf acc c h1 h2 h3]
    rw [ih (fun x hx => h x (List.mem_cons_of_mem c hx)) (acc.1 ++ [zeroConn c], acc.2)]
    simp

lemma filter_range_eq_single (i : ℕ) (p : ℕ → Bool) :
    ∀ n, i < n → (∀ j, j < n → (p j = true ↔ j = i)) →
      (List.range n).filter p = [i] := by
  intro n
  induction n with
  | zero => intro h; exact absurd h (Nat.not_lt_zero i)
  | succ n ih =>
    intro hi hp
    rw [List.range_succ, List.filter_append]
    by_cases hin : i = n
    · subst hin
      have h1 : (List.range i).filter p = [] := by
        rw [List.filter_eq_nil_iff]
        intro j hj
        rw [List.mem_range] at hj
        intro hpj
        exact absurd ((hp j (by omega)).mp hpj) (by omega)
      have h2 : [i].filter p = [i] := by
        rw [List.filter_cons_of_pos ((hp i (by omega)).mpr rfl)]
        rfl
      rw [h1, h2, List.nil_append]
    · have hi2 : i < n := by omega
      rw [ih hi2 (fun j hj => hp j (by omega))]
      have h2 : [n].filter p = [] := by
        rw [List.filter_cons_of_neg]
        · rfl
        · intro hpn
          exact hin ((hp n (by omega)).mp hpn).symm
      rw [h2, List.append_nil]

lemma get?_append_cons {α : Type} (l : List α) (a : α) (r : List α) :
    (l ++ a :: r).get? l.length = some a := by
  induction l with
  | nil => rfl
  | cons x t ih => simpa using ih

lemma set_append_cons {α : Type} (l : List α) (a b : α) (r : List α) :
    (l ++ a :: r).set l.length b = l ++ b :: r := by
  induction l with
  | nil => rfl
  | cons x t ih => simp [List.set, ih]

lemma lastIdxWithId_of_nodup (l : List ConnectionData)
    (hn : (l.map ConnectionData.id).Nodup) (i : ℕ) (c : ConnectionData)
    (hi : l.get? i = some c) : lastIdxWithId l c.id = some i := by
  have hilt : i < l.length := by
    by_contra hcon
    rw [List.get?_eq_none.mpr (by omega)] at hi
    exact Option.noConfusion hi
  unfold lastIdxWithId
  rw [filter_range_eq_single i _ l.length hilt ?_]
  · rfl
  intro j hj
  constructor
  · intro hpj
    rcases hd : l.get? j with _ | d
    · rw [hd] at hpj
      exact absurd hpj (by simp)
    · rw [hd] at hpj
      have hde : d.id = c.id := by simpa using hpj
      by_contra hji
      have hjlt : j < (l.map ConnectionData.id).length := by simpa using hj
      have hilt2 : i < (l.map ConnectionData.id).length := by simpa using hilt
      have hgj : (l.map ConnectionData.id).get ⟨j, hjlt⟩ = d.id := by
        rw [List.get_map]
        have := List.get?_eq_get (by simpa using hj : j < l.length)
        rw [this] at hd
        injection hd with hd2
        rw [hd2]
      have hgi : (l.map ConnectionData.id).get ⟨i, hilt2⟩ = c.id := by
        rw [List.get_map]
        have := List.get?_eq_get hilt
        rw [this] at hi
        injection hi with hi2
        rw [hi2]
      have := List.Nodup.get_inj_iff hn (i := ⟨j, hjlt⟩) (j := ⟨i, hilt2⟩)
      have heq2 : (⟨j, hjlt⟩ : Fin _) = ⟨i, hilt2⟩ := this.mp (by rw [hgj, hgi, hde])
      exact hji (by simpa using heq2)
  · rintro rfl
    rw [hi]
    simp

lemma connAppFrom_restore (c : ConnectionData) (src dst : ConceptData)
    (m : ConnectionData) :
    connAppFrom (mkConnAppElem c) src dst m = { m with from_anchor := c.from_anchor } := by
  simp only [connAppFrom,
    show getAttr (mkConnAppElem c).attrs "from-index" = some (showNat c.from_anchor)
      from rfl,
    (showNat_digits c.from_anchor).1, if_true, (showNat_digits c.from_anchor).2]

lemma connAppTo_restore (c : ConnectionData) (src dst : ConceptData)
    (m : ConnectionData) :
    connAppTo (mkConnAppElem c) src dst m = { m with to_anchor := c.to_anchor } := by
  simp only [connAppTo,
    show getAttr (mkConnAppElem c).attrs "to-index" = some (showNat c.to_anchor)
      from rfl,
    (showNat_digits c.to_anchor).1, if_true, (showNat_digits c.to_anchor).2]

lemma applyConnApp_restore (cs : List ConceptData) (done rest : List ConnectionData)
    (procd : List String) (c : ConnectionData)
    (hnodup : ((done ++ zeroConn c :: rest).map ConnectionData.id).Nodup)
    (hsrc : (dictGet cs c.from_id).isSome = true)
    (hdst : (dictGet cs c.to_id).isSome = true) :
    applyConnApp cs (done ++ zeroConn c :: rest, procd) (mkConnAppElem c) =
      (done ++ c :: rest, procd ++ [c.id]) := by
  obtain ⟨src, hsrc2⟩ := Option.isSome_iff_exists.mp hsrc
  obtain ⟨dst, hdst2⟩ := Option.isSome_iff_exists.mp hdst
  have hlast : lastIdxWithId (done ++ zeroConn c :: rest) c.id = some done.length :=
    lastIdxWithId_of_nodup _ hnodup done.length (zeroConn c) (get?_append_cons _ _ _)
  simp only [applyConnApp,
    show getAttr (mkConnAppElem c).attrs "id" = some c.id from rfl, Option.getD_some,
    hlast, get?_append_cons,
    show dictGet cs (zeroConn c).from_id = some src from hsrc2,
    show dictGet cs (zeroConn c).to_id = some dst from hdst2,
    connAppFrom_restore, connAppTo_restore, set_append_cons]
  rcases c with ⟨i, f, t, as, ae, fa, ta⟩
  rfl

lemma connAppFold (cs : List ConceptData) :
    ∀ (todo done : List ConnectionData) (procd : List String),
      ((done ++ todo).map ConnectionData.id).Nodup →
      (∀ c ∈ todo, (dictGet cs c.from_id).isSome = true ∧
        (dictGet cs c.to_id).isSome = true) →
      (todo.map mkConnAppElem).foldl (applyConnApp cs)
          (done ++ todo.map zeroConn, procd) =
        (done ++ todo, procd ++ todo.map (fun c => c.id)) := by
  intro todo
  induction todo with
  | nil => intro done procd _ _; simp
  | cons c t ih =>
    intro done procd hn hres
    simp only [List.map_cons]
    rw [List.foldl_cons]
    have hids : ((done ++ zeroConn c :: t.map zeroConn).map ConnectionData.id).Nodup := by
      have heq : (done ++ zeroConn c :: t.map zeroConn).map ConnectionData.id =
          (done ++ c :: t).map ConnectionData.id := by
        simp only [List.map_append, List.map_cons, List.map_map]
        rfl
      rw [heq]
      exact hn
    rw [applyConnApp_restore cs done (t.map zeroConn) procd c hids
      (hres c (List.mem_cons_self c t)).1 (hres c (List.mem_cons_self c t)).2]
    have hassoc : done ++ c :: t.map zeroConn = (done ++ [c]) ++ t.map zeroConn := by
      simp
    rw [hassoc]
    rw [ih (done ++ [c]) (procd ++ [c.id]) (by simpa using hn)
      (fun x hx => hres x (List.mem_cons_of_mem c hx))]
    simp

lemma assignDefault_skip (cs : List ConceptData) (processed : List String)
    (conns : List ConnectionData) (h : ∀ c ∈ conns, processed.contains c.id = true) :
    assignDefaultAnchors cs processed conns = conns := by
  unfold assignDefaultAnchors
  conv_rhs => rw [← List.map_id conns]
  refine List.map_congr_left ?_
  intro c hc
  rw [if_pos (h c hc)]
  rfl

lemma reload_conns (doc : CXLDocument) (mats : List (String × String)) (uf : ℕ → String)
    (hn : (doc.concepts.map ConceptData.id).Nodup)
    (hcn : (doc.connections.map ConnectionData.id).Nodup)
    (hconns : ∀ c ∈ doc.connections, goodConn doc.concepts c = true) :
    appearanceConns (filterSplit doc.concepts) (pureSaveMap doc ⟨"map", mats, []⟩) uf =
      doc.connections := by
  simp only [appearanceConns]
  rw [reload_connElems, reload_connAppElems]
  have hparse : parseConns (filterSplit doc.concepts)
      (doc.connections.map mkConnElem) uf = doc.connections.map zeroConn := by
    unfold parseConns
    rw [parseConns_mk (filterSplit doc.concepts) uf doc.connections ?_ ([], 0)]
    · rfl
    intro c hc
    obtain ⟨h1, _, _, h4, h5⟩ := goodConn_spec doc.concepts c (hconns c hc)
    refine ⟨h1, h4, ?_⟩
    rw [isLinkerId_filterSplit doc.concepts hn]
    exact h5
  rw [hparse]
  have hres : ∀ c ∈ doc.connections,
      (dictGet (filterSplit doc.concepts) c.from_id).isSome = true ∧
      (dictGet (filterSplit doc.concepts) c.to_id).isSome = true := by
    intro c hc
    obtain ⟨_, h2, h3, _, _⟩ := goodConn_spec doc.concepts c (hconns c hc)
    rw [dictGet_filterSplit doc.concepts hn, dictGet_filterSplit doc.concepts hn]
    exact ⟨h2, h3⟩
  have hfold := connAppFold (filterSplit doc.concepts) doc.connections [] []
    (by simpa using hcn) hres
  rw [List.nil_append] at hfold
  rw [hfold]
  refine assignDefault_skip _ _ _ ?_
  intro c hc
  have : c.id ∈ ([] ++ doc.connections.map (fun c => c.id) : List String) := by
    simpa using List.mem_map_of_mem (fun c : ConnectionData => c.id) hc
  exact List.elem_eq_true_of_mem this

lemma load_app_eq (fp2 : String) (uf : ℕ → String) (r m : XElem)
    (hm : r.find1 "map" = some m)
    (ha : (m.find1 "concept-appearance-list").isSome = true) :
    load {} fp2 uf (.ok r) =
      ({ root := some r, filepath := some fp2, appearance_mode := true,
         concepts := (appearanceNodes2 (appearanceNodes1 [] m) m
           (sheetStyle [] m "concept-style" "237,244,246,255" "0,0,0,255")
           (sheetStyle [] m "linking-phrase-style" "0,0,255,0" "0,0,0,0")).map
             canonNodeColors,
         connections := appearanceConns (appearanceNodes1 [] m) m uf,
         default_concept_style :=
           sheetStyle [] m "concept-style" "237,244,246,255" "0,0,0,255",
         default_linker_style :=
           sheetStyle [] m "linking-phrase-style" "0,0,255,0" "0,0,0,0" }, none) := by
  simp only [load, hm, ha, if_true]
  rfl

/-- C2 counterexample: loading a file with font-size 14.5 and saving writes the
font size through str(int(...)), so the saved file reloads with font size 14.
The style attributes are thus not reproduced up to colour canonicalization
alone: numeric styles are truncated to integers. -/
theorem C2_counterexample :
    (load {} "a.cxl" (fun _ => "u") (.ok c2file)).2 = none ∧
    ((dictGet (load {} "a.cxl" (fun _ => "u") (.ok c2file)).1.concepts "c1").map
      ConceptData.font_size = some (29 / 2 : ℚ)) ∧
    (load {} "a.cxl" (fun _ => "u")
        (.ok (exceptOk (save (load {} "a.cxl" (fun _ => "u") (.ok c2file)).1
          (some "a.cxl"))))).2 = none ∧
    ((dictGet (load {} "a.cxl" (fun _ => "u")
        (.ok (exceptOk (save (load {} "a.cxl" (fun _ => "u") (.ok c2file)).1
          (some "a.cxl"))))).1.concepts "c1").map ConceptData.font_size = some 14) ∧
    (29 / 2 : ℚ) ≠ 14 :=
  ⟨rfl, by decide, rfl, by decide, by decide⟩

lemma load_app_snd (fp2 : String) (uf : ℕ → String) (r m : XElem)
    (hm : r.find1 "map" = some m)
    (ha : (m.find1 "concept-appearance-list").isSome = true) :
    (load {} fp2 uf (.ok r)).2 = none := by
  rw [load_app_eq fp2 uf r m hm ha]

lemma load_app_concepts (fp2 : String) (uf : ℕ → String) (r m : XElem)
    (hm : r.find1 "map" = some m)
    (ha : (m.find1 "concept-appearance-list").isSome = true) :
    (load {} fp2 uf (.ok r)).1.concepts =
      (appearanceNodes2 (appearanceNodes1 [] m) m
        (sheetStyle [] m "concept-style" "237,244,246,255" "0,0,0,255")
        (sheetStyle [] m "linking-phrase-style" "0,0,255,0" "0,0,0,0")).map
          canonNodeColors := by
  rw [load_app_eq fp2 uf r m hm ha]

lemma load_app_conns (fp2 : String) (uf : ℕ → String) (r m : XElem)
    (hm : r.find1 "map" = some m)
    (ha : (m.find1 "concept-appearance-list").isSome = true) :
    (load {} fp2 uf (.ok r)).1.connections =
      appearanceConns (appearanceNodes1 [] m) m uf := by
  rw [load_app_eq fp2 uf r m hm ha]

/-! Phase 1: generic update/filter/modChild machinery. -/

lemma modChild_tag (e : XElem) (t : String) (f : XElem → XElem) :
    (e.modChild t f).tag = e.tag := by
  unfold XElem.modChild
  split <;> rfl

lemma modChild_attrs_eq (e : XElem) (t : String) (f : XElem → XElem) :
    (e.modChild t f).attrs = e.attrs := by
  unfold XElem.modChild
  split <;> rfl

lemma filter_updateFirstWhere_neg (p q : XElem → Bool) (f : XElem → XElem)
    (l : List XElem) (h : ∀ x, p x = true → (q x = false ∧ q (f x) = false)) :
    (updateFirstWhere p f l).filter q = l.filter q := by
  induction l with
  | nil => rfl
  | cons x xs ih =>
    unfold updateFirstWhere
    by_cases hp : p x = true
    · rw [if_pos hp]
      obtain ⟨h1, h2⟩ := h x hp
      simp [List.filter_cons, h1, h2]
    · rw [if_neg hp]
      simp only [List.filter_cons]
      cases hq : q x <;> simp [ih]

lemma filter_updateFirstWhere_uniq (p : XElem → Bool) (f : XElem → XElem)
    (l : List XElem) (hf : ∀ x, p x = true → p (f x) = true)
    (h : (l.filter p).length ≤ 1) :
    (updateFirstWhere p f l).filter p = (l.filter p).map f := by
  induction l with
  | nil => rfl
  | cons x xs ih =>
    unfold updateFirstWhere
    by_cases hp : p x = true
    · rw [if_pos hp]
      have hxs : xs.filter p = [] := by
        rw [List.filter_cons_of_pos hp] at h
        refine List.length_eq_zero.mp ?_
        simp only [List.length_cons] at h
        omega
      simp only [List.filter_cons, hf x hp, hp, if_true, hxs, List.map_cons, List.map_nil]
    · rw [if_neg hp]
      rw [List.filter_cons_of_neg hp] at h ⊢
      rw [List.filter_cons_of_neg hp]
      exact ih h

lemma head?_filter_updateFirstWhere (p : XElem → Bool) (f : XElem → XElem)
    (l : List XElem) (hf : ∀ x, p x = true → p (f x) = true) :
    ((updateFirstWhere p f l).filter p).head? = ((l.filter p).head?).map f := by
  induction l with
  | nil => rfl
  | cons x xs ih =>
    unfold updateFirstWhere
    by_cases hp : p x = true
    · rw [if_pos hp]
      rw [List.filter_cons_of_pos (hf x hp), List.filter_cons_of_pos hp]
      rfl
    · rw [if_neg hp]
      rw [List.filter_cons_of_neg hp, List.filter_cons_of_neg hp]
      exact ih

lemma any_eq_false_filter (p : XElem → Bool) (l : List XElem)
    (h : l.any p = false) : l.filter p = [] := by
  rw [List.filter_eq_nil_iff]
  intro x hx
  have h2 : ¬ l.any p = true := by rw [h]; simp
  rw [List.any_eq_true] at h2
  push_neg at h2
  simpa using h2 x hx

lemma taggedChildren_modChild_other (e : XElem) (t : String) (f : XElem → XElem)
    (t' : String) (hne : (t == t') = false) (hf : ∀ c, (f c).tag = c.tag) :
    (e.modChild t f).taggedChildren t' = e.taggedChildren t' := by
  unfold XElem.modChild XElem.taggedChildren
  split
  · refine filter_updateFirstWhere_neg _ _ _ _ ?_
    intro x hx
    have hxt : x.tag = t := by simpa using hx
    constructor
    · simpa [hxt] using hne
    · rw [hf x, hxt]
      simpa using hne
  · rw [List.filter_append]
    have h1 : (f ⟨t, [], []⟩).tag = t := by rw [hf]
    simp [h1, hne]

lemma taggedChildren_modChild_self (e : XElem) (t : String) (kids : List XElem)
    (h : (e.taggedChildren t).length ≤ 1) :
    ((e.modChild t (fun c => ⟨c.tag, [], kids⟩)).taggedChildren t) = [⟨t, [], kids⟩] := by
  unfold XElem.modChild XElem.taggedChildren
  unfold XElem.taggedChildren at h
  split
  · rename_i hany
    rw [filter_updateFirstWhere_uniq (fun c => c.tag == t) (fun c => ⟨c.tag, [], kids⟩) _
      (fun x hx => hx) h]
    rcases hfl : e.children.filter (fun c => c.tag == t) with _ | ⟨c0, rest⟩
    · rw [List.filter_eq_nil_iff] at hfl
      rw [List.any_eq_true] at hany
      obtain ⟨x, hx, hxp⟩ := hany
      exact absurd hxp (by simpa using hfl x hx)
    · have hrest : rest = [] := by
        rw [hfl] at h
        refine List.length_eq_zero.mp ?_
        simp only [List.length_cons] at h
        omega
      subst hrest
      have hc0 : c0.tag = t := by
        have := List.mem_filter.mp (hfl ▸ List.mem_cons_self c0 [])
        simpa using this.2
      rw [hfl]
      simp [hc0]
  · rename_i hany
    rw [List.filter_append, any_eq_false_filter _ _ (by simpa using hany), List.nil_append,
      List.filter_cons]
    simp

lemma find1_modChild_self (e : XElem) (t : String) (f : XElem → XElem)
    (hf : ∀ c, (f c).tag = c.tag) :
    (e.modChild t f).find1 t = some (f (((e.find1 t)).getD ⟨t, [], []⟩)) := by
  unfold XElem.find1 XElem.modChild XElem.taggedChildren
  split
  · rename_i hany
    rw [head?_filter_updateFirstWhere _ _ _ (fun x hx => by rw [hf x]; exact hx)]
    rcases hfl : e.children.filter (fun c => c.tag == t) with _ | ⟨c0, rest⟩
    · rw [List.filter_eq_nil_iff] at hfl
      rw [List.any_eq_true] at hany
      obtain ⟨x, hx, hxp⟩ := hany
      exact absurd hxp (by simpa using hfl x hx)
    · rw [hfl]
      rfl
  · rename_i hany
    rw [List.filter_append, any_eq_false_filter _ _ (by simpa using hany)]
    have h1 : (f ⟨t, [], []⟩).tag = t := by rw [hf]
    simp [h1]

lemma find1_tag (e : XElem) (t : String) (x : XElem) (h : e.find1 t = some x) :
    x.tag = t := by
  unfold XElem.find1 XElem.taggedChildren at h
  have hx : x ∈ e.children.filter (fun c => c.tag == t) := by
    rcases hfl : e.children.filter (fun c => c.tag == t) with _ | ⟨c0, rest⟩
    · rw [hfl] at h; exact absurd h (by simp)
    · rw [hfl] at h
      injection h with h
      rw [← h]
      rw [hfl]
      exact List.mem_cons_self _ _
  simpa using (List.mem_filter.mp hx).2

lemma find?_setMap_self (ats : List (String × String)) (k v : String)
    (hany : ats.any (fun p => p.1 == k) = true) :
    (ats.map (fun p => if p.1 == k then (k, v) else p)).find? (fun p => p.1 == k) =
      some (k, v) := by
  induction ats with
  | nil => simp at hany
  | cons a t ih =>
    simp only [List.map_cons, List.find?_cons]
    by_cases ha : (a.1 == k) = true
    · simp [ha]
    · rw [if_neg ha]
      have ht : t.any (fun p => p.1 == k) = true := by
        rw [List.any_cons] at hany
        rcases Bool.or_eq_true_iff.mp hany with hcase | hcase
        · exact absurd hcase ha
        · exact hcase
      have ha' : (a.1 == k) = false := by simpa using ha
      rw [ha']
      exact ih ht

lemma find?_setMap_other (ats : List (String × String)) (k v k' : String)
    (h : (k == k') = false) :
    (ats.map (fun p => if p.1 == k then (k, v) else p)).find? (fun p => p.1 == k') =
      ats.find? (fun p => p.1 == k') := by
  induction ats with
  | nil => rfl
  | cons a t ih =>
    simp only [List.map_cons, List.find?_cons]
    by_cases ha : (a.1 == k) = true
    · have heq : a.1 = k := by simpa using ha
      have ha' : (a.1 == k') = false := by rw [heq]; exact h
      rw [if_pos ha]
      have h1 : (((k, v) : String × String).1 == k') = false := h
      rw [h1, ha']
      exact ih
    · rw [if_neg ha]
      cases hx : (a.1 == k')
      · exact ih
      · rfl

lemma getAttr_setAttr_self (ats : List (String × String)) (k v : String) :
    getAttr (setAttr ats k v) k = some v := by
  unfold setAttr getAttr
  split
  · rename_i hany
    rw [find?_setMap_self ats k v hany]
    rfl
  · rw [List.find?_append]
    have hnone : ats.find? (fun p => p.1 == k) = none := by
      rw [List.find?_eq_none]
      intro x hx
      rename_i hany
      have h2 : ¬ ats.any (fun p => p.1 == k) = true := hany
      rw [List.any_eq_true] at h2
      push_neg at h2
      simpa using h2 x hx
    rw [hnone]
    simp

lemma getAttr_setAttr_other (ats : List (String × String)) (k v k' : String)
    (h : (k == k') = false) :
    getAttr (setAttr ats k v) k' = getAttr ats k' := by
  unfold setAttr getAttr
  split
  · rw [find?_setMap_other ats k v k' h]
  · rw [List.find?_append]
    cases hx : ats.find? (fun p => p.1 == k')
    · simp only [hx, Option.none_or]
      have hk : List.find? (fun p => p.1 == k') [(k, v)] = none := by
        simp only [List.find?_cons]
        have h1 : (((k, v) : String × String).1 == k') = false := h
        rw [h1]
        rfl
      rw [hk]
    · simp [hx]

/-! Phase 2: the saved appearance map over an arbitrary map element whose
structural lists occur at most once. -/

lemma pureSaveMap_tagged_cl (doc : CXLDocument) (m : XElem)
    (hu : (m.taggedChildren "concept-list").length ≤ 1) :
    (pureSaveMap doc m).taggedChildren "concept-list" =
      [⟨"concept-list", [],
        (doc.concepts.filter (fun n => !n.is_linker)).map mkNodeListElem⟩] := by
  simp only [pureSaveMap]
  rw [taggedChildren_modChild_other _ "style-sheet-list" _ "concept-list" (by decide)
        (by intro c; exact modChild_tag _ _ _),
      taggedChildren_modChild_other _ "style-sheet-list" _ "concept-list" (by decide)
        (by intro c; exact modChild_tag _ _ _),
      taggedChildren_modChild_other _ "connection-appearance-list" _ "concept-list" (by decide)
        (by intro c; rfl),
      taggedChildren_modChild_other _ "connection-list" _ "concept-list" (by decide)
        (by intro c; rfl),
      taggedChildren_modChild_other _ "linking-phrase-appearance-list" _ "concept-list"
        (by decide) (by intro c; rfl),
      taggedChildren_modChild_other _ "concept-appearance-list" _ "concept-list" (by decide)
        (by intro c; rfl),
      taggedChildren_modChild_other _ "linking-phrase-list" _ "concept-list" (by decide)
        (by intro c; rfl)]
  exact taggedChildren_modChild_self _ "concept-list" _ hu

lemma pureSaveMap_tagged_lpl (doc : CXLDocument) (m : XElem)
    (hu : (m.taggedChildren "linking-phrase-list").length ≤ 1) :
    (pureSaveMap doc m).taggedChildren "linking-phrase-list" =
      [⟨"linking-phrase-list", [],
        (doc.concepts.filter (fun n => n.is_linker)).map mkNodeListElem⟩] := by
  simp only [pureSaveMap]
  rw [taggedChildren_modChild_other _ "style-sheet-list" _ "linking-phrase-list" (by decide)
        (by intro c; exact modChild_tag _ _ _),
      taggedChildren_modChild_other _ "style-sheet-list" _ "linking-phrase-list" (by decide)
        (by intro c; exact modChild_tag _ _ _),
      taggedChildren_modChild_other _ "connection-appearance-list" _ "linking-phrase-list"
        (by decide) (by intro c; rfl),
      taggedChildren_modChild_other _ "connection-list" _ "linking-phrase-list" (by decide)
        (by intro c; rfl),
      taggedChildren_modChild_other _ "linking-phrase-appearance-list" _ "linking-phrase-list"
        (by decide) (by intro c; rfl),
      taggedChildren_modChild_other _ "concept-appearance-list" _ "linking-phrase-list"
        (by decide) (by intro c; rfl)]
  refine taggedChildren_modChild_self _ "linking-phrase-list" _ ?_
  rw [taggedChildren_modChild_other _ "concept-list" _ "linking-phrase-list" (by decide)
        (by intro c; rfl)]
  exact hu

lemma pureSaveMap_tagged_cal (doc : CXLDocument) (m : XElem)
    (hu : (m.taggedChildren "concept-appearance-list").length ≤ 1) :
    (pureSaveMap doc m).taggedChildren "concept-appearance-list" =
      [⟨"concept-appearance-list", [],
        (doc.concepts.filter (fun n => !n.is_linker)).map appElemP⟩] := by
  simp only [pureSaveMap]
  rw [taggedChildren_modChild_other _ "style-sheet-list" _ "concept-appearance-list"
        (by decide) (by intro c; exact modChild_tag _ _ _),
      taggedChildren_modChild_other _ "style-sheet-list" _ "concept-appearance-list"
        (by decide) (by intro c; exact modChild_tag _ _ _),
      taggedChildren_modChild_other _ "connection-appearance-list" _ "concept-appearance-list"
        (by decide) (by intro c; rfl),
      taggedChildren_modChild_other _ "connection-list" _ "concept-appearance-list" (by decide)
        (by intro c; rfl),
      taggedChildren_modChild_other _ "linking-phrase-appearance-list" _
        "concept-appearance-list" (by decide) (by intro c; rfl)]
  refine taggedChildren_modChild_self _ "concept-appearance-list" _ ?_
  rw [taggedChildren_modChild_other _ "linking-phrase-list" _ "concept-appearance-list"
        (by decide) (by intro c; rfl),
      taggedChildren_modChild_other _ "concept-list" _ "concept-appearance-list" (by decide)
        (by intro c; rfl)]
  exact hu

lemma pureSaveMap_tagged_lal (doc : CXLDocument) (m : XElem)
    (hu : (m.taggedChildren "linking-phrase-appearance-list").length ≤ 1) :
    (pureSaveMap doc m).taggedChildren "linking-phrase-appearance-list" =
      [⟨"linking-phrase-appearance-list", [],
        (doc.concepts.filter (fun n => n.is_linker)).map appElemP⟩] := by
  simp only [pureSaveMap]
  rw [taggedChildren_modChild_other _ "style-sheet-list" _ "linking-phrase-appearance-list"
        (by decide) (by intro c; exact modChild_tag _ _ _),
      taggedChildren_modChild_other _ "style-sheet-list" _ "linking-phrase-appearance-list"
        (by decide) (by intro c; exact modChild_tag _ _ _),
      taggedChildren_modChild_other _ "connection-appearance-list" _
        "linking-phrase-appearance-list" (by decide) (by intro c; rfl),
      taggedChildren_modChild_other _ "connection-list" _ "linking-phrase-appearance-list"
        (by decide) (by intro c; rfl)]
  refine taggedChildren_modChild_self _ "linking-phrase-appearance-list" _ ?_
  rw [taggedChildren_modChild_other _ "concept-appearance-list" _
        "linking-phrase-appearance-list" (by decide) (by intro c; rfl),
      taggedChildren_modChild_other _ "linking-phrase-list" _ "linking-phrase-appearance-list"
        (by decide) (by intro c; rfl),
      taggedChildren_modChild_other _ "concept-list" _ "linking-phrase-appearance-list"
        (by decide) (by intro c; rfl)]
  exact hu

lemma pureSaveMap_tagged_cnl (doc : CXLDocument) (m : XElem)
    (hu : (m.taggedChildren "connection-list").length ≤ 1) :
    (pureSaveMap doc m).taggedChildren "connection-list" =
      [⟨"connection-list", [], doc.connections.map mkConnElem⟩] := by
  simp only [pureSaveMap]
  rw [taggedChildren_modChild_other _ "style-sheet-list" _ "connection-list" (by decide)
        (by intro c; exact modChild_tag _ _ _),
      taggedChildren_modChild_other _ "style-sheet-list" _ "connection-list" (by decide)
        (by intro c; exact modChild_tag _ _ _),
      taggedChildren_modChild_other _ "connection-appearance-list" _ "connection-list"
        (by decide) (by intro c; rfl)]
  refine taggedChildren_modChild_self _ "connection-list" _ ?_
  rw [taggedChildren_modChild_other _ "linking-phrase-appearance-list" _ "connection-list"
        (by decide) (by intro c; rfl),
      taggedChildren_modChild_other _ "concept-appearance-list" _ "connection-list" (by decide)
        (by intro c; rfl),
      taggedChildren_modChild_other _ "linking-phrase-list" _ "connection-list" (by decide)
        (by intro c; rfl),
      taggedChildren_modChild_other _ "concept-list" _ "connection-list" (by decide)
        (by intro c; rfl)]
  exact hu

lemma pureSaveMap_tagged_cnal (doc : CXLDocument) (m : XElem)
    (hu : (m.taggedChildren "connection-appearance-list").length ≤ 1) :
    (pureSaveMap doc m).taggedChildren "connection-appearance-list" =
      [⟨"connection-appearance-list", [], doc.connections.map mkConnAppElem⟩] := by
  simp only [pureSaveMap]
  rw [taggedChildren_modChild_other _ "style-sheet-list" _ "connection-appearance-list"
        (by decide) (by intro c; exact modChild_tag _ _ _),
      taggedChildren_modChild_other _ "style-sheet-list" _ "connection-appearance-list"
        (by decide) (by intro c; exact modChild_tag _ _ _)]
  refine taggedChildren_modChild_self _ "connection-appearance-list" _ ?_
  rw [taggedChildren_modChild_other _ "connection-list" _ "connection-appearance-list"
        (by decide) (by intro c; rfl),
      taggedChildren_modChild_other _ "linking-phrase-appearance-list" _
        "connection-appearance-list" (by decide) (by intro c; rfl),
      taggedChildren_modChild_other _ "concept-appearance-list" _ "connection-appearance-list"
        (by decide) (by intro c; rfl),
      taggedChildren_modChild_other _ "linking-phrase-list" _ "connection-appearance-list"
        (by decide) (by intro c; rfl),
      taggedChildren_modChild_other _ "concept-list" _ "connection-appearance-list" (by decide)
        (by intro c; rfl)]
  exact hu

lemma pureSaveMap_tag_eq (doc : CXLDocument) (m : XElem) :
    (pureSaveMap doc m).tag = m.tag := by
  simp only [pureSaveMap]
  rw [modChild_tag, modChild_tag, modChild_tag, modChild_tag, modChild_tag, modChild_tag,
    modChild_tag, modChild_tag]

lemma reload_conceptElemsG (doc : CXLDocument) (m : XElem)
    (hu : ∀ t ∈ saveListTags, (m.taggedChildren t).length ≤ 1) :
    conceptElems (pureSaveMap doc m) =
      (doc.concepts.filter (fun n => !n.is_linker)).map mkNodeListElem := by
  unfold conceptElems XElem.findall2
  rw [pureSaveMap_tagged_cl doc m (hu _ (by decide))]
  simp only [List.map_cons, List.map_nil, List.flatten, List.append_nil]
  show XElem.taggedChildren _ "concept" = _
  unfold XElem.taggedChildren
  refine filter_map_all mkNodeListElem "concept" _ ?_
  intro x hx
  rw [mkNodeListElem_tag]
  have hlk : x.is_linker = false := by simpa using (List.mem_filter.mp hx).2
  rw [hlk]
  rfl

lemma reload_linkerElemsG (doc : CXLDocument) (m : XElem)
    (hu : ∀ t ∈ saveListTags, (m.taggedChildren t).length ≤ 1) :
    linkerElems (pureSaveMap doc m) =
      (doc.concepts.filter (fun n => n.is_linker)).map mkNodeListElem := by
  unfold linkerElems XElem.findall2
  rw [pureSaveMap_tagged_lpl doc m (hu _ (by decide))]
  simp only [List.map_cons, List.map_nil, List.flatten, List.append_nil]
  show XElem.taggedChildren _ "linking-phrase" = _
  unfold XElem.taggedChildren
  refine filter_map_all mkNodeListElem "linking-phrase" _ ?_
  intro x hx
  rw [mkNodeListElem_tag]
  have hlk : x.is_linker = true := by simpa using (List.mem_filter.mp hx).2
  rw [hlk]
  rfl

lemma reload_conceptAppElemsG (doc : CXLDocument) (m : XElem)
    (hu : ∀ t ∈ saveListTags, (m.taggedChildren t).length ≤ 1) :
    conceptAppElems (pureSaveMap doc m) =
      (doc.concepts.filter (fun n => !n.is_linker)).map appElemP := by
  unfold conceptAppElems XElem.findall2
  rw [pureSaveMap_tagged_cal doc m (hu _ (by decide))]
  simp only [List.map_cons, List.map_nil, List.flatten, List.append_nil]
  show XElem.taggedChildren _ "concept-appearance" = _
  unfold XElem.taggedChildren
  refine filter_map_all appElemP "concept-appearance" _ ?_
  intro x hx
  rw [appElemP_tag]
  have hlk : x.is_linker = false := by simpa using (List.mem_filter.mp hx).2
  rw [hlk]
  rfl

lemma reload_linkerAppElemsG (doc : CXLDocument) (m : XElem)
    (hu : ∀ t ∈ saveListTags, (m.taggedChildren t).length ≤ 1) :
    linkerAppElems (pureSaveMap doc m) =
      (doc.concepts.filter (fun n => n.is_linker)).map appElemP := by
  unfold linkerAppElems XElem.findall2
  rw [pureSaveMap_tagged_lal doc m (hu _ (by decide))]
  simp only [List.map_cons, List.map_nil, List.flatten, List.append_nil]
  show XElem.taggedChildren _ "linking-phrase-appearance" = _
  unfold XElem.taggedChildren
  refine filter_map_all appElemP "linking-phrase-appearance" _ ?_
  intro x hx
  rw [appElemP_tag]
  have hlk : x.is_linker = true := by simpa using (List.mem_filter.mp hx).2
  rw [hlk]
  rfl

lemma reload_connElemsG (doc : CXLDocument) (m : XElem)
    (hu : ∀ t ∈ saveListTags, (m.taggedChildren t).length ≤ 1) :
    connElems (pureSaveMap doc m) = doc.connections.map mkConnElem := by
  unfold connElems XElem.findall2
  rw [pureSaveMap_tagged_cnl doc m (hu _ (by decide))]
  simp only [List.map_cons, List.map_nil, List.flatten, List.append_nil]
  show XElem.taggedChildren _ "connection" = _
  unfold XElem.taggedChildren
  exact filter_map_all mkConnElem "connection" _ (fun x hx => rfl)

lemma reload_connAppElemsG (doc : CXLDocument) (m : XElem)
    (hu : ∀ t ∈ saveListTags, (m.taggedChildren t).length ≤ 1) :
    connAppElems (pureSaveMap doc m) = doc.connections.map mkConnAppElem := by
  unfold connAppElems XElem.findall2
  rw [pureSaveMap_tagged_cnal doc m (hu _ (by decide))]
  simp only [List.map_cons, List.map_nil, List.flatten, List.append_nil]
  show XElem.taggedChildren _ "connection-appearance" = _
  unfold XElem.taggedChildren
  exact filter_map_all mkConnAppElem "connection-appearance" _ (fun x hx => rfl)

lemma reload_appearance_flagG (doc : CXLDocument) (m : XElem)
    (hu : ∀ t ∈ saveListTags, (m.taggedChildren t).length ≤ 1) :
    ((pureSaveMap doc m).find1 "concept-appearance-list").isSome = true := by
  unfold XElem.find1
  rw [pureSaveMap_tagged_cal doc m (hu _ (by decide))]
  rfl

/-! Phase 3: integer truncation of the numeric style fields, as performed by
save writing font-size and border-thickness through str(int(...)). -/

lemma truncInt_intCast (i : ℤ) : truncInt ((i : ℤ) : ℚ) = i := by
  unfold truncInt
  rw [Rat.intCast_num, Rat.intCast_den]
  exact Int.tdiv_one i

lemma intQ_intCast (i : ℤ) : intQ ((i : ℤ) : ℚ) = true := by
  unfold intQ
  rw [truncInt_intCast]
  simp

lemma truncStyle_key (n : ConceptData) : nodeKey (truncStyle n) = nodeKey n := rfl

lemma truncStyle_fs (n : ConceptData) :
    (truncStyle n).font_size = ((truncInt n.font_size : ℤ) : ℚ) := rfl

lemma truncStyle_bw (n : ConceptData) :
    (truncStyle n).border_width = ((truncInt n.border_width : ℤ) : ℚ) := rfl

lemma goodNode_truncStyle (n : ConceptData) (h : goodNodeT n = true) :
    goodNode (truncStyle n) = true := by
  unfold goodNodeT at h
  simp only [Bool.and_eq_true] at h
  obtain ⟨⟨⟨⟨⟨⟨⟨h1, h2⟩, h3⟩, h4⟩, h5⟩, h6⟩, h7⟩, h8⟩ := h
  show (decimalQ n.x && decimalQ n.y && decimalQ n.width && decimalQ n.height &&
    goodColor n.fill_color && goodColor n.font_color && goodColor n.border_color &&
    intQ ((truncInt n.font_size : ℤ) : ℚ) && intQ ((truncInt n.border_width : ℤ) : ℚ) &&
    !(n.font_family == "")) = true
  rw [intQ_intCast, intQ_intCast]
  simp [h1, h2, h3, h4, h5, h6, h7, h8]

lemma mkAppearanceElem_truncStyle (n : ConceptData) :
    mkAppearanceElem (truncStyle n) = mkAppearanceElem n := by
  show (do
    let bg ← color_to_rgba n.fill_color
    let fc ← color_to_rgba n.font_color
    let bc ← color_to_rgba n.border_color
    pure (⟨(if n.is_linker then "linking-phrase-appearance" else "concept-appearance"),
      [("id", n.id), ("x", showFloat n.x), ("y", showFloat n.y),
       ("width", showFloat n.width), ("height", showFloat n.height),
       ("background-color", bg), ("font-color", fc), ("border-color", bc),
       ("border-thickness", showInt (truncInt ((truncInt n.border_width : ℤ) : ℚ))),
       ("font-name", n.font_family),
       ("font-size", showInt (truncInt ((truncInt n.font_size : ℤ) : ℚ))),
       ("font-style", font_style_to_str n)], []⟩ : XElem)) = mkAppearanceElem n
  rw [truncInt_intCast, truncInt_intCast]
  rfl

lemma styleAttrsOf_truncStyle (n : ConceptData) :
    styleAttrsOf (truncStyle n) = styleAttrsOf n := by
  show (do
    let fc ← color_to_rgba n.font_color
    let bg ← color_to_rgba n.fill_color
    let bc ← color_to_rgba n.border_color
    pure [("font-name", n.font_family),
          ("font-size", showInt (truncInt ((truncInt n.font_size : ℤ) : ℚ))),
          ("font-color", fc), ("font-style", font_style_to_str n),
          ("background-color", bg), ("border-color", bc),
          ("border-thickness", showInt (truncInt ((truncInt n.border_width : ℤ) : ℚ)))]) =
    styleAttrsOf n
  rw [truncInt_intCast, truncInt_intCast]
  rfl

lemma saveAppearanceMap_eqT (doc : CXLDocument) (m : XElem)
    (hgood : ∀ n ∈ doc.concepts, goodNodeT n = true) :
    saveAppearanceMap doc m =
      some (pureSaveMap { doc with concepts := doc.concepts.map truncStyle } m) := by
  have hmkA : ∀ n ∈ doc.concepts.filter (fun n => !n.is_linker),
      mkAppearanceElem n = some (appElemP (truncStyle n)) := by
    intro n hn
    rw [← mkAppearanceElem_truncStyle]
    exact mkAppearanceElem_eq (truncStyle n)
      (goodNode_truncStyle n (hgood n (List.mem_of_mem_filter hn)))
  have hmkB : ∀ n ∈ doc.concepts.filter (fun n => n.is_linker),
      mkAppearanceElem n = some (appElemP (truncStyle n)) := by
    intro n hn
    rw [← mkAppearanceElem_truncStyle]
    exact mkAppearanceElem_eq (truncStyle n)
      (goodNode_truncStyle n (hgood n (List.mem_of_mem_filter hn)))
  have hpc : ((fun n : ConceptData => !n.is_linker) ∘ truncStyle) =
      (fun n : ConceptData => !n.is_linker) := funext (fun n => rfl)
  have hpl : ((fun n : ConceptData => n.is_linker) ∘ truncStyle) =
      (fun n : ConceptData => n.is_linker) := funext (fun n => rfl)
  have hfc : (doc.concepts.map truncStyle).filter (fun n => !n.is_linker) =
      (doc.concepts.filter (fun n => !n.is_linker)).map truncStyle := by
    rw [List.filter_map, hpc]
  have hfl : (doc.concepts.map truncStyle).filter (fun n => n.is_linker) =
      (doc.concepts.filter (fun n => n.is_linker)).map truncStyle := by
    rw [List.filter_map, hpl]
  have hdc : (doc.concepts.map truncStyle).find? (fun n => !n.is_linker) =
      (doc.concepts.find? (fun n => !n.is_linker)).map truncStyle := by
    rw [List.find?_map, hpc]
  have hdl : (doc.concepts.map truncStyle).find? (fun n => n.is_linker) =
      (doc.concepts.find? (fun n => n.is_linker)).map truncStyle := by
    rw [List.find?_map, hpl]
  unfold saveAppearanceMap pureSaveMap
  rw [mapM_some mkAppearanceElem (fun n => appElemP (truncStyle n)) _ hmkA]
  rw [mapM_some mkAppearanceElem (fun n => appElemP (truncStyle n)) _ hmkB]
  have hOpt1 : optStyleAttrs (doc.concepts.find? (fun n => !n.is_linker)) =
      some ((doc.concepts.find? (fun n => !n.is_linker)).map
        (fun n => styleAttrsP (truncStyle n))) := by
    rcases hf : doc.concepts.find? (fun n => !n.is_linker) with _ | n0
    · rw [hf]
      rfl
    · rw [hf]
      show (styleAttrsOf n0).map some = some ((some n0).map (fun n => styleAttrsP (truncStyle n)))
      rw [← styleAttrsOf_truncStyle, styleAttrsOf_eq (truncStyle n0)
        (goodNode_truncStyle n0 (hgood n0 (List.mem_of_find?_eq_some hf)))]
      rfl
  have hOpt2 : optStyleAttrs (doc.concepts.find? (fun n => n.is_linker)) =
      some ((doc.concepts.find? (fun n => n.is_linker)).map
        (fun n => styleAttrsP (truncStyle n))) := by
    rcases hf : doc.concepts.find? (fun n => n.is_linker) with _ | n0
    · rw [hf]
      rfl
    · rw [hf]
      show (styleAttrsOf n0).map some = some ((some n0).map (fun n => styleAttrsP (truncStyle n)))
      rw [← styleAttrsOf_truncStyle, styleAttrsOf_eq (truncStyle n0)
        (goodNode_truncStyle n0 (hgood n0 (List.mem_of_find?_eq_some hf)))]
      rfl
  rw [hOpt1, hOpt2]
  show some _ = some _
  rw [hfc, hfl, hdc, hdl]
  rw [List.map_map, List.map_map, List.map_map, List.map_map]
  have hcomp1 : (appElemP ∘ truncStyle) = (fun n => appElemP (truncStyle n)) := rfl
  have hcomp2 : (styleAttrsP ∘ truncStyle) = (fun n => styleAttrsP (truncStyle n)) := rfl
  have hcomp3 : (mkNodeListElem ∘ truncStyle) = mkNodeListElem := funext (fun n => by
    unfold Function.comp mkNodeListElem
    rfl)
  rw [hcomp1, hcomp3]
  rw [Option.map_map, Option.map_map, hcomp2]

lemma save_okG (doc : CXLDocument) (r m : XElem) (fp : String)
    (hroot : doc.root = some r) (hm : r.find1 "map" = some m)
    (happ : doc.appearance_mode = true)
    (hgood : ∀ n ∈ doc.concepts, goodNodeT n = true)
    (hfp : (fp == "") = false) :
    save doc (some fp) = .ok ⟨r.tag, r.attrs,
      updateFirstWhere (fun c => c.tag == "map")
        (fun _ => pureSaveMap { doc with concepts := doc.concepts.map truncStyle } m)
        r.children⟩ := by
  simp only [save, hroot, hm, happ, if_true, saveAppearanceMap_eqT doc m hgood, hfp,
    Bool.false_eq_true, if_false]

lemma find1_saved (r m2 : XElem) (x : XElem) (hm : (r.taggedChildren "map").head? = some x)
    (htag : m2.tag = "map") :
    XElem.find1 ⟨r.tag, r.attrs,
      updateFirstWhere (fun c => c.tag == "map") (fun _ => m2) r.children⟩ "map" =
      some m2 := by
  unfold XElem.find1 XElem.taggedChildren
  unfold XElem.taggedChildren at hm
  rw [head?_filter_updateFirstWhere (fun c => c.tag == "map") (fun _ => m2) _
    (fun x hx => by simpa using htag)]
  rw [hm]
  rfl

/-! Phase 4: generalized node and connection reload over an arbitrary map. -/

lemma reload_nodes1G (doc : CXLDocument) (m : XElem)
    (hu : ∀ t ∈ saveListTags, (m.taggedChildren t).length ≤ 1)
    (hn : (doc.concepts.map ConceptData.id).Nodup)
    (hgood : ∀ n ∈ doc.concepts, goodNode n = true) :
    appearanceNodes1 [] (pureSaveMap doc m) =
      filterSplit doc.concepts := by
  set A := doc.concepts.filter (fun n => !n.is_linker) with hAdef
  set B := doc.concepts.filter (fun n => n.is_linker) with hBdef
  have hA : (A.map ConceptData.id).Nodup :=
    hn.sublist (List.Sublist.map ConceptData.id (List.filter_sublist doc.concepts))
  have hB : (B.map ConceptData.id).Nodup :=
    hn.sublist (List.Sublist.map ConceptData.id (List.filter_sublist doc.concepts))
  have hAB : ((A ++ B).map ConceptData.id).Nodup :=
    (((filterSplit_perm doc.concepts).map ConceptData.id).nodup_iff).mpr hn
  have hdisj : ∀ x ∈ A, ∀ y ∈ B, x.id ≠ y.id := by
    rw [List.map_append, List.nodup_append] at hAB
    intro x hx y hy hcon
    exact hAB.2.2 (List.mem_map_of_mem ConceptData.id hx)
      (hcon ▸ List.mem_map_of_mem ConceptData.id hy)
  have hgoodA : ∀ n ∈ A, goodNode n = true :=
    fun n hn2 => hgood n (List.mem_of_mem_filter hn2)
  have hgoodB : ∀ n ∈ B, goodNode n = true :=
    fun n hn2 => hgood n (List.mem_of_mem_filter hn2)
  have hlkA : ∀ n ∈ A, n.is_linker = false := by
    intro n hn2
    have := List.of_mem_filter hn2
    simpa using this
  have hlkB : ∀ n ∈ B, n.is_linker = true := fun n hn2 => List.of_mem_filter hn2
  simp only [appearanceNodes1]
  rw [reload_conceptElemsG doc m hu, reload_linkerElemsG doc m hu,
      reload_conceptAppElemsG doc m hu, reload_linkerAppElemsG doc m hu]
  rw [← hAdef, ← hBdef]
  -- concept dictionary fold
  have step1 : (A.map mkNodeListElem).foldl
      (fun a el => dictInsert a (mkNodeFromElem el false 120 60)) [] = A.map baseC := by
    rw [List.foldl_map]
    rw [foldl_congr_mem A _ (fun a n => dictInsert a (baseC n)) []
      (fun n hn2 acc => by rw [mkNode_listElem_c n (hlkA n hn2)])]
    rw [show A.foldl (fun a n => dictInsert a (baseC n)) [] =
        (A.map baseC).foldl dictInsert [] from (List.foldl_map _ _ _ _).symm]
    rw [foldl_dictInsert (A.map baseC) [] (by
      simp only [List.nil_append, List.map_map]
      exact hA)]
    rfl
  rw [step1]
  -- linker dictionary fold
  have step2 : (B.map mkNodeListElem).foldl
      (fun a el => dictInsert a (mkNodeFromElem el true 90 11)) (A.map baseC) =
      A.map baseC ++ B.map baseL := by
    rw [List.foldl_map]
    rw [foldl_congr_mem B _ (fun a n => dictInsert a (baseL n)) (A.map baseC)
      (fun n hn2 acc => by rw [mkNode_listElem_l n (hlkB n hn2)])]
    rw [show B.foldl (fun a n => dictInsert a (baseL n)) (A.map baseC) =
        (B.map baseL).foldl dictInsert (A.map baseC) from (List.foldl_map _ _ _ _).symm]
    exact foldl_dictInsert (B.map baseL) (A.map baseC) (by
      simp only [List.map_append, List.map_map]
      have heq : (List.map (ConceptData.id ∘ baseC) A ++ List.map (ConceptData.id ∘ baseL) B)
          = List.map ConceptData.id (A ++ B) := by
        rw [List.map_append]
        congr 1
      rw [heq]
      exact hAB)
  rw [step2]
  -- first appearance pass (concept appearances)
  have hfuse1 : appFirstPass (A.map baseC ++ B.map baseL) (A.map appElemP) =
      (A.map baseC ++ B.map baseL).map (fun n => (A.map appElemP).foldl
        (fun n app => condUpd (getAttr app.attrs "id")
          (fun x => applyStyleAttrs app.attrs (tryGeomAttrs app.attrs x)) n) n) :=
    foldl_condUpd_fusion (fun app x => applyStyleAttrs app.attrs (tryGeomAttrs app.attrs x))
      (fun app => getAttr app.attrs "id") (A.map appElemP)
      (fun cs app => condUpd_step_eq cs app
        (fun a x => applyStyleAttrs a.attrs (tryGeomAttrs a.attrs x))
        (fun a => getAttr a.attrs "id")) (A.map baseC ++ B.map baseL)
  rw [hfuse1, List.map_append, List.map_map, List.map_map]
  have hA1 : A.map ((fun n => (A.map appElemP).foldl
      (fun n app => condUpd (getAttr app.attrs "id")
        (fun x => applyStyleAttrs app.attrs (tryGeomAttrs app.attrs x)) n) n) ∘ baseC) =
      A := by
    conv_rhs => rw [← List.map_id A]
    refine List.map_congr_left ?_
    intro n hn2
    obtain ⟨pre, post, hAeq⟩ := List.append_of_mem hn2
    show (A.map appElemP).foldl _ (baseC n) = n
    rw [hAeq]
    refine appElemP_fold_hit _ pre post n (by rw [← hAeq]; exact hA) (baseC n) rfl ?_
    exact pass1_node n (hgoodA n hn2) (baseC n) rfl rfl (by
      show false = n.is_linker
      rw [hlkA n hn2])
  have hB1 : B.map ((fun n => (A.map appElemP).foldl
      (fun n app => condUpd (getAttr app.attrs "id")
        (fun x => applyStyleAttrs app.attrs (tryGeomAttrs app.attrs x)) n) n) ∘ baseL) =
      B.map baseL := by
    refine List.map_congr_left ?_
    intro m hm
    show (A.map appElemP).foldl _ (baseL m) = baseL m
    exact appElemP_fold_miss _ A (baseL m)
      (fun x hx => by
        show x.id ≠ m.id
        exact hdisj x hx m hm)
  rw [hA1, hB1]
  -- second appearance pass (linking phrase appearances)
  have hfuse2 : appFirstPass (A ++ B.map baseL) (B.map appElemP) =
      (A ++ B.map baseL).map (fun n => (B.map appElemP).foldl
        (fun n app => condUpd (getAttr app.attrs "id")
          (fun x => applyStyleAttrs app.attrs (tryGeomAttrs app.attrs x)) n) n) :=
    foldl_condUpd_fusion (fun app x => applyStyleAttrs app.attrs (tryGeomAttrs app.attrs x))
      (fun app => getAttr app.attrs "id") (B.map appElemP)
      (fun cs app => condUpd_step_eq cs app
        (fun a x => applyStyleAttrs a.attrs (tryGeomAttrs a.attrs x))
        (fun a => getAttr a.attrs "id")) (A ++ B.map baseL)
  rw [hfuse2, List.map_append, List.map_map]
  have hA2 : A.map (fun n => (B.map appElemP).foldl
      (fun n app => condUpd (getAttr app.attrs "id")
        (fun x => applyStyleAttrs app.attrs (tryGeomAttrs app.attrs x)) n) n) = A := by
    conv_rhs => rw [← List.map_id A]
    refine List.map_congr_left ?_
    intro n hn2
    exact appElemP_fold_miss _ B n (fun x hx hcon => hdisj n hn2 x hx hcon.symm)
  have hB2 : B.map ((fun n => (B.map appElemP).foldl
      (fun n app => condUpd (getAttr app.attrs "id")
        (fun x => applyStyleAttrs app.attrs (tryGeomAttrs app.attrs x)) n) n) ∘ baseL) =
      B := by
    conv_rhs => rw [← List.map_id B]
    refine List.map_congr_left ?_
    intro m hm
    obtain ⟨pre, post, hBeq⟩ := List.append_of_mem hm
    show (B.map appElemP).foldl _ (baseL m) = m
    rw [hBeq]
    refine appElemP_fold_hit _ pre post m (by rw [← hBeq]; exact hB) (baseL m) rfl ?_
    exact pass1_node m (hgoodB m hm) (baseL m) rfl rfl (by
      show true = m.is_linker
      rw [hlkB m hm])
  rw [hA2, hB2]
  rfl

lemma reload_nodes2G (doc : CXLDocument) (m : XElem)
    (dcs dls : List (String × String))
    (hu : ∀ t ∈ saveListTags, (m.taggedChildren t).length ≤ 1)
    (hn : (doc.concepts.map ConceptData.id).Nodup)
    (hgood : ∀ n ∈ doc.concepts, goodNode n = true) :
    appearanceNodes2 (filterSplit doc.concepts) (pureSaveMap doc m)
      dcs dls = filterSplit doc.concepts := by
  set A := doc.concepts.filter (fun n => !n.is_linker) with hAdef
  set B := doc.concepts.filter (fun n => n.is_linker) with hBdef
  have hA : (A.map ConceptData.id).Nodup :=
    hn.sublist (List.Sublist.map ConceptData.id (List.filter_sublist doc.concepts))
  have hB : (B.map ConceptData.id).Nodup :=
    hn.sublist (List.Sublist.map ConceptData.id (List.filter_sublist doc.concepts))
  have hAB : ((A ++ B).map ConceptData.id).Nodup :=
    (((filterSplit_perm doc.concepts).map ConceptData.id).nodup_iff).mpr hn
  have hdisj : ∀ x ∈ A, ∀ y ∈ B, x.id ≠ y.id := by
    rw [List.map_append, List.nodup_append] at hAB
    intro x hx y hy hcon
    exact hAB.2.2 (List.mem_map_of_mem ConceptData.id hx)
      (hcon ▸ List.mem_map_of_mem ConceptData.id hy)
  have hgoodA : ∀ n ∈ A, goodNode n = true :=
    fun n hn2 => hgood n (List.mem_of_mem_filter hn2)
  have hgoodB : ∀ n ∈ B, goodNode n = true :=
    fun n hn2 => hgood n (List.mem_of_mem_filter hn2)
  have hshow : filterSplit doc.concepts = A ++ B := rfl
  rw [hshow]
  simp only [appearanceNodes2]
  rw [reload_conceptAppElemsG doc m hu, reload_linkerAppElemsG doc m hu, ← hAdef, ← hBdef]
  set dflt := fun n : ConceptData =>
    applyDefaultStyle (if n.is_linker then dls else dcs) n with hdfl
  have hkeep : ∀ n : ConceptData, (dflt n).id = n.id := fun n =>
    (applyDefaultStyle_keeps _ n).1
  rw [List.map_append]
  have hov : ∀ (cs : List ConceptData) (apps : List XElem),
      appOverridePass cs apps = cs.map (fun n => apps.foldl
        (fun n app => condUpd (some ((getAttr app.attrs "id").getD ""))
          (fun x => applyStyleAttrs app.attrs x) n) n) :=
    fun cs apps => foldl_condUpd_fusion (fun app x => applyStyleAttrs app.attrs x)
      (fun app => some ((getAttr app.attrs "id").getD "")) apps
      (fun cs app => condUpd_step_eq cs app (fun a x => applyStyleAttrs a.attrs x)
        (fun a => some ((getAttr a.attrs "id").getD ""))) cs
  rw [hov (List.map dflt A ++ List.map dflt B) (List.map appElemP A),
      List.map_append, List.map_map, List.map_map]
  have hA1 : A.map ((fun n => (A.map appElemP).foldl
      (fun n app => condUpd (some ((getAttr app.attrs "id").getD ""))
        (fun x => applyStyleAttrs app.attrs x) n) n) ∘ dflt) = A := by
    conv_rhs => rw [← List.map_id A]
    refine List.map_congr_left ?_
    intro n hn2
    obtain ⟨pre, post, hAeq⟩ := List.append_of_mem hn2
    show (A.map appElemP).foldl _ (dflt n) = n
    rw [hAeq]
    exact appElemP_ofold_hit _ pre post n (by rw [← hAeq]; exact hA) (dflt n)
      (hkeep n) (pass2_node n (hgoodA n hn2) _)
  have hB1 : B.map ((fun n => (A.map appElemP).foldl
      (fun n app => condUpd (some ((getAttr app.attrs "id").getD ""))
        (fun x => applyStyleAttrs app.attrs x) n) n) ∘ dflt) = B.map dflt := by
    refine List.map_congr_left ?_
    intro m hm
    show (A.map appElemP).foldl _ (dflt m) = dflt m
    exact appElemP_ofold_miss _ A (dflt m)
      (fun x hx hcon => hdisj x hx m hm (by rw [hcon, hkeep]))
  rw [hA1, hB1]
  rw [hov (A ++ List.map dflt B) (List.map appElemP B), List.map_append, List.map_map]
  have hA2 : A.map (fun n => (B.map appElemP).foldl
      (fun n app => condUpd (some ((getAttr app.attrs "id").getD ""))
        (fun x => applyStyleAttrs app.attrs x) n) n) = A := by
    conv_rhs => rw [← List.map_id A]
    refine List.map_congr_left ?_
    intro n hn2
    exact appElemP_ofold_miss _ B n (fun x hx hcon => hdisj n hn2 x hx hcon.symm)
  have hB2 : B.map ((fun n => (B.map appElemP).foldl
      (fun n app => condUpd (some ((getAttr app.attrs "id").getD ""))
        (fun x => applyStyleAttrs app.attrs x) n) n) ∘ dflt) = B := by
    conv_rhs => rw [← List.map_id B]
    refine List.map_congr_left ?_
    intro m hm
    obtain ⟨pre, post, hBeq⟩ := List.append_of_mem hm
    show (B.map appElemP).foldl _ (dflt m) = m
    rw [hBeq]
    exact appElemP_ofold_hit _ pre post m (by rw [← hBeq]; exact hB) (dflt m)
      (hkeep m) (pass2_node m (hgoodB m hm) _)
  rw [hA2, hB2]

lemma reload_connsG (doc : CXLDocument) (m : XElem) (uf : ℕ → String)
    (hu : ∀ t ∈ saveListTags, (m.taggedChildren t).length ≤ 1)
    (hn : (doc.concepts.map ConceptData.id).Nodup)
    (hcn : (doc.connections.map ConnectionData.id).Nodup)
    (hconns : ∀ c ∈ doc.connections, goodConn doc.concepts c = true) :
    appearanceConns (filterSplit doc.concepts) (pureSaveMap doc m) uf =
      doc.connections := by
  simp only [appearanceConns]
  rw [reload_connElemsG doc m hu, reload_connAppElemsG doc m hu]
  have hparse : parseConns (filterSplit doc.concepts)
      (doc.connections.map mkConnElem) uf = doc.connections.map zeroConn := by
    unfold parseConns
    rw [parseConns_mk (filterSplit doc.concepts) uf doc.connections ?_ ([], 0)]
    · rfl
    intro c hc
    obtain ⟨h1, _, _, h4, h5⟩ := goodConn_spec doc.concepts c (hconns c hc)
    refine ⟨h1, h4, ?_⟩
    rw [isLinkerId_filterSplit doc.concepts hn]
    exact h5
  rw [hparse]
  have hres : ∀ c ∈ doc.connections,
      (dictGet (filterSplit doc.concepts) c.from_id).isSome = true ∧
      (dictGet (filterSplit doc.concepts) c.to_id).isSome = true := by
    intro c hc
    obtain ⟨_, h2, h3, _, _⟩ := goodConn_spec doc.concepts c (hconns c hc)
    rw [dictGet_filterSplit doc.concepts hn, dictGet_filterSplit doc.concepts hn]
    exact ⟨h2, h3⟩
  have hfold := connAppFold (filterSplit doc.concepts) doc.connections [] []
    (by simpa using hcn) hres
  rw [List.nil_append] at hfold
  rw [hfold]
  refine assignDefault_skip _ _ _ ?_
  intro c hc
  have : c.id ∈ ([] ++ doc.connections.map (fun c => c.id) : List String) := by
    simpa using List.mem_map_of_mem (fun c : ConnectionData => c.id) hc
  exact List.elem_eq_true_of_mem this

lemma find?_isSome_any {α : Type} (p : α → Bool) (l : List α) :
    (l.find? p).isSome = l.any p := by
  induction l with
  | nil => rfl
  | cons a t ih =>
    rw [List.find?_cons, List.any_cons]
    cases hp : p a
    · simpa using ih
    · rfl

lemma dictGet_isSome_congr (cs cs' : List ConceptData)
    (h : cs.map ConceptData.id = cs'.map ConceptData.id) (k : String) :
    (dictGet cs k).isSome = (dictGet cs' k).isSome := by
  unfold dictGet
  rw [find?_isSome_any, find?_isSome_any]
  have h1 : ∀ l : List ConceptData,
      (l.any fun c => c.id == k) = (l.map ConceptData.id).any (fun s => s == k) := by
    intro l
    induction l with
    | nil => rfl
    | cons a t ih =>
      rw [List.map_cons, List.any_cons, List.any_cons, ih]
  rw [h1, h1, h]

lemma map_id_of_nodeKey (cs cs' : List ConceptData)
    (h : cs.map nodeKey = cs'.map nodeKey) :
    cs.map ConceptData.id = cs'.map ConceptData.id := by
  have h2 := congrArg (List.map Prod.fst) h
  rw [List.map_map, List.map_map] at h2
  exact h2

lemma goodConn_keys (cs cs' : List ConceptData)
    (h : cs.map nodeKey = cs'.map nodeKey) (c : ConnectionData) :
    goodConn cs c = goodConn cs' c := by
  unfold goodConn
  rw [isLinkerId_congr cs cs' h c.to_id,
    dictGet_isSome_congr cs cs' (map_id_of_nodeKey cs cs' h) c.from_id,
    dictGet_isSome_congr cs cs' (map_id_of_nodeKey cs cs' h) c.to_id]

lemma filterSplit_map (l : List ConceptData) (f : ConceptData → ConceptData)
    (hf : ∀ n, (f n).is_linker = n.is_linker) :
    filterSplit (l.map f) = (filterSplit l).map f := by
  unfold filterSplit
  have hc : ((fun n : ConceptData => !n.is_linker) ∘ f) =
      (fun n : ConceptData => !n.is_linker) := funext (fun n => by simp [Function.comp, hf n])
  have hl : ((fun n : ConceptData => n.is_linker) ∘ f) =
      (fun n : ConceptData => n.is_linker) := funext (fun n => by simp [Function.comp, hf n])
  rw [List.filter_map, List.filter_map, hc, hl, List.map_append]

/-- Appearance-dialect master round trip: save the document onto its own root,
reload, and recover the concepts (in saved order, styles truncated) and the
connections exactly. -/
lemma roundtripApp (doc : CXLDocument) (r m : XElem) (fp fp2 : String) (uf : ℕ → String)
    (hroot : doc.root = some r) (hm : r.find1 "map" = some m)
    (happ : doc.appearance_mode = true)
    (hu : ∀ t ∈ saveListTags, (m.taggedChildren t).length ≤ 1)
    (hn : (doc.concepts.map ConceptData.id).Nodup)
    (hcn : (doc.connections.map ConnectionData.id).Nodup)
    (hgood : ∀ n ∈ doc.concepts, goodNodeT n = true)
    (hconns : ∀ c ∈ doc.connections, goodConn doc.concepts c = true)
    (hfp : (fp == "") = false) :
    ∃ t, save doc (some fp) = .ok t ∧
      (load {} fp2 uf (.ok t)).2 = none ∧
      (load {} fp2 uf (.ok t)).1.concepts = (filterSplit doc.concepts).map truncStyle ∧
      (load {} fp2 uf (.ok t)).1.connections = doc.connections := by
  refine ⟨_, save_okG doc r m fp hroot hm happ hgood hfp, ?_, ?_, ?_⟩
  all_goals
    have hkeysT : ({ doc with concepts := doc.concepts.map truncStyle } :
        CXLDocument).concepts.map nodeKey = doc.concepts.map nodeKey :=
      map_nodeKey_congr doc.concepts truncStyle truncStyle_key
  all_goals
    have hnT : (({ doc with concepts := doc.concepts.map truncStyle } :
        CXLDocument).concepts.map ConceptData.id).Nodup := by
      rw [map_id_of_nodeKey _ _ hkeysT]
      exact hn
  all_goals
    have hgoodT : ∀ n ∈ ({ doc with concepts := doc.concepts.map truncStyle } :
        CXLDocument).concepts, goodNode n = true := by
      intro n hn2
      obtain ⟨n0, h0, rfl⟩ := List.mem_map.mp hn2
      exact goodNode_truncStyle n0 (hgood n0 h0)
  all_goals
    have htag : (pureSaveMap { doc with concepts := doc.concepts.map truncStyle } m).tag =
        "map" := by
      rw [pureSaveMap_tag_eq]
      exact find1_tag r "map" m hm
  all_goals
    have hT : XElem.find1 ⟨r.tag, r.attrs,
        updateFirstWhere (fun c => c.tag == "map")
          (fun _ => pureSaveMap { doc with concepts := doc.concepts.map truncStyle } m)
          r.children⟩ "map" =
        some (pureSaveMap { doc with concepts := doc.concepts.map truncStyle } m) :=
      find1_saved r _ m hm htag
  · exact load_app_snd fp2 uf _ _ hT
      (reload_appearance_flagG { doc with concepts := doc.concepts.map truncStyle } m hu)
  · rw [load_app_concepts fp2 uf _ _ hT
        (reload_appearance_flagG { doc with concepts := doc.concepts.map truncStyle } m hu),
      reload_nodes1G { doc with concepts := doc.concepts.map truncStyle } m hu hnT hgoodT,
      reload_nodes2G { doc with concepts := doc.concepts.map truncStyle } m _ _ hu hnT hgoodT]
    have hcanon : (filterSplit ({ doc with concepts := doc.concepts.map truncStyle } :
        CXLDocument).concepts).map canonNodeColors =
        filterSplit ({ doc with concepts := doc.concepts.map truncStyle} :
          CXLDocument).concepts := by
      conv_rhs => rw [← List.map_id (filterSplit ({ doc with
        concepts := doc.concepts.map truncStyle} : CXLDocument).concepts)]
      refine List.map_congr_left ?_
      intro n hn2
      exact canon_good n (hgoodT n ((filterSplit_perm _).mem_iff.mp hn2))
    rw [hcanon]
    exact filterSplit_map doc.concepts truncStyle (fun n => rfl)
  · rw [load_app_conns fp2 uf _ _ hT
        (reload_appearance_flagG { doc with concepts := doc.concepts.map truncStyle } m hu),
      reload_nodes1G { doc with concepts := doc.concepts.map truncStyle } m hu hnT hgoodT]
    exact reload_connsG { doc with concepts := doc.concepts.map truncStyle } m uf hu hnT hcn
      (fun c hc => by
        rw [goodConn_keys _ doc.concepts hkeysT]
        exact hconns c hc)

/-! Phase 5: properties every loaded document enjoys by construction. -/

lemma dictInsert_nodup (l : List ConceptData) (d : ConceptData)
    (h : (l.map ConceptData.id).Nodup) :
    ((dictInsert l d).map ConceptData.id).Nodup := by
  unfold dictInsert
  split
  · have hids : (l.map (fun c => if c.id == d.id then d else c)).map ConceptData.id =
        l.map ConceptData.id := by
      rw [List.map_map]
      refine List.map_congr_left ?_
      intro c hc
      show ConceptData.id (if (c.id == d.id) = true then d else c) = c.id
      by_cases hcd : (c.id == d.id) = true
      · rw [if_pos hcd]
        exact ((by simpa using hcd : c.id = d.id)).symm
      · rw [if_neg hcd]
    rw [hids]
    exact h
  · rename_i hany
    rw [List.map_append, List.nodup_append]
    refine ⟨h, by simp, ?_⟩
    intro a ha hb
    obtain ⟨c, hc, rfl⟩ := List.mem_map.mp ha
    have hbd : c.id = d.id := by simpa using hb
    have h2 : ¬ l.any (fun c => c.id == d.id) = true := hany
    rw [List.any_eq_true] at h2
    push_neg at h2
    exact (by simpa using h2 c hc : ¬ c.id = d.id) hbd

lemma foldl_dictInsert_nodup {α : Type} (g : α → ConceptData) (l : List α) :
    ∀ init : List ConceptData, (init.map ConceptData.id).Nodup →
    ((l.foldl (fun a x => dictInsert a (g x)) init).map ConceptData.id).Nodup := by
  induction l with
  | nil => exact fun init h => h
  | cons a t ih =>
    intro init h
    exact ih (dictInsert init (g a)) (dictInsert_nodup init (g a) h)

lemma appearanceNodes1_nodup (init : List ConceptData) (m : XElem)
    (h : (init.map ConceptData.id).Nodup) :
    ((appearanceNodes1 init m).map ConceptData.id).Nodup := by
  simp only [appearanceNodes1]
  rw [map_id_of_nodeKey _ _ (appFirstPass_keys _ _)]
  rw [map_id_of_nodeKey _ _ (appFirstPass_keys _ _)]
  exact foldl_dictInsert_nodup _ _ _ (foldl_dictInsert_nodup _ _ init h)

lemma legacyNodes1_nodup (init : List ConceptData) (m : XElem)
    (h : (init.map ConceptData.id).Nodup) :
    ((legacyNodes1 init m).map ConceptData.id).Nodup := by
  simp only [legacyNodes1]
  exact foldl_dictInsert_nodup _ _ _ (foldl_dictInsert_nodup _ _ init h)

lemma load_app_keys (m : XElem) (dcs dls : List (String × String)) :
    ((appearanceNodes2 (appearanceNodes1 [] m) m dcs dls).map canonNodeColors).map nodeKey =
      (appearanceNodes1 [] m).map nodeKey := by
  rw [map_nodeKey_congr _ _ (fun n => canonNodeColors_key n), appearanceNodes2_keys]

lemma load_app_nodup (m : XElem) (dcs dls : List (String × String)) :
    (((appearanceNodes2 (appearanceNodes1 [] m) m dcs dls).map canonNodeColors).map
      ConceptData.id).Nodup := by
  rw [map_id_of_nodeKey _ _ (load_app_keys m dcs dls)]
  exact appearanceNodes1_nodup [] m (by simp)

lemma load_leg_keys (m : XElem) :
    ((legacyNodes2 (legacyNodes1 [] m) m).map canonNodeColors).map nodeKey =
      (legacyNodes1 [] m).map nodeKey := by
  rw [map_nodeKey_congr _ _ (fun n => canonNodeColors_key n), legacyNodes2_keys]

lemma load_leg_nodup (m : XElem) :
    (((legacyNodes2 (legacyNodes1 [] m) m).map canonNodeColors).map ConceptData.id).Nodup := by
  rw [map_id_of_nodeKey _ _ (load_leg_keys m)]
  exact legacyNodes1_nodup [] m (by simp)

lemma load_app_arrows (m : XElem) (dcs dls : List (String × String)) (uf : ℕ → String)
    (c : ConnectionData) (hc : c ∈ appearanceConns (appearanceNodes1 [] m) m uf) :
    c.arrow_start = false ∧
    c.arrow_end = !(isLinkerId
      ((appearanceNodes2 (appearanceNodes1 [] m) m dcs dls).map canonNodeColors) c.to_id) := by
  obtain ⟨h1, h2⟩ := appearanceConns_arrows _ m uf c hc
  refine ⟨h1, ?_⟩
  rw [isLinkerId_congr _ (appearanceNodes1 [] m) (load_app_keys m dcs dls) c.to_id]
  exact h2

/-! Phase 6: the legacy dialect.  First, generic machinery for label updates
and last-style updates. -/

lemma filter_map_invariant (q : XElem → Bool) (F : XElem → XElem) (l : List XElem)
    (h1 : ∀ x, q x = true → F x = x) (h2 : ∀ x, q (F x) = q x) :
    (l.map F).filter q = l.filter q := by
  induction l with
  | nil => rfl
  | cons x xs ih =>
    rw [List.map_cons, List.filter_cons, List.filter_cons, h2 x]
    cases hq : q x
    · simpa using ih
    · rw [h1 x hq]
      simpa using ih

lemma filter_map_comm (q : XElem → Bool) (F : XElem → XElem) (l : List XElem)
    (h2 : ∀ x, q (F x) = q x) :
    (l.map F).filter q = (l.filter q).map F := by
  induction l with
  | nil => rfl
  | cons x xs ih =>
    rw [List.map_cons, List.filter_cons, List.filter_cons, h2 x]
    cases hq : q x <;> simp [ih]

lemma map_flatten_eq {α : Type} (f : XElem → α) (l : List (List XElem)) :
    (l.flatten).map f = (l.map (List.map f)).flatten := by
  induction l with
  | nil => rfl
  | cons a t ih => simp [ih]

lemma filter_flatten_eq (p : XElem → Bool) (l : List (List XElem)) :
    (l.flatten).filter p = (l.map (List.filter p)).flatten := by
  induction l with
  | nil => rfl
  | cons a t ih => simp [List.filter_append, ih]

lemma updateFirstWhere_append_right (p : XElem → Bool) (f : XElem → XElem)
    (l1 l2 : List XElem) (h : l1.any p = false) :
    updateFirstWhere p f (l1 ++ l2) = l1 ++ updateFirstWhere p f l2 := by
  induction l1 with
  | nil => rfl
  | cons a t ih =>
    rw [List.any_cons] at h
    obtain ⟨ha, ht⟩ := Bool.or_eq_false_iff.mp h
    rw [List.cons_append]
    show (if p a = true then f a :: (t ++ l2) else a :: updateFirstWhere p f (t ++ l2)) =
      a :: t ++ updateFirstWhere p f l2
    rw [if_neg (by simp [ha]), ih ht]
    rfl

lemma updateLastWhere_concat (p : XElem → Bool) (f : XElem → XElem)
    (l : List XElem) (a : XElem) :
    updateLastWhere p f (l ++ [a]) =
      if p a then l ++ [f a] else updateLastWhere p f l ++ [a] := by
  unfold updateLastWhere
  rw [List.reverse_append, List.reverse_singleton, List.singleton_append]
  by_cases hp : p a = true
  · rw [if_pos hp]
    show (if p a = true then f a :: l.reverse else
      a :: updateFirstWhere p f l.reverse).reverse = l ++ [f a]
    rw [if_pos hp, List.reverse_cons, List.reverse_reverse]
  · rw [if_neg hp]
    show (if p a = true then f a :: l.reverse else
      a :: updateFirstWhere p f l.reverse).reverse = (updateFirstWhere p f l.reverse).reverse ++ [a]
    rw [if_neg hp, List.reverse_cons]

lemma filter_updateFirstWhere_headcons (p : XElem → Bool) (f : XElem → XElem)
    (l : List XElem) (x : XElem) (xs : List XElem)
    (hf : ∀ c, p c = true → p (f c) = true) (h : l.filter p = x :: xs) :
    (updateFirstWhere p f l).filter p = f x :: xs := by
  induction l generalizing x xs with
  | nil => simp at h
  | cons a t ih =>
    by_cases hp : p a = true
    · rw [List.filter_cons_of_pos hp] at h
      injection h with h1 h2
      show (if p a = true then f a :: t else a :: updateFirstWhere p f t).filter p = f x :: xs
      rw [if_pos hp, List.filter_cons_of_pos (hf a hp), h1, h2]
    · rw [List.filter_cons_of_neg hp] at h
      show (if p a = true then f a :: t else a :: updateFirstWhere p f t).filter p = f x :: xs
      rw [if_neg hp, List.filter_cons_of_neg hp]
      exact ih _ _ h

lemma filter_updateLastWhere_lastconc (p : XElem → Bool) (f : XElem → XElem)
    (l : List XElem) (pre : List XElem) (lastE : XElem)
    (hf : ∀ c, p c = true → p (f c) = true) (h : l.filter p = pre ++ [lastE]) :
    (updateLastWhere p f l).filter p = pre ++ [f lastE] := by
  unfold updateLastWhere
  rw [List.filter_reverse]
  rw [filter_updateFirstWhere_headcons p f l.reverse lastE pre.reverse hf
    (by rw [List.filter_reverse, h, List.reverse_append, List.reverse_singleton,
      List.singleton_append])]
  rw [List.reverse_cons, List.reverse_reverse]

lemma filter_updateLastWhere_neg (p q : XElem → Bool) (f : XElem → XElem)
    (l : List XElem) (h : ∀ x, p x = true → (q x = false ∧ q (f x) = false)) :
    (updateLastWhere p f l).filter q = l.filter q := by
  unfold updateLastWhere
  rw [List.filter_reverse, filter_updateFirstWhere_neg p q f l.reverse h,
    List.filter_reverse, List.reverse_reverse]

lemma filter_map_updateFirstWhere_inv {β : Type} (p q : XElem → Bool)
    (g : XElem → XElem) (pay : XElem → β) (l : List XElem)
    (h : ∀ x, p x = true → (q (g x) = q x ∧ pay (g x) = pay x)) :
    ((updateFirstWhere p g l).filter q).map pay = (l.filter q).map pay := by
  induction l with
  | nil => rfl
  | cons a t ih =>
    by_cases hp : p a = true
    · obtain ⟨h1, h2⟩ := h a hp
      show ((if p a = true then g a :: t else a :: updateFirstWhere p g t).filter q).map pay =
        ((a :: t).filter q).map pay
      rw [if_pos hp, List.filter_cons, List.filter_cons, h1]
      cases hq : q a <;> simp [h2]
    · show ((if p a = true then g a :: t else a :: updateFirstWhere p g t).filter q).map pay =
        ((a :: t).filter q).map pay
      rw [if_neg hp, List.filter_cons, List.filter_cons]
      cases hq : q a <;> simp [ih]

lemma filter_map_updateLastWhere_inv {β : Type} (p q : XElem → Bool)
    (g : XElem → XElem) (pay : XElem → β) (l : List XElem)
    (h : ∀ x, p x = true → (q (g x) = q x ∧ pay (g x) = pay x)) :
    ((updateLastWhere p g l).filter q).map pay = (l.filter q).map pay := by
  unfold updateLastWhere
  rw [List.filter_reverse, List.map_reverse, filter_map_updateFirstWhere_inv p q g pay
    l.reverse h, List.filter_reverse, List.map_reverse, List.reverse_reverse]

lemma lastStyleFor_eq (m : XElem) (cid : String) :
    lastStyleFor m cid = (styleFor m cid).getLast? := rfl

lemma styleFor_eq_flat (m : XElem) (cid : String) :
    styleFor m cid =
      ((m.children.filter (fun c => c.tag == "style-list")).map (payQ cid)).flatten := by
  unfold styleFor styleElems XElem.findall2 XElem.taggedChildren
  rw [filter_flatten_eq, List.map_map]
  refine congrArg List.flatten (List.map_congr_left ?_)
  intro sl hsl
  show (sl.children.filter (fun c => c.tag == "style")).filter
      (fun st => (getAttr st.attrs "object-id").getD "" == cid) = payQ cid sl
  unfold payQ stPred
  induction sl.children with
  | nil => rfl
  | cons a t ih =>
    cases ht : (a.tag == "style") <;>
      cases ho : ((getAttr a.attrs "object-id").getD "" == cid) <;>
        simp [List.filter_cons, ht, ho, ih]

lemma styleFor_setLabelsIn (cs : List ConceptData) (lt et : String) (m : XElem)
    (hne : ("style-list" == lt) = false) (cid : String) :
    styleFor (setLabelsIn cs lt et m) cid = styleFor m cid := by
  rw [styleFor_eq_flat, styleFor_eq_flat]
  show ((((m.children.map _).filter (fun c => c.tag == "style-list")).map (payQ cid)).flatten :
    List XElem) = _
  rw [filter_map_invariant (fun c => c.tag == "style-list") _ m.children ?_ ?_]
  · intro x hx
    have hxt : x.tag = "style-list" := by simpa using hx
    have hc : (x.tag == lt) = false := by rw [hxt]; exact hne
    rw [if_neg (by simp [hc])]
  · intro x
    by_cases hxl : (x.tag == lt) = true
    · rw [if_pos hxl]
    · rw [if_neg hxl]

lemma filter_cons_pos2 (p : XElem → Bool) (a : XElem) (l : List XElem) (h : p a = true) :
    (a :: l).filter p = a :: l.filter p := by
  simp [List.filter_cons, h]

lemma filter_cons_neg2 (p : XElem → Bool) (a : XElem) (l : List XElem) (h : p a = false) :
    (a :: l).filter p = l.filter p := by
  simp [List.filter_cons, h]

lemma stPred_objid (cid : String) (st : XElem) (h : stPred cid st = true) :
    st.tag = "style" ∧ (getAttr st.attrs "object-id").getD "" = cid := by
  unfold stPred at h
  rw [Bool.and_eq_true] at h
  exact ⟨by simpa using h.1, by simpa using h.2⟩

lemma stPred_of_f (cid : String) (f : XElem → XElem)
    (hfa : ∀ st, (f st).attrs = st.attrs) (hft : ∀ st, (f st).tag = st.tag) (st : XElem) :
    stPred cid (f st) = stPred cid st := by
  unfold stPred
  rw [hfa st, hft st]

lemma flat_updLast_self (f : XElem → XElem)
    (hfa : ∀ st, (f st).attrs = st.attrs) (hft : ∀ st, (f st).tag = st.tag) (cid : String)
    (ls : List XElem) :
    ∀ (pre : List XElem) (lastE : XElem),
    ((ls.filter (fun c => c.tag == "style-list")).map (payQ cid)).flatten = pre ++ [lastE] →
    (((updateLastWhere (hasStyleFor cid) (fun sl => { sl with children :=
        (updateLastWhere (fun st => st.tag == "style" &&
          ((getAttr st.attrs "object-id").getD "" == cid)) f sl.children) }) ls).filter
      (fun c => c.tag == "style-list")).map (payQ cid)).flatten = pre ++ [f lastE] := by
  induction ls using List.reverseRecOn with
  | nil =>
    intro pre lastE h
    simp at h
  | append_singleton ls a ih =>
    intro pre lastE h
    rw [updateLastWhere_concat]
    by_cases hH : hasStyleFor cid a = true
    · rw [if_pos hH]
      unfold hasStyleFor at hH
      rw [Bool.and_eq_true] at hH
      obtain ⟨hsl, hanyA⟩ := hH
      rw [List.filter_append, List.map_append, List.flatten_append] at h ⊢
      rw [filter_cons_pos2 (fun c => c.tag == "style-list") a [] hsl] at h
      rw [filter_cons_pos2 (fun c => c.tag == "style-list") ⟨a.tag, a.attrs,
        updateLastWhere (fun st => st.tag == "style" &&
          ((getAttr st.attrs "object-id").getD "" == cid)) f a.children⟩ [] hsl]
      simp only [List.filter_nil, List.map_cons, List.map_nil, List.flatten_cons,
        List.flatten_nil, List.append_nil] at h ⊢
      have hpay : payQ cid a ≠ [] := by
        intro hcon
        unfold payQ at hcon
        rw [List.filter_eq_nil_iff] at hcon
        rw [List.any_eq_true] at hanyA
        obtain ⟨x, hx, hxp⟩ := hanyA
        exact hcon x hx (by simpa [stPred] using hxp)
      rcases List.eq_nil_or_concat (payQ cid a) with hc | ⟨pre2, le2, hc⟩
      · exact absurd hc hpay
      · rw [List.concat_eq_append] at hc
        rw [hc, ← List.append_assoc] at h
        obtain ⟨hpre, hle⟩ := List.append_inj' h rfl
        have hle2 : le2 = lastE := by injection hle
        have hupd : payQ cid (⟨a.tag, a.attrs,
            updateLastWhere (fun st => st.tag == "style" &&
              ((getAttr st.attrs "object-id").getD "" == cid)) f a.children⟩ : XElem) =
            pre2 ++ [f lastE] := by
          show (updateLastWhere (fun st => st.tag == "style" &&
            ((getAttr st.attrs "object-id").getD "" == cid)) f a.children).filter
              (stPred cid) = pre2 ++ [f lastE]
          have hcast : (updateLastWhere (stPred cid) f a.children).filter (stPred cid) =
              pre2 ++ [f lastE] := by
            refine filter_updateLastWhere_lastconc (stPred cid) f a.children pre2 lastE ?_ ?_
            · intro c hc2
              rw [stPred_of_f cid f hfa hft]
              exact hc2
            · rw [← hle2]
              exact hc
          exact hcast
        rw [hupd, ← List.append_assoc, hpre]
    · rw [if_neg hH]
      rw [List.filter_append, List.map_append, List.flatten_append] at h ⊢
      by_cases hsl : (a.tag == "style-list") = true
      · have hanyA : (a.children.any (fun st => st.tag == "style" &&
            ((getAttr st.attrs "object-id").getD "" == cid))) = false := by
          by_contra hcon
          rw [Bool.not_eq_false] at hcon
          exact hH (by unfold hasStyleFor; rw [hsl, hcon]; rfl)
        have hpay : payQ cid a = [] := by
          unfold payQ
          refine any_eq_false_filter _ _ ?_
          have : (a.children.any (stPred cid)) =
              (a.children.any (fun st => st.tag == "style" &&
                ((getAttr st.attrs "object-id").getD "" == cid))) := rfl
          rw [this, hanyA]
        rw [filter_cons_pos2 (fun c => c.tag == "style-list") a [] hsl] at h ⊢
        simp only [List.filter_nil, List.map_cons, List.map_nil, List.flatten_cons,
          List.flatten_nil, List.append_nil, hpay] at h ⊢
        exact ih pre lastE h
      · rw [filter_cons_neg2 (fun c => c.tag == "style-list") a []
          (by simpa using hsl)] at h ⊢
        simp only [List.filter_nil, List.map_nil, List.flatten_nil, List.append_nil] at h ⊢
        exact ih pre lastE h

lemma styleFor_updLSF_self (m : XElem) (cid : String) (f : XElem → XElem)
    (pre : List XElem) (lastE : XElem)
    (hfa : ∀ st, (f st).attrs = st.attrs) (hft : ∀ st, (f st).tag = st.tag)
    (hsp : styleFor m cid = pre ++ [lastE]) :
    styleFor (updateLastStyleFor m cid f) cid = pre ++ [f lastE] := by
  rw [styleFor_eq_flat] at hsp ⊢
  exact flat_updLast_self f hfa hft cid m.children pre lastE hsp

lemma styleFor_updLSF_other (m : XElem) (cid : String) (f : XElem → XElem) (cid' : String)
    (hne : (cid == cid') = false)
    (hfa : ∀ st, (f st).attrs = st.attrs) (hft : ∀ st, (f st).tag = st.tag) :
    styleFor (updateLastStyleFor m cid f) cid' = styleFor m cid' := by
  rw [styleFor_eq_flat, styleFor_eq_flat]
  refine congrArg List.flatten (filter_map_updateLastWhere_inv _ _ _ _ m.children ?_)
  intro sl hsl
  refine ⟨rfl, ?_⟩
  show (updateLastWhere (fun st => st.tag == "style" &&
    ((getAttr st.attrs "object-id").getD "" == cid)) f sl.children).filter (stPred cid') =
    sl.children.filter (stPred cid')
  have : (updateLastWhere (stPred cid) f sl.children).filter (stPred cid') =
      sl.children.filter (stPred cid') := by
    refine filter_updateLastWhere_neg (stPred cid) (stPred cid') f sl.children ?_
    intro st hst
    obtain ⟨h1, h2⟩ := stPred_objid cid st hst
    constructor
    · unfold stPred
      rw [h2]
      simp [h1]
      intro hcon
      exact absurd (hcon ▸ hne) (by simp)
    · rw [stPred_of_f cid' f hfa hft]
      unfold stPred
      rw [h2]
      simp [h1]
      intro hcon
      exact absurd (hcon ▸ hne) (by simp)
  exact this

lemma flat_append_self (st : XElem) (cid : String) (hst : stPred cid st = true) :
    ∀ ls : List XElem,
    ((ls.filter (fun c => c.tag == "style-list")).map (payQ cid)).flatten = [] →
    ls.any (fun c => c.tag == "style-list") = true →
    (((updateFirstWhere (fun c => c.tag == "style-list")
        (fun sl => { sl with children := sl.children ++ [st] }) ls).filter
      (fun c => c.tag == "style-list")).map (payQ cid)).flatten = [st] := by
  intro ls
  induction ls with
  | nil =>
    intro _ hany
    simp at hany
  | cons a t ih =>
    intro hflat hany
    by_cases hsl : (a.tag == "style-list") = true
    · show ((((if (a.tag == "style-list") = true then
        (⟨a.tag, a.attrs, a.children ++ [st]⟩ : XElem) :: t
        else a :: updateFirstWhere (fun c => c.tag == "style-list")
          (fun sl => { sl with children := sl.children ++ [st] }) t)).filter
            (fun c => c.tag == "style-list")).map (payQ cid)).flatten = [st]
      rw [if_pos hsl]
      rw [filter_cons_pos2 (fun c => c.tag == "style-list")
        (⟨a.tag, a.attrs, a.children ++ [st]⟩ : XElem) t hsl]
      rw [filter_cons_pos2 (fun c => c.tag == "style-list") a t hsl] at hflat
      simp only [List.map_cons, List.flatten_cons] at hflat ⊢
      have h1 : payQ cid a = [] := by
        rcases List.append_eq_nil.mp hflat with ⟨h1, _⟩
        exact h1
      have h2 : (List.map (payQ cid) (List.filter (fun c => c.tag == "style-list")
          t)).flatten = [] := by
        rcases List.append_eq_nil.mp hflat with ⟨_, h2⟩
        exact h2
      have hext : payQ cid (⟨a.tag, a.attrs, a.children ++ [st]⟩ : XElem) = [st] := by
        show (a.children ++ [st]).filter (stPred cid) = [st]
        rw [List.filter_append]
        show payQ cid a ++ _ = [st]
        rw [h1, filter_cons_pos2 (stPred cid) st [] hst]
        rfl
      rw [hext, h2]
      rfl
    · show ((((if (a.tag == "style-list") = true then
        (⟨a.tag, a.attrs, a.children ++ [st]⟩ : XElem) :: t
        else a :: updateFirstWhere (fun c => c.tag == "style-list")
          (fun sl => { sl with children := sl.children ++ [st] }) t)).filter
            (fun c => c.tag == "style-list")).map (payQ cid)).flatten = [st]
      rw [if_neg hsl]
      rw [filter_cons_neg2 (fun c => c.tag == "style-list") a _ (by simpa using hsl)]
      rw [filter_cons_neg2 (fun c => c.tag == "style-list") a t (by simpa using hsl)] at hflat
      rw [List.any_cons] at hany
      rcases Bool.or_eq_true_iff.mp hany with hcase | hcase
      · exact absurd hcase hsl
      · exact ih hflat hcase

lemma styleFor_appendNewStyle_self (m : XElem) (st : XElem) (cid : String)
    (hst : stPred cid st = true) (hnil : styleFor m cid = []) :
    styleFor (appendNewStyle m st) cid = [st] := by
  rw [styleFor_eq_flat] at hnil ⊢
  unfold appendNewStyle
  split
  · rename_i hany
    exact flat_append_self st cid hst m.children hnil hany
  · show (((m.children ++ [(⟨"style-list", [], [st]⟩ : XElem)]).filter
      (fun c => c.tag == "style-list")).map (payQ cid)).flatten = [st]
    rw [List.filter_append, List.map_append, List.flatten_append, hnil]
    rw [filter_cons_pos2 (fun c => c.tag == "style-list") ⟨"style-list", [], [st]⟩ []
      (by simp)]
    have hp : payQ cid (⟨"style-list", [], [st]⟩ : XElem) = [st] := by
      show ([st] : List XElem).filter (stPred cid) = [st]
      rw [filter_cons_pos2 (stPred cid) st [] hst]
      rfl
    simp [hp]

lemma styleFor_appendNewStyle_other (m : XElem) (st : XElem) (cid' : String)
    (hne : stPred cid' st = false) :
    styleFor (appendNewStyle m st) cid' = styleFor m cid' := by
  rw [styleFor_eq_flat, styleFor_eq_flat]
  unfold appendNewStyle
  split
  · refine congrArg List.flatten (filter_map_updateFirstWhere_inv _ _ _ _ m.children ?_)
    intro sl hsl
    refine ⟨rfl, ?_⟩
    show (sl.children ++ [st]).filter (stPred cid') = sl.children.filter (stPred cid')
    rw [List.filter_append, filter_cons_neg2 (stPred cid') st [] hne]
    simp
  · show (((m.children ++ [(⟨"style-list", [], [st]⟩ : XElem)]).filter
      (fun c => c.tag == "style-list")).map (payQ cid')).flatten = _
    rw [List.filter_append, List.map_append, List.flatten_append]
    rw [filter_cons_pos2 (fun c => c.tag == "style-list") ⟨"style-list", [], [st]⟩ []
      (by simp)]
    have hp : payQ cid' (⟨"style-list", [], [st]⟩ : XElem) = [] := by
      show ([st] : List XElem).filter (stPred cid') = []
      rw [filter_cons_neg2 (stPred cid') st [] hne]
      rfl
    simp [hp]

lemma updateStyleElem_attrs (n : ConceptData) (st : XElem) :
    (updateStyleElem n st).attrs = st.attrs := by
  unfold updateStyleElem
  rw [modChild_attrs_eq, modChild_attrs_eq, modChild_attrs_eq]

lemma updateStyleElem_tag (n : ConceptData) (st : XElem) :
    (updateStyleElem n st).tag = st.tag := by
  unfold updateStyleElem
  rw [modChild_tag, modChild_tag, modChild_tag]

lemma had_false_styleFor (m : XElem) (cid : String)
    (h : ((styleElems m).any (fun st => ((getAttr st.attrs "object-id").getD "" == cid))) =
      false) : styleFor m cid = [] :=
  any_eq_false_filter _ _ h

lemma had_true_styleFor (m : XElem) (cid : String)
    (h : ((styleElems m).any (fun st => ((getAttr st.attrs "object-id").getD "" == cid))) =
      true) : styleFor m cid ≠ [] := by
  intro hcon
  unfold styleFor at hcon
  rw [List.filter_eq_nil_iff] at hcon
  rw [List.any_eq_true] at h
  obtain ⟨x, hx, hxp⟩ := h
  exact hcon x hx (by simpa using hxp)

lemma getLast?_app_singleton {α : Type} (l : List α) (a : α) :
    (l ++ [a]).getLast? = some a := List.getLast?_concat _

lemma legacyFold_styles (m1 : XElem) :
    ∀ (todo done : List ConceptData) (mcur : XElem),
    (((done ++ todo).map ConceptData.id).Nodup) →
    (∀ n ∈ done, ∃ st : XElem, lastStyleFor mcur n.id = some (updateStyleElem n st)) →
    (∀ n ∈ todo, styleFor mcur n.id = styleFor m1 n.id) →
    ∀ n ∈ done ++ todo, ∃ st : XElem,
      lastStyleFor (todo.foldl (fun m2 n =>
        if (styleElems m1).any (fun st => ((getAttr st.attrs "object-id").getD "" == n.id))
        then updateLastStyleFor m2 n.id (updateStyleElem n)
        else appendNewStyle m2 (updateStyleElem n ⟨"style", [("object-id", n.id)], []⟩)) mcur)
        n.id = some (updateStyleElem n st) := by
  intro todo
  induction todo with
  | nil =>
    intro done mcur hnd hdone hfresh n hn
    rw [List.append_nil] at hn
    exact hdone n hn
  | cons n0 t ih =>
    intro done mcur hnd hdone hfresh n hn
    have hnd2 := hnd
    rw [List.map_append, List.map_cons, List.nodup_append] at hnd2
    obtain ⟨hdn, hcn, hdisj⟩ := hnd2
    rw [List.nodup_cons] at hcn
    obtain ⟨hn0t, htn⟩ := hcn
    have hne_done : ∀ x ∈ done, (n0.id == x.id) = false := by
      intro x hx
      by_contra hcon
      rw [Bool.not_eq_false] at hcon
      have heq : n0.id = x.id := by simpa using hcon
      exact hdisj (List.mem_map_of_mem ConceptData.id hx)
        (by rw [← heq]; exact List.mem_cons_self _ _)
    have hne_t : ∀ x ∈ t, (n0.id == x.id) = false := by
      intro x hx
      by_contra hcon
      rw [Bool.not_eq_false] at hcon
      have heq : n0.id = x.id := by simpa using hcon
      exact hn0t (heq ▸ List.mem_map_of_mem ConceptData.id hx)
    rw [List.foldl_cons]
    by_cases hhad : ((styleElems m1).any (fun st =>
        ((getAttr st.attrs "object-id").getD "" == n0.id))) = true
    · rw [if_pos hhad]
      have hcur : styleFor mcur n0.id = styleFor m1 n0.id :=
        hfresh n0 (List.mem_cons_self _ _)
      have hne_nil : styleFor mcur n0.id ≠ [] := by
        rw [hcur]
        exact had_true_styleFor m1 n0.id hhad
      rcases List.eq_nil_or_concat (styleFor mcur n0.id) with hc | ⟨pre, lastE, hc⟩
      · exact absurd hc hne_nil
      rw [List.concat_eq_append] at hc
      have hself := styleFor_updLSF_self mcur n0.id (updateStyleElem n0) pre lastE
        (fun st => updateStyleElem_attrs n0 st) (fun st => updateStyleElem_tag n0 st) hc
      refine ih (done ++ [n0]) (updateLastStyleFor mcur n0.id (updateStyleElem n0)) ?_ ?_ ?_ n ?_
      · rw [List.append_assoc, List.singleton_append]
        exact hnd
      · intro x hx
        rcases List.mem_append.mp hx with hx2 | hx2
        · obtain ⟨st0, hst0⟩ := hdone x hx2
          refine ⟨st0, ?_⟩
          rw [lastStyleFor_eq, styleFor_updLSF_other mcur n0.id (updateStyleElem n0) x.id
            (hne_done x hx2) (fun st => updateStyleElem_attrs n0 st)
            (fun st => updateStyleElem_tag n0 st), ← lastStyleFor_eq]
          exact hst0
        · have hx0 : x = n0 := by simpa using hx2
          subst hx0
          refine ⟨lastE, ?_⟩
          rw [lastStyleFor_eq, hself, getLast?_app_singleton]
      · intro x hx
        rw [styleFor_updLSF_other mcur n0.id (updateStyleElem n0) x.id (hne_t x hx)
          (fun st => updateStyleElem_attrs n0 st) (fun st => updateStyleElem_tag n0 st)]
        exact hfresh x (List.mem_cons_of_mem _ hx)
      · rw [List.append_assoc, List.singleton_append]
        exact hn
    · rw [if_neg hhad]
      have hhadf : ((styleElems m1).any (fun st =>
          ((getAttr st.attrs "object-id").getD "" == n0.id))) = false :=
        Bool.eq_false_iff.mpr hhad
      have hcur : styleFor mcur n0.id = [] := by
        rw [hfresh n0 (List.mem_cons_self _ _)]
        exact had_false_styleFor m1 n0.id hhadf
      have hoid : (getAttr [("object-id", n0.id)] "object-id").getD "" = n0.id := rfl
      have hstp : stPred n0.id
          (updateStyleElem n0 ⟨"style", [("object-id", n0.id)], []⟩) = true := by
        unfold stPred
        rw [updateStyleElem_tag, updateStyleElem_attrs]
        show (("style" == "style") && ((getAttr [("object-id", n0.id)]
          "object-id").getD "" == n0.id)) = true
        rw [hoid]
        simp
      have hself := styleFor_appendNewStyle_self mcur
        (updateStyleElem n0 ⟨"style", [("object-id", n0.id)], []⟩) n0.id hstp hcur
      refine ih (done ++ [n0]) _ ?_ ?_ ?_ n ?_
      · rw [List.append_assoc, List.singleton_append]
        exact hnd
      · intro x hx
        rcases List.mem_append.mp hx with hx2 | hx2
        · obtain ⟨st0, hst0⟩ := hdone x hx2
          refine ⟨st0, ?_⟩
          rw [lastStyleFor_eq, styleFor_appendNewStyle_other mcur _ x.id ?_, ← lastStyleFor_eq]
          · exact hst0
          · unfold stPred
            rw [updateStyleElem_attrs]
            show ((_ == "style") && ((getAttr [("object-id", n0.id)]
              "object-id").getD "" == x.id)) = false
            rw [hoid, hne_done x hx2]
            simp
        · have hx0 : x = n0 := by simpa using hx2
          subst hx0
          refine ⟨⟨"style", [("object-id", x.id)], []⟩, ?_⟩
          rw [lastStyleFor_eq, hself]
          rfl
      · intro x hx
        rw [styleFor_appendNewStyle_other mcur _ x.id ?_]
        · exact hfresh x (List.mem_cons_of_mem _ hx)
        · unfold stPred
          rw [updateStyleElem_attrs]
          show ((_ == "style") && ((getAttr [("object-id", n0.id)]
            "object-id").getD "" == x.id)) = false
          rw [hoid, hne_t x hx]
          simp
      · rw [List.append_assoc, List.singleton_append]
        exact hn

lemma font_style_roundtrip_raw (n : ConceptData) :
    pyInStr "bold" (font_style_to_str n) = n.font_bold ∧
    pyInStr "italic" (font_style_to_str n) = n.font_italic ∧
    pyInStr "underline" (font_style_to_str n) = n.font_underline := by
  rw [font_style_only_flags n]
  cases hb : n.font_bold <;> cases hi : n.font_italic <;> cases hu : n.font_underline <;>
    exact ⟨by decide, by decide, by decide⟩

lemma find1_modChild_other (e : XElem) (t : String) (f : XElem → XElem)
    (t' : String) (hne : (t == t') = false) (hf : ∀ c, (f c).tag = c.tag) :
    (e.modChild t f).find1 t' = e.find1 t' :=
  congrArg List.head? (taggedChildren_modChild_other e t f t' hne hf)

lemma updateStyleElem_geom (n : ConceptData) (st : XElem) :
    ∃ g0 : XElem, (updateStyleElem n st).find1 "geom" =
      some ⟨g0.tag, setAttrsL g0.attrs
        [("x", showFloat n.x), ("y", showFloat n.y), ("width", showFloat n.width),
         ("height", showFloat n.height)], g0.children⟩ := by
  unfold updateStyleElem
  rw [find1_modChild_other _ "shape" _ "geom" (by decide) (by intro c; rfl),
    find1_modChild_other _ "text" _ "geom" (by decide) (by intro c; rfl),
    find1_modChild_self _ "geom" _ (by intro c; rfl)]
  exact ⟨_, rfl⟩

lemma updateStyleElem_text (n : ConceptData) (st : XElem) :
    ∃ t0 : XElem, (updateStyleElem n st).find1 "text" =
      some ⟨t0.tag, setAttrsL t0.attrs
        [("font-name", n.font_family), ("font-size", showInt (truncInt n.font_size)),
         ("color", n.font_color), ("style", font_style_to_str n)], t0.children⟩ := by
  unfold updateStyleElem
  rw [find1_modChild_other _ "shape" _ "text" (by decide) (by intro c; rfl),
    find1_modChild_self _ "text" _ (by intro c; rfl)]
  exact ⟨_, rfl⟩

lemma updateStyleElem_shape (n : ConceptData) (st : XElem) :
    ∃ sh0 : XElem, (updateStyleElem n st).find1 "shape" =
      some ⟨sh0.tag, setAttrsL sh0.attrs
        [("fill", n.fill_color), ("border", n.border_color)], sh0.children⟩ := by
  unfold updateStyleElem
  rw [find1_modChild_self _ "shape" _ (by intro c; rfl)]
  exact ⟨_, rfl⟩

lemma getAttr_setAttrsL4 (ats : List (String × String))
    (k1 k2 k3 k4 : String) (v1 v2 v3 v4 : String)
    (h21 : (k2 == k1) = false) (h31 : (k3 == k1) = false) (h41 : (k4 == k1) = false)
    (h32 : (k3 == k2) = false) (h42 : (k4 == k2) = false) (h43 : (k4 == k3) = false) :
    getAttr (setAttrsL ats [(k1, v1), (k2, v2), (k3, v3), (k4, v4)]) k1 = some v1 ∧
    getAttr (setAttrsL ats [(k1, v1), (k2, v2), (k3, v3), (k4, v4)]) k2 = some v2 ∧
    getAttr (setAttrsL ats [(k1, v1), (k2, v2), (k3, v3), (k4, v4)]) k3 = some v3 ∧
    getAttr (setAttrsL ats [(k1, v1), (k2, v2), (k3, v3), (k4, v4)]) k4 = some v4 := by
  have hs : setAttrsL ats [(k1, v1), (k2, v2), (k3, v3), (k4, v4)] =
      setAttr (setAttr (setAttr (setAttr ats k1 v1) k2 v2) k3 v3) k4 v4 := rfl
  rw [hs]
  refine ⟨?_, ?_, ?_, ?_⟩
  · rw [getAttr_setAttr_other _ _ _ _ h41, getAttr_setAttr_other _ _ _ _ h31,
      getAttr_setAttr_other _ _ _ _ h21, getAttr_setAttr_self]
  · rw [getAttr_setAttr_other _ _ _ _ h42, getAttr_setAttr_other _ _ _ _ h32,
      getAttr_setAttr_self]
  · rw [getAttr_setAttr_other _ _ _ _ h43, getAttr_setAttr_self]
  · rw [getAttr_setAttr_self]

lemma getAttr_setAttrsL2 (ats : List (String × String))
    (k1 k2 : String) (v1 v2 : String) (h21 : (k2 == k1) = false) :
    getAttr (setAttrsL ats [(k1, v1), (k2, v2)]) k1 = some v1 ∧
    getAttr (setAttrsL ats [(k1, v1), (k2, v2)]) k2 = some v2 := by
  have hs : setAttrsL ats [(k1, v1), (k2, v2)] = setAttr (setAttr ats k1 v1) k2 v2 := rfl
  rw [hs]
  exact ⟨by rw [getAttr_setAttr_other _ _ _ _ h21, getAttr_setAttr_self],
    by rw [getAttr_setAttr_self]⟩

lemma tryGeom_restore (ats : List (String × String)) (n b : ConceptData)
    (h : decCoords n = true) :
    tryGeomAttrs (setAttrsL ats [("x", showFloat n.x), ("y", showFloat n.y),
      ("width", showFloat n.width), ("height", showFloat n.height)]) b =
    { b with x := n.x, y := n.y, width := n.width, height := n.height } := by
  unfold decCoords at h
  simp only [Bool.and_eq_true] at h
  obtain ⟨⟨⟨h1, h2⟩, h3⟩, h4⟩ := h
  obtain ⟨g1, g2, g3, g4⟩ := getAttr_setAttrsL4 ats "x" "y" "width" "height"
    (showFloat n.x) (showFloat n.y) (showFloat n.width) (showFloat n.height)
    (by decide) (by decide) (by decide) (by decide) (by decide) (by decide)
  unfold tryGeomAttrs
  simp only [g1, g2, g3, g4, pyFloat_showFloat n.x h1, pyFloat_showFloat n.y h2,
    pyFloat_showFloat n.width h3, pyFloat_showFloat n.height h4]

/-! Legacy restore: applying the saved style element back to a fresh node. -/

lemma applyLegacy_restore (n b : ConceptData) (st : XElem) (h : decCoords n = true) :
    applyLegacyStyle (updateStyleElem n st) b =
    { b with x := n.x, y := n.y, width := n.width, height := n.height,
             font_family := n.font_family,
             font_size := ((truncInt n.font_size : ℤ) : ℚ),
             font_color := n.font_color,
             fill_color := n.fill_color, border_color := n.border_color,
             font_bold := n.font_bold, font_italic := n.font_italic,
             font_underline := n.font_underline } := by
  obtain ⟨g0, hg⟩ := updateStyleElem_geom n st
  obtain ⟨t0, ht⟩ := updateStyleElem_text n st
  obtain ⟨sh0, hsh⟩ := updateStyleElem_shape n st
  obtain ⟨f1, f2, f3, f4⟩ := getAttr_setAttrsL4 t0.attrs "font-name" "font-size" "color" "style"
    n.font_family (showInt (truncInt n.font_size)) n.font_color (font_style_to_str n)
    (by decide) (by decide) (by decide) (by decide) (by decide) (by decide)
  obtain ⟨s1, s2⟩ := getAttr_setAttrsL2 sh0.attrs "fill" "border" n.fill_color n.border_color
    (by decide)
  obtain ⟨hb, hi, hu2⟩ := font_style_roundtrip_raw n
  unfold applyLegacyStyle
  simp only [hg, ht, hsh, tryGeom_restore g0.attrs n b h, f1, f2, f3, f4, s1, s2,
    pyFloat_showInt, Option.getD_some, hb, hi, hu2]

/-! Node fields untouched by the legacy style pass. -/

lemma tryGeomAttrs_leg (ats : List (String × String)) (n : ConceptData) :
    legKey (tryGeomAttrs ats n) = legKey n := by
  unfold tryGeomAttrs
  repeat' split
  all_goals rfl

lemma applyLegacyStyle_leg (st : XElem) (n : ConceptData) :
    legKey (applyLegacyStyle st n) = legKey n := by
  have hgeo : ∀ (ats : List (String × String)) (n : ConceptData),
      (tryGeomAttrs ats n).id = n.id ∧ (tryGeomAttrs ats n).label = n.label ∧
      (tryGeomAttrs ats n).is_linker = n.is_linker ∧
      (tryGeomAttrs ats n).border_width = n.border_width := by
    intro ats n
    have h := tryGeomAttrs_leg ats n
    exact ⟨congrArg (fun p => p.1) h, congrArg (fun p => p.2.1) h,
      congrArg (fun p => p.2.2.1) h, congrArg (fun p => p.2.2.2) h⟩
  unfold applyLegacyStyle
  repeat' split
  all_goals simp [legKey, (hgeo _ _).1, (hgeo _ _).2.1, (hgeo _ _).2.2.1, (hgeo _ _).2.2.2]

lemma canonNodeColors_leg (n : ConceptData) : legKey (canonNodeColors n) = legKey n := rfl

lemma map_legKey_congr (cs : List ConceptData) (f : ConceptData → ConceptData)
    (hf : ∀ n, legKey (f n) = legKey n) :
    (cs.map f).map legKey = cs.map legKey := by
  induction cs with
  | nil => rfl
  | cons a t ih => simp [hf a, ih]

/-! The element- and node-level label fix-up of legacy save. -/

lemma elFix_tag (cs : List ConceptData) (el : XElem) : (elFix cs el).tag = el.tag := by
  unfold elFix
  split <;> rfl

lemma gLab_id (cs : List ConceptData) (b : ConceptData) : (gLab cs b).id = b.id := by
  unfold gLab
  split <;> rfl

lemma mkNodeFromElem_elFix (cs : List ConceptData) (el : XElem) (lk : Bool) (w h : ℚ) :
    mkNodeFromElem (elFix cs el) lk w h = gLab cs (mkNodeFromElem el lk w h) := by
  have hid : (mkNodeFromElem el lk w h).id = (getAttr el.attrs "id").getD "" := rfl
  unfold gLab
  rw [hid]
  unfold elFix
  cases hd : dictGet cs ((getAttr el.attrs "id").getD "") with
  | none => rfl
  | some n =>
    show mkNodeFromElem ⟨el.tag, setAttr el.attrs "label" n.label, el.children⟩ lk w h =
      { mkNodeFromElem el lk w h with label := n.label }
    unfold mkNodeFromElem
    rw [getAttr_setAttr_other el.attrs "label" n.label "id" (by decide),
        getAttr_setAttr_self el.attrs "label" n.label]
    rfl

/-! Structure of setLabelsIn. -/

lemma setLabelsIn_tag (cs : List ConceptData) (lt et : String) (m : XElem) :
    (setLabelsIn cs lt et m).tag = m.tag := rfl

lemma taggedChildren_setLabelsIn_other (cs : List ConceptData) (lt et t : String)
    (m : XElem) (hne : (t == lt) = false) :
    (setLabelsIn cs lt et m).taggedChildren t = m.taggedChildren t := by
  unfold setLabelsIn XElem.taggedChildren
  refine filter_map_invariant _ _ _ ?_ ?_
  · intro x hx
    have hxt : x.tag = t := by simpa using hx
    rw [if_neg (by rw [hxt, hne]; simp)]
  · intro x
    by_cases hx : (x.tag == lt) = true
    · rw [if_pos hx]
    · rw [if_neg hx]

lemma taggedChildren_setLabelsIn_self (cs : List ConceptData) (lt et : String) (m : XElem) :
    (setLabelsIn cs lt et m).taggedChildren lt =
      (m.taggedChildren lt).map
        (fun c => ⟨c.tag, c.attrs, c.children.map (elFixT cs et)⟩) := by
  unfold setLabelsIn XElem.taggedChildren
  show (m.children.map (fun ch => if ch.tag == lt then
      ⟨ch.tag, ch.attrs, ch.children.map (elFixT cs et)⟩ else ch)).filter
      (fun c => c.tag == lt) = _
  rw [filter_map_comm _ _ _ (fun x => by
    by_cases hx : (x.tag == lt) = true
    · rw [if_pos hx]
    · rw [if_neg hx])]
  refine List.map_congr_left ?_
  intro c hc
  rw [if_pos (List.mem_filter.mp hc).2]

lemma findall2_taggedCongr (m2 m : XElem) (t1 t2 : String)
    (h : m2.taggedChildren t1 = m.taggedChildren t1) :
    m2.findall2 t1 t2 = m.findall2 t1 t2 := by
  unfold XElem.findall2
  rw [h]

lemma findall2_setLabelsIn_self (cs : List ConceptData) (lt et : String) (m : XElem) :
    (setLabelsIn cs lt et m).findall2 lt et = (m.findall2 lt et).map (elFix cs) := by
  unfold XElem.findall2
  rw [taggedChildren_setLabelsIn_self cs lt et m, List.map_map,
    map_flatten_eq (elFix cs) ((m.taggedChildren lt).map (fun c => c.taggedChildren et)),
    List.map_map]
  refine congrArg List.flatten (List.map_congr_left ?_)
  intro c hc
  show XElem.taggedChildren ⟨c.tag, c.attrs, c.children.map (elFixT cs et)⟩ et =
    (c.taggedChildren et).map (elFix cs)
  unfold XElem.taggedChildren
  show (c.children.map (elFixT cs et)).filter (fun x => x.tag == et) = _
  rw [filter_map_comm _ _ _ (fun x => by
    unfold elFixT
    by_cases hx : (x.tag == et) = true
    · rw [if_pos hx]
      show ((elFix cs x).tag == et) = (x.tag == et)
      rw [elFix_tag]
    · rw [if_neg hx])]
  refine List.map_congr_left ?_
  intro el hel
  show (if el.tag == et then elFix cs el else el) = elFix cs el
  rw [if_pos (List.mem_filter.mp hel).2]

/-! Fusing the legacy node rebuild with the label fix-up. -/

lemma dictInsert_map_gLab (cs l : List ConceptData) (d : ConceptData) :
    dictInsert (l.map (gLab cs)) (gLab cs d) = (dictInsert l d).map (gLab cs) := by
  unfold dictInsert
  have hany : (l.map (gLab cs)).any (fun c => c.id == (gLab cs d).id) =
      l.any (fun c => c.id == d.id) := by
    rw [gLab_id]
    induction l with
    | nil => rfl
    | cons a t ih => simp only [List.map_cons, List.any_cons, ih, gLab_id]
  rw [hany]
  by_cases h : l.any (fun c => c.id == d.id) = true
  · rw [if_pos h, if_pos h, List.map_map, List.map_map]
    refine List.map_congr_left ?_
    intro c _
    show (if (gLab cs c).id == (gLab cs d).id then gLab cs d else gLab cs c) =
      gLab cs (if c.id == d.id then d else c)
    rw [gLab_id, gLab_id]
    by_cases hc : (c.id == d.id) = true
    · rw [if_pos hc, if_pos hc]
    · rw [if_neg hc, if_neg hc]
  · rw [if_neg h, if_neg h, List.map_append]
    rfl

lemma foldl_dictInsert_fusion (cs : List ConceptData) (F : XElem → ConceptData) :
    ∀ (elems : List XElem), (∀ el ∈ elems, F (elFix cs el) = gLab cs (F el)) →
    ∀ init : List ConceptData,
    (elems.map (elFix cs)).foldl (fun a el => dictInsert a (F el)) (init.map (gLab cs)) =
      (elems.foldl (fun a el => dictInsert a (F el)) init).map (gLab cs) := by
  intro elems
  induction elems with
  | nil => intro _ init; rfl
  | cons a t ih =>
    intro hcomm init
    rw [List.map_cons, List.foldl_cons, List.foldl_cons,
      hcomm a (List.mem_cons_self a t), dictInsert_map_gLab]
    exact ih (fun el hel => hcomm el (List.mem_cons_of_mem a hel)) (dictInsert init (F a))

lemma legacyNodes1_setLabels (cs : List ConceptData) (m2 m : XElem)
    (hc : conceptElems m2 = (conceptElems m).map (elFix cs))
    (hl : linkerElems m2 = (linkerElems m).map (elFix cs)) :
    legacyNodes1 [] m2 = (legacyNodes1 [] m).map (gLab cs) := by
  simp only [legacyNodes1]
  rw [hc, hl]
  have h1 := foldl_dictInsert_fusion cs (fun el => mkNodeFromElem el false 120 60)
    (conceptElems m) (fun el _ => mkNodeFromElem_elFix cs el false 120 60) []
  rw [List.map_nil] at h1
  rw [h1]
  exact foldl_dictInsert_fusion cs (fun el => mkNodeFromElem el true 120 40)
    (linkerElems m) (fun el _ => mkNodeFromElem_elFix cs el true 120 40) _

/-! Structure of the legacy style fold. -/

lemma beq_symm_false (a b : String) (h : (a == b) = false) : (b == a) = false := by
  simp only [beq_eq_false_iff_ne] at h ⊢
  exact fun hcon => h hcon.symm

lemma updateLastStyleFor_tag (m : XElem) (cid : String) (f : XElem → XElem) :
    (updateLastStyleFor m cid f).tag = m.tag := rfl

lemma appendNewStyle_tag (m : XElem) (st : XElem) : (appendNewStyle m st).tag = m.tag := by
  unfold appendNewStyle
  split <;> rfl

lemma taggedChildren_updateLastStyleFor_other (m : XElem) (cid : String) (f : XElem → XElem)
    (t : String) (ht : (t == "style-list") = false) :
    (updateLastStyleFor m cid f).taggedChildren t = m.taggedChildren t := by
  have hts := beq_symm_false t "style-list" ht
  unfold updateLastStyleFor XElem.taggedChildren
  refine filter_updateLastWhere_neg _ _ _ _ ?_
  intro x hx
  have hxt : x.tag = "style-list" := by
    unfold hasStyleFor at hx
    rw [Bool.and_eq_true] at hx
    simpa using hx.1
  constructor
  · show (x.tag == t) = false
    rw [hxt]
    exact hts
  · show (x.tag == t) = false
    rw [hxt]
    exact hts

lemma taggedChildren_appendNewStyle_other (m : XElem) (st : XElem) (t : String)
    (ht : (t == "style-list") = false) :
    (appendNewStyle m st).taggedChildren t = m.taggedChildren t := by
  have hts := beq_symm_false t "style-list" ht
  unfold appendNewStyle XElem.taggedChildren
  by_cases h : m.children.any (fun c => c.tag == "style-list") = true
  · rw [if_pos h]
    refine filter_updateFirstWhere_neg _ _ _ _ ?_
    intro x hx
    have hxt : x.tag = "style-list" := by simpa using hx
    constructor
    · show (x.tag == t) = false
      rw [hxt]
      exact hts
    · show (x.tag == t) = false
      rw [hxt]
      exact hts
  · rw [if_neg h]
    show ((m.children ++ [(⟨"style-list", [], [st]⟩ : XElem)]).filter
      (fun c => c.tag == t)) = m.children.filter (fun c => c.tag == t)
    rw [List.filter_append]
    simp [hts]

lemma legacyStyleFold_tag (m1 : XElem) (l : List ConceptData) :
    ∀ mcur : XElem,
    (l.foldl (fun m2 n =>
      if (styleElems m1).any (fun st => ((getAttr st.attrs "object-id").getD "" == n.id))
      then updateLastStyleFor m2 n.id (updateStyleElem n)
      else appendNewStyle m2 (updateStyleElem n ⟨"style", [("object-id", n.id)], []⟩))
      mcur).tag = mcur.tag := by
  induction l with
  | nil => intro mcur; rfl
  | cons a t ih =>
    intro mcur
    rw [List.foldl_cons]
    refine (ih _).trans ?_
    by_cases h : (styleElems m1).any
        (fun st => ((getAttr st.attrs "object-id").getD "" == a.id)) = true
    · rw [if_pos h]
      rfl
    · rw [if_neg h]
      exact appendNewStyle_tag _ _

lemma legacyStyleFold_tagged_other (m1 : XElem) (t : String)
    (ht : (t == "style-list") = false) (l : List ConceptData) :
    ∀ mcur : XElem,
    (l.foldl (fun m2 n =>
      if (styleElems m1).any (fun st => ((getAttr st.attrs "object-id").getD "" == n.id))
      then updateLastStyleFor m2 n.id (updateStyleElem n)
      else appendNewStyle m2 (updateStyleElem n ⟨"style", [("object-id", n.id)], []⟩))
      mcur).taggedChildren t = mcur.taggedChildren t := by
  induction l with
  | nil => intro mcur; rfl
  | cons a tl ih =>
    intro mcur
    rw [List.foldl_cons]
    refine (ih _).trans ?_
    by_cases h : (styleElems m1).any
        (fun st => ((getAttr st.attrs "object-id").getD "" == a.id)) = true
    · rw [if_pos h]
      exact taggedChildren_updateLastStyleFor_other _ _ _ t ht
    · rw [if_neg h]
      exact taggedChildren_appendNewStyle_other _ _ t ht

/-! Element lists of the legacy-saved map. -/

lemma conceptElems_saveLegacyMap (doc : CXLDocument) (m : XElem) :
    conceptElems (saveLegacyMap doc m) = (conceptElems m).map (elFix doc.concepts) := by
  have hstep : conceptElems (saveLegacyMap doc m) =
      conceptElems (setLabelsIn doc.concepts "concept-list" "concept" m) := by
    simp only [saveLegacyMap]
    exact findall2_taggedCongr _ _ "concept-list" "concept"
      ((legacyStyleFold_tagged_other _ "concept-list" (by decide) _ _).trans
        (taggedChildren_setLabelsIn_other doc.concepts "linking-phrase-list" "linking-phrase"
          "concept-list" _ (by decide)))
  rw [hstep]
  exact findall2_setLabelsIn_self doc.concepts "concept-list" "concept" m

lemma linkerElems_saveLegacyMap (doc : CXLDocument) (m : XElem) :
    linkerElems (saveLegacyMap doc m) = (linkerElems m).map (elFix doc.concepts) := by
  have hstep : linkerElems (saveLegacyMap doc m) =
      linkerElems (setLabelsIn doc.concepts "linking-phrase-list" "linking-phrase"
        (setLabelsIn doc.concepts "concept-list" "concept" m)) := by
    simp only [saveLegacyMap]
    exact findall2_taggedCongr _ _ "linking-phrase-list" "linking-phrase"
      (legacyStyleFold_tagged_other _ "linking-phrase-list" (by decide) _ _)
  rw [hstep]
  have h2 : linkerElems (setLabelsIn doc.concepts "linking-phrase-list" "linking-phrase"
      (setLabelsIn doc.concepts "concept-list" "concept" m)) =
      (linkerElems (setLabelsIn doc.concepts "concept-list" "concept" m)).map
        (elFix doc.concepts) :=
    findall2_setLabelsIn_self doc.concepts "linking-phrase-list" "linking-phrase" _
  rw [h2]
  refine congrArg (List.map (elFix doc.concepts)) ?_
  exact findall2_taggedCongr _ _ "linking-phrase-list" "linking-phrase"
    (taggedChildren_setLabelsIn_other doc.concepts "concept-list" "concept"
      "linking-phrase-list" _ (by decide))

lemma saveLegacyMap_tagged_other (doc : CXLDocument) (m : XElem) (t : String)
    (h1 : (t == "style-list") = false) (h2 : (t == "concept-list") = false)
    (h3 : (t == "linking-phrase-list") = false) :
    (saveLegacyMap doc m).taggedChildren t = m.taggedChildren t := by
  simp only [saveLegacyMap]
  rw [legacyStyleFold_tagged_other _ t h1,
    taggedChildren_setLabelsIn_other _ _ _ t _ h3,
    taggedChildren_setLabelsIn_other _ _ _ t _ h2]

lemma connElems_saveLegacyMap (doc : CXLDocument) (m : XElem) :
    connElems (saveLegacyMap doc m) = connElems m :=
  findall2_taggedCongr _ _ "connection-list" "connection"
    (saveLegacyMap_tagged_other doc m "connection-list" (by decide) (by decide) (by decide))

lemma appFlag_saveLegacyMap (doc : CXLDocument) (m : XElem) :
    (saveLegacyMap doc m).find1 "concept-appearance-list" =
      m.find1 "concept-appearance-list" :=
  congrArg List.head? (saveLegacyMap_tagged_other doc m "concept-appearance-list"
    (by decide) (by decide) (by decide))

lemma saveLegacyMap_tag (doc : CXLDocument) (m : XElem) :
    (saveLegacyMap doc m).tag = m.tag := by
  simp only [saveLegacyMap]
  rw [legacyStyleFold_tag]
  rfl

/-! dict.get facts used to cancel the legacy label fix-up. -/

lemma find?_cons_pos2 {α : Type} (p : α → Bool) (a : α) (l : List α) (h : p a = true) :
    (a :: l).find? p = some a := by
  show (match p a with | true => some a | false => List.find? p l) = some a
  rw [h]

lemma find?_cons_neg2 {α : Type} (p : α → Bool) (a : α) (l : List α) (h : p a = false) :
    (a :: l).find? p = l.find? p := by
  show (match p a with | true => some a | false => List.find? p l) = List.find? p l
  rw [h]

lemma dictGet_self_nodup (l : List ConceptData) (hnd : (l.map ConceptData.id).Nodup)
    (b : ConceptData) (hb : b ∈ l) : dictGet l b.id = some b := by
  induction l with
  | nil => simp at hb
  | cons a t ih =>
    rw [List.map_cons, List.nodup_cons] at hnd
    obtain ⟨hat, hnd2⟩ := hnd
    rcases List.mem_cons.mp hb with rfl | hbt
    · unfold dictGet
      rw [find?_cons_pos2 (fun c => c.id == b.id) b t (by simp)]
    · have hab : ¬ (a.id == b.id) = true := by
        intro hcon
        have hab2 : a.id = b.id := by simpa using hcon
        exact hat (by rw [hab2]; exact List.mem_map_of_mem ConceptData.id hbt)
      unfold dictGet
      rw [find?_cons_neg2 (fun c => c.id == b.id) a t (by simpa using hab)]
      exact ih hnd2 hbt

lemma dictGet_label_congr (cs : List ConceptData) :
    ∀ ds : List ConceptData, cs.map legKey = ds.map legKey → ∀ k : String,
    (dictGet cs k).map (fun n => n.label) = (dictGet ds k).map (fun n => n.label) := by
  induction cs with
  | nil =>
    intro ds h k
    cases ds with
    | nil => rfl
    | cons d ds2 => simp at h
  | cons c cs2 ih =>
    intro ds h k
    cases ds with
    | nil => simp at h
    | cons d ds2 =>
      rw [List.map_cons, List.map_cons] at h
      injection h with h1 h2
      have hid : c.id = d.id := congrArg (fun p => p.1) h1
      have hlab : c.label = d.label := congrArg (fun p => p.2.1) h1
      unfold dictGet
      by_cases hk : (c.id == k) = true
      · rw [find?_cons_pos2 (fun c => c.id == k) c cs2 hk,
          find?_cons_pos2 (fun c => c.id == k) d ds2
            (by show (d.id == k) = true; rw [← hid]; exact hk)]
        simp [hlab]
      · rw [find?_cons_neg2 (fun c => c.id == k) c cs2 (by simpa using hk),
          find?_cons_neg2 (fun c => c.id == k) d ds2
            (by show (d.id == k) = false; rw [← hid]; simpa using hk)]
        exact ih ds2 h2 k

lemma mem_dictInsert (l : List ConceptData) (d b : ConceptData) (hb : b ∈ dictInsert l d) :
    b ∈ l ∨ b = d := by
  unfold dictInsert at hb
  by_cases h : l.any (fun c => c.id == d.id) = true
  · rw [if_pos h] at hb
    obtain ⟨c, hc, hcb⟩ := List.mem_map.mp hb
    by_cases hcd : (c.id == d.id) = true
    · rw [if_pos hcd] at hcb
      exact Or.inr hcb.symm
    · rw [if_neg hcd] at hcb
      exact Or.inl (hcb ▸ hc)
  · rw [if_neg h] at hb
    rcases List.mem_append.mp hb with h2 | h2
    · exact Or.inl h2
    · exact Or.inr (by simpa using h2)

lemma foldl_dictInsert_pred {α : Type} (P : ConceptData → Prop) (F : α → ConceptData)
    (l : List α) (hF : ∀ x, P (F x)) :
    ∀ init : List ConceptData, (∀ b ∈ init, P b) →
    ∀ b ∈ l.foldl (fun a x => dictInsert a (F x)) init, P b := by
  induction l with
  | nil => exact fun init hinit b hb => hinit b hb
  | cons a t ih =>
    intro init hinit b hb
    refine ih (dictInsert init (F a)) ?_ b hb
    intro c hc
    rcases mem_dictInsert init (F a) c hc with h2 | h2
    · exact hinit c h2
    · rw [h2]
      exact hF a

lemma legacyNodes1_default (m : XElem) (b : ConceptData) (hb : b ∈ legacyNodes1 [] m) :
    b.border_width = 1 := by
  simp only [legacyNodes1] at hb
  refine foldl_dictInsert_pred (fun n => n.border_width = 1)
    (fun el => mkNodeFromElem el true 120 40) (linkerElems m) (fun el => rfl) _ ?_ b hb
  intro c hc
  exact foldl_dictInsert_pred (fun n => n.border_width = 1)
    (fun el => mkNodeFromElem el false 120 60) (conceptElems m) (fun el => rfl) []
    (by simp) c hc

lemma gLab_fixed (cs l : List ConceptData)
    (h : cs.map legKey = l.map legKey)
    (hnd : (l.map ConceptData.id).Nodup)
    (b : ConceptData) (hb : b ∈ l) : gLab cs b = b := by
  have h1 : (dictGet cs b.id).map (fun n => n.label) =
      (dictGet l b.id).map (fun n => n.label) := dictGet_label_congr cs l h b.id
  rw [dictGet_self_nodup l hnd b hb] at h1
  unfold gLab
  cases hd : dictGet cs b.id with
  | none =>
    rw [hd] at h1
  | some nn =>
    rw [hd] at h1
    have h2 : nn.label = b.label := by simpa using h1
    show ({ b with label := nn.label } : ConceptData) = b
    rw [h2]

lemma map_gLab_fixed (cs l : List ConceptData)
    (h : cs.map legKey = l.map legKey) (hnd : (l.map ConceptData.id).Nodup) :
    l.map (gLab cs) = l := by
  conv_rhs => rw [← List.map_id l]
  refine List.map_congr_left ?_
  intro b hb
  exact gLab_fixed cs l h hnd b hb

lemma legacyNodes2_leg (cs : List ConceptData) (m : XElem) :
    (legacyNodes2 cs m).map legKey = cs.map legKey := by
  unfold legacyNodes2
  refine map_legKey_congr _ _ (fun n => ?_)
  cases h : lastStyleFor m n.id
  · rfl
  · exact applyLegacyStyle_leg _ n

lemma load_leg_legKey (cs : List ConceptData) (m : XElem) :
    ((legacyNodes2 cs m).map canonNodeColors).map legKey = cs.map legKey := by
  rw [map_legKey_congr _ canonNodeColors (fun n => rfl), legacyNodes2_leg]

/-! The legacy branch of load as a record equation, and the legacy save. -/

lemma load_leg_eq (fp2 : String) (uf : ℕ → String) (r m : XElem)
    (hm : r.find1 "map" = some m)
    (ha : (m.find1 "concept-appearance-list").isSome = false) :
    load {} fp2 uf (.ok r) =
      ({ root := some r, filepath := some fp2, appearance_mode := false,
         concepts := (legacyNodes2 (legacyNodes1 [] m) m).map canonNodeColors,
         connections := parseConns (legacyNodes1 [] m) (connElems m) uf }, none) := by
  simp only [load, hm, ha, Bool.false_eq_true, if_false]
  rfl

lemma save_okLeg (doc : CXLDocument) (r m : XElem) (fp : String)
    (hroot : doc.root = some r) (hm : r.find1 "map" = some m)
    (happ : doc.appearance_mode = false)
    (hfp : (fp == "") = false) :
    save doc (some fp) = .ok ⟨r.tag, r.attrs,
      updateFirstWhere (fun c => c.tag == "map")
        (fun _ => saveLegacyMap doc m) r.children⟩ := by
  simp only [save, hroot, hm, happ, Bool.false_eq_true, if_false, hfp]

lemma saveLegacyMap_eq_fold (doc : CXLDocument) (m : XElem) :
    saveLegacyMap doc m =
      doc.concepts.foldl (fun m2 n =>
        if (styleElems (setLabelsIn doc.concepts "linking-phrase-list" "linking-phrase"
              (setLabelsIn doc.concepts "concept-list" "concept" m))).any
            (fun st => ((getAttr st.attrs "object-id").getD "" == n.id))
        then updateLastStyleFor m2 n.id (updateStyleElem n)
        else appendNewStyle m2 (updateStyleElem n ⟨"style", [("object-id", n.id)], []⟩))
        (setLabelsIn doc.concepts "linking-phrase-list" "linking-phrase"
          (setLabelsIn doc.concepts "concept-list" "concept" m)) := rfl

/-! Restoring one node through the legacy reload. -/

lemma legacyNode_restore (msave : XElem) (b n : ConceptData) (st : XElem)
    (hid : n.id = b.id) (hlab : n.label = b.label) (hlk : n.is_linker = b.is_linker)
    (hbw : n.border_width = b.border_width) (hbw1 : b.border_width = 1)
    (hst : lastStyleFor msave b.id = some (updateStyleElem n st))
    (hdec : decCoords n = true)
    (hfix : parse_color n.font_color = n.font_color ∧
      parse_color n.fill_color = n.fill_color ∧
      parse_color n.border_color = n.border_color) :
    canonNodeColors (match lastStyleFor msave b.id with
      | none => b
      | some st2 => applyLegacyStyle st2 b) = truncStyle n := by
  rw [hst]
  show canonNodeColors (applyLegacyStyle (updateStyleElem n st) b) = truncStyle n
  rw [applyLegacy_restore n b st hdec]
  obtain ⟨hf1, hf2, hf3⟩ := hfix
  unfold canonNodeColors truncStyle
  show ({ id := b.id, label := b.label, x := n.x, y := n.y, width := n.width,
          height := n.height, font_family := n.font_family,
          font_size := ((truncInt n.font_size : ℤ) : ℚ),
          font_color := parse_color n.font_color,
          fill_color := parse_color n.fill_color,
          border_color := parse_color n.border_color, border_width := b.border_width,
          font_bold := n.font_bold, font_italic := n.font_italic,
          font_underline := n.font_underline, is_linker := b.is_linker } : ConceptData) =
    ({ id := n.id, label := n.label, x := n.x, y := n.y, width := n.width,
       height := n.height, font_family := n.font_family,
       font_size := ((truncInt n.font_size : ℤ) : ℚ),
       font_color := n.font_color, fill_color := n.fill_color,
       border_color := n.border_color,
       border_width := ((truncInt n.border_width : ℤ) : ℚ),
       font_bold := n.font_bold, font_italic := n.font_italic,
       font_underline := n.font_underline, is_linker := n.is_linker } : ConceptData)
  rw [hf1, hf2, hf3, hid, hlab, hlk, hbw, hbw1,
    show truncInt ((1 : ℚ)) = (1 : ℤ) from rfl, Int.cast_one]

lemma reload_leg_concepts (m : XElem) (doc : CXLDocument)
    (hC : doc.concepts = (legacyNodes2 (legacyNodes1 [] m) m).map canonNodeColors)
    (hdec : ∀ n ∈ doc.concepts, decCoords n = true)
    (hfix : ∀ n ∈ doc.concepts, parse_color n.font_color = n.font_color ∧
      parse_color n.fill_color = n.fill_color ∧
      parse_color n.border_color = n.border_color) :
    (legacyNodes2 (legacyNodes1 [] m) (saveLegacyMap doc m)).map canonNodeColors =
      doc.concepts.map truncStyle := by
  have hnodC : (doc.concepts.map ConceptData.id).Nodup := by
    rw [hC]
    exact load_leg_nodup m
  have hstyles := legacyFold_styles
    (setLabelsIn doc.concepts "linking-phrase-list" "linking-phrase"
      (setLabelsIn doc.concepts "concept-list" "concept" m))
    doc.concepts []
    (setLabelsIn doc.concepts "linking-phrase-list" "linking-phrase"
      (setLabelsIn doc.concepts "concept-list" "concept" m))
    (by simpa using hnodC) (by simp) (fun n _ => rfl)
  rw [← saveLegacyMap_eq_fold doc m] at hstyles
  conv_rhs => rw [hC]
  unfold legacyNodes2
  rw [List.map_map, List.map_map, List.map_map]
  refine List.map_congr_left ?_
  intro b hb
  show canonNodeColors (match lastStyleFor (saveLegacyMap doc m) b.id with
      | none => b
      | some st2 => applyLegacyStyle st2 b) =
    truncStyle (canonNodeColors (match lastStyleFor m b.id with
      | none => b
      | some st2 => applyLegacyStyle st2 b))
  have hbw1 : b.border_width = 1 := legacyNodes1_default m b hb
  have hkb : legKey (canonNodeColors (match lastStyleFor m b.id with
      | none => b
      | some st2 => applyLegacyStyle st2 b)) = legKey b := by
    rw [canonNodeColors_leg]
    cases hst0 : lastStyleFor m b.id
    · rfl
    · exact applyLegacyStyle_leg _ b
  have hmem : canonNodeColors (match lastStyleFor m b.id with
      | none => b
      | some st2 => applyLegacyStyle st2 b) ∈ doc.concepts := by
    rw [hC]
    exact List.mem_map_of_mem canonNodeColors (List.mem_map_of_mem _ hb)
  have hid : (canonNodeColors (match lastStyleFor m b.id with
      | none => b
      | some st2 => applyLegacyStyle st2 b)).id = b.id := congrArg (fun p => p.1) hkb
  have hlab : (canonNodeColors (match lastStyleFor m b.id with
      | none => b
      | some st2 => applyLegacyStyle st2 b)).label = b.label :=
    congrArg (fun p => p.2.1) hkb
  have hlk : (canonNodeColors (match lastStyleFor m b.id with
      | none => b
      | some st2 => applyLegacyStyle st2 b)).is_linker = b.is_linker :=
    congrArg (fun p => p.2.2.1) hkb
  have hbw : (canonNodeColors (match lastStyleFor m b.id with
      | none => b
      | some st2 => applyLegacyStyle st2 b)).border_width = b.border_width :=
    congrArg (fun p => p.2.2.2) hkb
  obtain ⟨st, hst⟩ := hstyles _ (by simpa using hmem)
  rw [hid] at hst
  exact legacyNode_restore (saveLegacyMap doc m) b
    (canonNodeColors (match lastStyleFor m b.id with
      | none => b
      | some st2 => applyLegacyStyle st2 b)) st hid hlab hlk hbw hbw1 hst
    (hdec _ hmem) (hfix _ hmem)

/-! Legacy-dialect master round trip. -/

lemma roundtripLeg (doc : CXLDocument) (r m : XElem) (fp fp2 fp3 : String) (uf : ℕ → String)
    (hm : r.find1 "map" = some m)
    (ha : (m.find1 "concept-appearance-list").isSome = false)
    (hd1 : doc = (load {} fp uf (.ok r)).1)
    (hdec : ∀ n ∈ doc.concepts, decCoords n = true)
    (hfix : ∀ n ∈ doc.concepts, parse_color n.font_color = n.font_color ∧
      parse_color n.fill_color = n.fill_color ∧
      parse_color n.border_color = n.border_color)
    (hfp2 : (fp2 == "") = false) :
    ∃ t, save doc (some fp2) = .ok t ∧
      (load {} fp3 uf (.ok t)).2 = none ∧
      (load {} fp3 uf (.ok t)).1.concepts = doc.concepts.map truncStyle ∧
      (load {} fp3 uf (.ok t)).1.connections = doc.connections := by
  have hload := load_leg_eq fp uf r m hm ha
  have hroot : doc.root = some r := by rw [hd1, hload]
  have happ : doc.appearance_mode = false := by rw [hd1, hload]
  have hC : doc.concepts = (legacyNodes2 (legacyNodes1 [] m) m).map canonNodeColors := by
    rw [hd1, hload]
  have hConn : doc.connections = parseConns (legacyNodes1 [] m) (connElems m) uf := by
    rw [hd1, hload]
  have htag : (saveLegacyMap doc m).tag = "map" := by
    rw [saveLegacyMap_tag]
    exact find1_tag r "map" m hm
  have hT : XElem.find1 ⟨r.tag, r.attrs,
      updateFirstWhere (fun c => c.tag == "map") (fun _ => saveLegacyMap doc m)
        r.children⟩ "map" = some (saveLegacyMap doc m) :=
    find1_saved r _ m hm htag
  have ha2 : ((saveLegacyMap doc m).find1 "concept-appearance-list").isSome = false := by
    rw [appFlag_saveLegacyMap]
    exact ha
  have hreload := load_leg_eq fp3 uf _ _ hT ha2
  have hb1 : legacyNodes1 [] (saveLegacyMap doc m) = legacyNodes1 [] m := by
    rw [legacyNodes1_setLabels doc.concepts _ m (conceptElems_saveLegacyMap doc m)
      (linkerElems_saveLegacyMap doc m)]
    exact map_gLab_fixed doc.concepts (legacyNodes1 [] m)
      (by rw [hC]; exact load_leg_legKey _ m) (legacyNodes1_nodup [] m (by simp))
  refine ⟨_, save_okLeg doc r m fp2 hroot hm happ hfp2, ?_, ?_, ?_⟩
  · rw [hreload]
  · rw [hreload]
    show (legacyNodes2 (legacyNodes1 [] (saveLegacyMap doc m)) (saveLegacyMap doc m)).map
      canonNodeColors = doc.concepts.map truncStyle
    rw [hb1]
    exact reload_leg_concepts m doc hC hdec hfix
  · rw [hreload]
    show parseConns (legacyNodes1 [] (saveLegacyMap doc m))
      (connElems (saveLegacyMap doc m)) uf = doc.connections
    rw [hb1, connElems_saveLegacyMap]
    exact hConn.symm

/-- C2 (amended): for a file whose map element carries at most one list child
of each structural kind, loading succeeds, and saving the loaded document onto
any nonempty path and reloading reproduces the connections exactly and the
concepts up to the save format: font size and border thickness are written
through str(int(...)) and so are truncated to integers (the counterexample
shows a loaded font size 14.5 reloading as 14, refuting the unrestricted
claim), and the appearance dialect reorders the node dictionary to concepts
first, then linking phrases, while the legacy dialect keeps document order.
In the appearance dialect this requires nodes that survive the appearance
save format (decimal coordinates, canonical colours, nonempty font name),
distinct node and connection ids, and connections with nonempty ids,
resolving endpoints and the loader arrow policy; in the legacy dialect it
requires decimal coordinates and parse_color-fixed colours. -/
theorem C2_roundtrip (r m : XElem) (fp fp2 fp3 : String) (uf : ℕ → String)
    (d1 : CXLDocument)
    (hm : r.find1 "map" = some m)
    (hd1 : d1 = (load {} fp uf (.ok r)).1)
    (hu : ∀ t ∈ saveListTags, (m.taggedChildren t).length ≤ 1)
    (hgA : d1.appearance_mode = true →
      (∀ n ∈ d1.concepts, goodNodeT n = true) ∧
      (d1.connections.map ConnectionData.id).Nodup ∧
      (∀ c ∈ d1.connections, goodConn d1.concepts c = true))
    (hgL : d1.appearance_mode = false →
      (∀ n ∈ d1.concepts, decCoords n = true) ∧
      (∀ n ∈ d1.concepts, parse_color n.font_color = n.font_color ∧
        parse_color n.fill_color = n.fill_color ∧
        parse_color n.border_color = n.border_color))
    (hfp2 : (fp2 == "") = false) :
    (load {} fp uf (.ok r)).2 = none ∧
    ∃ t, save d1 (some fp2) = .ok t ∧
      (load {} fp3 uf (.ok t)).2 = none ∧
      (load {} fp3 uf (.ok t)).1.concepts =
        (if d1.appearance_mode then filterSplit d1.concepts else d1.concepts).map
          truncStyle ∧
      (load {} fp3 uf (.ok t)).1.connections = d1.connections := by
  cases ham : (m.find1 "concept-appearance-list").isSome with
  | true =>
    have hload := load_app_eq fp uf r m hm ham
    have happ : d1.appearance_mode = true := by rw [hd1, hload]
    obtain ⟨hgood, hcn, hconns⟩ := hgA happ
    have hroot : d1.root = some r := by rw [hd1, hload]
    have hn : (d1.concepts.map ConceptData.id).Nodup := by
      rw [hd1, hload]
      exact load_app_nodup m _ _
    obtain ⟨t, h1, h2, h3, h4⟩ := roundtripApp d1 r m fp2 fp3 uf hroot hm happ hu hn hcn
      hgood hconns hfp2
    refine ⟨by rw [hload], t, h1, h2, ?_, h4⟩
    rw [if_pos happ]
    exact h3
  | false =>
    have hload := load_leg_eq fp uf r m hm ham
    have happ : d1.appearance_mode = false := by rw [hd1, hload]
    obtain ⟨hdec, hfix⟩ := hgL happ
    obtain ⟨t, h1, h2, h3, h4⟩ := roundtripLeg d1 r m fp fp2 fp3 uf hm ham hd1 hdec hfix
      hfp2
    refine ⟨by rw [hload], t, h1, h2, ?_, h4⟩
    rw [if_neg (by simp [happ])]
    exact h3

/-- Witness for C2 at the concrete appearance file with a fractional font size. -/
theorem C2_roundtrip_witness :
    (load {} "a.cxl" (fun _ => "u") (.ok c2file)).2 = none ∧
    ∃ t, save (load {} "a.cxl" (fun _ => "u") (.ok c2file)).1 (some "b.cxl") = .ok t ∧
      (load {} "c.cxl" (fun _ => "u") (.ok t)).2 = none ∧
      (load {} "c.cxl" (fun _ => "u") (.ok t)).1.concepts =
        (if (load {} "a.cxl" (fun _ => "u") (.ok c2file)).1.appearance_mode then
          filterSplit (load {} "a.cxl" (fun _ => "u") (.ok c2file)).1.concepts
        else (load {} "a.cxl" (fun _ => "u") (.ok c2file)).1.concepts).map truncStyle ∧
      (load {} "c.cxl" (fun _ => "u") (.ok t)).1.connections =
        (load {} "a.cxl" (fun _ => "u") (.ok c2file)).1.connections :=
  C2_roundtrip c2file ((c2file.find1 "map").getD ⟨"", [], []⟩) "a.cxl" "b.cxl" "c.cxl"
    (fun _ => "u") ((load {} "a.cxl" (fun _ => "u") (.ok c2file)).1) rfl rfl
    (by decide)
    (fun _ => ⟨by decide, by decide, by decide⟩)
    (fun h => absurd h (by decide))
    (by decide)

end Antmap
